import Mathlib

/-!
# UefiPayloadPkg/UefiPayloadEntry/UniversalPayloadEntry.c

A shallow embedding of the HOB (hand-off block) search and migration code of
the universal payload entry: `FindResourceDescriptorByRange`,
`FindAnotherHighestBelow4GResourceDescriptor`, `BuildHobs` and `AddNewHob`.
The region that `BuildHobs` selects is read from the old list before anything
is written (`BuildHobs`); the new list is then written by `HobConstructor` and
`AddNewHob` into a memory of bytes, and the migration loop reads the old list
from that same memory (`BuildHobs.written`).

Conventions of the embedding.

* A pointer into the HOB list is the address it holds, a `Nat`.  A pointer
  that may be `NULL` is an `Option Nat`, `none` being `NULL`; `BuildHobs`
  asserts that the list base is not `NULL` and every record pointer is at
  least the base, so no record pointer is `NULL`.
* `EFI_PEI_HOB_POINTERS` is a union of typed pointers to one address.  The
  memory is a function from an address to what each of these views reads
  there (`HobView`); the code decides which view it reads, the embedding does
  not tag a record with its variant.
* `UINT64` values are naturals below `2 ^ 64`; additions and subtractions of
  the source are taken modulo `2 ^ 64` (`add64`, `sub64`).  `UINTN` is taken
  as 64 bits wide (the X64 build), so that the casts `(VOID *) (UINTN) x`
  of `BuildHobs` keep the value.
* Every loop of the source is a recursion on a fuel argument; a result of
  `none` means that the fuel ran out before the loop left.
-/

namespace UniversalPayload

/-! ## Constants declared outside the translated file -/

/-- Modelled from the spec: the record type of the hand-off record
(`EFI_HOB_TYPE_HANDOFF` of the PI headers, which the translated file includes
but which the sources at hand do not contain). -/
def EFI_HOB_TYPE_HANDOFF : Nat := 0x0001

/-- Modelled from the spec: the record type of a resource descriptor record
(`EFI_HOB_TYPE_RESOURCE_DESCRIPTOR` of the PI headers). -/
def EFI_HOB_TYPE_RESOURCE_DESCRIPTOR : Nat := 0x0003

/-- Modelled from the spec: the record type of the end-of-list marker
(`EFI_HOB_TYPE_END_OF_HOB_LIST` of the PI headers). -/
def EFI_HOB_TYPE_END_OF_HOB_LIST : Nat := 0xFFFF

/-- Modelled from the spec: the resource type "system memory"
(`EFI_RESOURCE_SYSTEM_MEMORY` of the PI headers). -/
def EFI_RESOURCE_SYSTEM_MEMORY : Nat := 0x00000000

/-- Modelled from the spec: the fixed address ceiling of 4GiB (`BASE_4GB` of
the base headers). -/
def BASE_4GB : Nat := 0x100000000

/-- Modelled from the spec: attribute bit Present (PI header value). -/
def EFI_RESOURCE_ATTRIBUTE_PRESENT : Nat := 0x00000001
/-- Modelled from the spec: attribute bit Initialized (PI header value). -/
def EFI_RESOURCE_ATTRIBUTE_INITIALIZED : Nat := 0x00000002
/-- Modelled from the spec: attribute bit Tested (PI header value). -/
def EFI_RESOURCE_ATTRIBUTE_TESTED : Nat := 0x00000004
/-- Modelled from the spec: attribute bit ReadProtected (PI header value). -/
def EFI_RESOURCE_ATTRIBUTE_READ_PROTECTED : Nat := 0x00000080
/-- Modelled from the spec: attribute bit WriteProtected (PI header value). -/
def EFI_RESOURCE_ATTRIBUTE_WRITE_PROTECTED : Nat := 0x00000100
/-- Modelled from the spec: attribute bit ExecutionProtected (PI header
value). -/
def EFI_RESOURCE_ATTRIBUTE_EXECUTION_PROTECTED : Nat := 0x00000200
/-- Modelled from the spec: attribute bit ReadOnlyProtected (PI header
value). -/
def EFI_RESOURCE_ATTRIBUTE_READ_ONLY_PROTECTED : Nat := 0x00040000
/-- Modelled from the spec: attribute bit 16BitIO (PI header value). -/
def EFI_RESOURCE_ATTRIBUTE_16_BIT_IO : Nat := 0x00004000
/-- Modelled from the spec: attribute bit 32BitIO (PI header value). -/
def EFI_RESOURCE_ATTRIBUTE_32_BIT_IO : Nat := 0x00008000
/-- Modelled from the spec: attribute bit 64BitIO (PI header value). -/
def EFI_RESOURCE_ATTRIBUTE_64_BIT_IO : Nat := 0x00010000
/-- Modelled from the spec: attribute bit Persistent (PI header value). -/
def EFI_RESOURCE_ATTRIBUTE_PERSISTENT : Nat := 0x00800000

/-! ## Constants of the translated file -/

/-- The macro `MEMORY_ATTRIBUTE_MASK`: the bitwise or of eleven attribute
bits, in the order of the source. -/
def MEMORY_ATTRIBUTE_MASK : Nat :=
  EFI_RESOURCE_ATTRIBUTE_PRESENT |||
  EFI_RESOURCE_ATTRIBUTE_INITIALIZED |||
  EFI_RESOURCE_ATTRIBUTE_TESTED |||
  EFI_RESOURCE_ATTRIBUTE_READ_PROTECTED |||
  EFI_RESOURCE_ATTRIBUTE_WRITE_PROTECTED |||
  EFI_RESOURCE_ATTRIBUTE_EXECUTION_PROTECTED |||
  EFI_RESOURCE_ATTRIBUTE_READ_ONLY_PROTECTED |||
  EFI_RESOURCE_ATTRIBUTE_16_BIT_IO |||
  EFI_RESOURCE_ATTRIBUTE_32_BIT_IO |||
  EFI_RESOURCE_ATTRIBUTE_64_BIT_IO |||
  EFI_RESOURCE_ATTRIBUTE_PERSISTENT

/-- The macro `TESTED_MEMORY_ATTRIBUTES`. -/
def TESTED_MEMORY_ATTRIBUTES : Nat :=
  EFI_RESOURCE_ATTRIBUTE_PRESENT |||
  EFI_RESOURCE_ATTRIBUTE_INITIALIZED |||
  EFI_RESOURCE_ATTRIBUTE_TESTED

/-! ## Machine arithmetic -/

/-- Addition of two `UINT64` values. -/
def add64 (a b : Nat) : Nat := (a + b) % 2 ^ 64

/-- Subtraction of two `UINT64` values (`a`, `b` below `2 ^ 64`). -/
def sub64 (a b : Nat) : Nat := (a + 2 ^ 64 - b) % 2 ^ 64

/-! ## Memory -/

/-- Modelled from the spec: the record types, whose C declarations
(`EFI_HOB_GENERIC_HEADER`, `EFI_HOB_RESOURCE_DESCRIPTOR`,
`EFI_HOB_HANDOFF_INFO_TABLE`, `EFI_PEI_HOB_POINTERS`) are not in the sources at
hand.  A `HobView` is what the views of `EFI_PEI_HOB_POINTERS` read at one
address: the generic header (`HobType`, `HobLength`), the fields of the
resource descriptor and of the hand-off table that the translated code reads,
and the bytes that follow the generic header (`Payload`). -/
structure HobView where
  HobType : Nat
  HobLength : Nat
  ResourceType : Nat
  ResourceAttribute : Nat
  PhysicalStart : Nat
  ResourceLength : Nat
  EfiMemoryTop : Nat
  EfiMemoryBottom : Nat
  EfiFreeMemoryTop : Nat
  EfiFreeMemoryBottom : Nat
  Payload : List Nat
  deriving DecidableEq, Repr

/-- The memory the old HOB list lives in. -/
abbrev Memory := Nat → HobView

/-- The fields of a view fit their C types. -/
def HobView.InRange (h : HobView) : Prop :=
  h.HobType < 2 ^ 16 ∧ h.HobLength < 2 ^ 16 ∧
  h.ResourceType < 2 ^ 32 ∧ h.ResourceAttribute < 2 ^ 32 ∧
  h.PhysicalStart < 2 ^ 64 ∧ h.ResourceLength < 2 ^ 64 ∧
  h.EfiMemoryTop < 2 ^ 64 ∧ h.EfiMemoryBottom < 2 ^ 64 ∧
  h.EfiFreeMemoryTop < 2 ^ 64 ∧ h.EfiFreeMemoryBottom < 2 ^ 64

instance (h : HobView) : Decidable h.InRange := by
  unfold HobView.InRange; infer_instance

/-- Modelled from the spec: the macro `GET_HOB_TYPE`, the `Type` field of the
record header. -/
def GET_HOB_TYPE (mem : Memory) (Hob : Nat) : Nat := (mem Hob).HobType

/-- Modelled from the spec: the macro `GET_HOB_LENGTH`, the `Length` field of
the record header. -/
def GET_HOB_LENGTH (mem : Memory) (Hob : Nat) : Nat := (mem Hob).HobLength

/-- Modelled from the spec: the macro `GET_NEXT_HOB`, which advances by the
`Length` field of the record. -/
def GET_NEXT_HOB (mem : Memory) (Hob : Nat) : Nat := Hob + GET_HOB_LENGTH mem Hob

/-- Modelled from the spec: the macro `END_OF_HOB_LIST`, which holds when the
record is of type `EndOfList`. -/
def END_OF_HOB_LIST (mem : Memory) (Hob : Nat) : Bool :=
  GET_HOB_TYPE mem Hob == EFI_HOB_TYPE_END_OF_HOB_LIST

/-! ## The finders -/

/-- The function `FindResourceDescriptorByRange`: the loop variable `Hob`
starts at `HobList`; `none` is fuel exhaustion, `some none` is `NULL`. -/
def FindResourceDescriptorByRange (mem : Memory) :
    Nat → Nat → Nat → Nat → Option (Option Nat)
  | 0, _, _, _ => none
  | fuel + 1, HobList, Base, Top =>
    if END_OF_HOB_LIST mem HobList then
      some none
    else if GET_HOB_TYPE mem HobList ≠ EFI_HOB_TYPE_RESOURCE_DESCRIPTOR then
      FindResourceDescriptorByRange mem fuel (GET_NEXT_HOB mem HobList) Base Top
    else if (mem HobList).ResourceType ≠ EFI_RESOURCE_SYSTEM_MEMORY then
      FindResourceDescriptorByRange mem fuel (GET_NEXT_HOB mem HobList) Base Top
    else if (mem HobList).ResourceAttribute &&& MEMORY_ATTRIBUTE_MASK
        ≠ TESTED_MEMORY_ATTRIBUTES then
      FindResourceDescriptorByRange mem fuel (GET_NEXT_HOB mem HobList) Base Top
    else if Base < (mem HobList).PhysicalStart then
      FindResourceDescriptorByRange mem fuel (GET_NEXT_HOB mem HobList) Base Top
    else if Top > add64 (mem HobList).PhysicalStart (mem HobList).ResourceLength then
      FindResourceDescriptorByRange mem fuel (GET_NEXT_HOB mem HobList) Base Top
    else
      some (some HobList)

/-- The loop of `FindAnotherHighestBelow4GResourceDescriptor`, from the loop
variable `Hob` and the local `ReturnResourceHob` on. -/
def FindAnotherHighestBelow4GResourceDescriptor.loop (mem : Memory)
    (MinimalNeededSize : Nat) (ExceptResourceHob : Option Nat) :
    Nat → Nat → Option Nat → Option (Option Nat)
  | 0, _, _ => none
  | fuel + 1, Hob, ReturnResourceHob =>
    if END_OF_HOB_LIST mem Hob then
      some ReturnResourceHob
    else if GET_HOB_TYPE mem Hob ≠ EFI_HOB_TYPE_RESOURCE_DESCRIPTOR then
      loop mem MinimalNeededSize ExceptResourceHob fuel (GET_NEXT_HOB mem Hob) ReturnResourceHob
    else if (mem Hob).ResourceType ≠ EFI_RESOURCE_SYSTEM_MEMORY then
      loop mem MinimalNeededSize ExceptResourceHob fuel (GET_NEXT_HOB mem Hob) ReturnResourceHob
    else if (mem Hob).ResourceAttribute &&& MEMORY_ATTRIBUTE_MASK
        ≠ TESTED_MEMORY_ATTRIBUTES then
      loop mem MinimalNeededSize ExceptResourceHob fuel (GET_NEXT_HOB mem Hob) ReturnResourceHob
    else if some Hob = ExceptResourceHob then
      loop mem MinimalNeededSize ExceptResourceHob fuel (GET_NEXT_HOB mem Hob) ReturnResourceHob
    else if add64 (mem Hob).PhysicalStart (mem Hob).ResourceLength > BASE_4GB then
      loop mem MinimalNeededSize ExceptResourceHob fuel (GET_NEXT_HOB mem Hob) ReturnResourceHob
    else if (mem Hob).ResourceLength < MinimalNeededSize then
      loop mem MinimalNeededSize ExceptResourceHob fuel (GET_NEXT_HOB mem Hob) ReturnResourceHob
    else
      match ReturnResourceHob with
      | none =>
        loop mem MinimalNeededSize ExceptResourceHob fuel (GET_NEXT_HOB mem Hob) (some Hob)
      | some Ret =>
        if (mem Ret).PhysicalStart < (mem Hob).PhysicalStart then
          loop mem MinimalNeededSize ExceptResourceHob fuel (GET_NEXT_HOB mem Hob) (some Hob)
        else
          loop mem MinimalNeededSize ExceptResourceHob fuel (GET_NEXT_HOB mem Hob) (some Ret)

/-- The function `FindAnotherHighestBelow4GResourceDescriptor`:
`ReturnResourceHob` starts as `NULL`. -/
def FindAnotherHighestBelow4GResourceDescriptor (mem : Memory) (fuel : Nat)
    (HobList : Nat) (MinimalNeededSize : Nat) (ExceptResourceHob : Option Nat) :
    Option (Option Nat) :=
  FindAnotherHighestBelow4GResourceDescriptor.loop mem MinimalNeededSize
    ExceptResourceHob fuel HobList none

/-! ## BuildHobs -/

/-- The status values `BuildHobs` returns. -/
inductive EFI_STATUS where
  | EFI_SUCCESS
  | EFI_NOT_FOUND
  deriving DecidableEq, Repr

/-- The arguments of one call of `HobConstructor`, in the order of its
parameters. -/
structure HobConstructorArgs where
  EfiMemoryBottom : Nat
  EfiMemoryTop : Nat
  EfiFreeMemoryBottom : Nat
  EfiFreeMemoryTop : Nat
  deriving DecidableEq, Repr

/-- What a run of `BuildHobs` does: the status it returns, the call of
`HobConstructor` it made (if any), and the records that the migration loop
finds to hand to `AddNewHob` in the old list as it is before the new list is
written, in order, each by its address in the old list.  The loop on the
memory that the new list is written to is `BuildHobs.migrateWritten`. -/
structure BuildHobsRun where
  Status : EFI_STATUS
  Constructed : Option HobConstructorArgs
  Added : List Nat
  deriving DecidableEq, Repr

/-- The migration loop of `BuildHobs` (`while (!END_OF_HOB_LIST (Hob))`) on a
memory that no call changes: the addresses of the records handed to
`AddNewHob`, in order. -/
def BuildHobs.migrate (mem : Memory) : Nat → Nat → Option (List Nat)
  | 0, _ => none
  | fuel + 1, Hob =>
    if END_OF_HOB_LIST mem Hob then
      some []
    else if (mem Hob).HobType ≠ EFI_HOB_TYPE_HANDOFF then
      (migrate mem fuel (GET_NEXT_HOB mem Hob)).map (fun rest => Hob :: rest)
    else
      migrate mem fuel (GET_NEXT_HOB mem Hob)

/-- The tail of `BuildHobs` from the call of `HobConstructor` on. -/
def BuildHobs.finish (mem : Memory) (fuel : Nat) (Hob : Nat)
    (MemoryBottom MemoryTop FreeMemoryBottom FreeMemoryTop : Nat) :
    Option BuildHobsRun :=
  (BuildHobs.migrate mem fuel Hob).map fun added =>
    { Status := EFI_STATUS.EFI_SUCCESS
      Constructed := some
        { EfiMemoryBottom := MemoryBottom
          EfiMemoryTop := MemoryTop
          EfiFreeMemoryBottom := FreeMemoryBottom
          EfiFreeMemoryTop := FreeMemoryTop }
      Added := added }

/-- The run that returns `EFI_NOT_FOUND` before any call. -/
def BuildHobs.notFound : BuildHobsRun :=
  { Status := EFI_STATUS.EFI_NOT_FOUND, Constructed := none, Added := [] }

/-- The function `BuildHobs`.  `MinimalNeededSize` is the value of
`FixedPcdGet32 (PcdSystemMemoryUefiRegionSize)`, a configuration constant
that is given as a parameter.  The `ASSERT` lines of the source (the base is
not `NULL`, the four bounds of the hand-off table fit `UINTN`) hold for every
base other than `0` and every 64-bit bound and are not part of the result. -/
def BuildHobs (mem : Memory) (fuel : Nat) (BootloaderParameter : Nat)
    (MinimalNeededSize : Nat) : Option BuildHobsRun :=
  let Hob := BootloaderParameter
  match FindResourceDescriptorByRange mem fuel Hob
      (mem Hob).EfiMemoryBottom (mem Hob).EfiMemoryTop with
  | none => none
  | some none =>
    match FindAnotherHighestBelow4GResourceDescriptor mem fuel Hob MinimalNeededSize none with
    | none => none
    | some none => some BuildHobs.notFound
    | some (some ResourceHob) =>
      let MemoryBottom :=
        sub64 (add64 (mem ResourceHob).PhysicalStart (mem ResourceHob).ResourceLength)
          MinimalNeededSize
      let FreeMemoryBottom := MemoryBottom
      let FreeMemoryTop :=
        add64 (mem ResourceHob).PhysicalStart (mem ResourceHob).ResourceLength
      let MemoryTop := FreeMemoryTop
      BuildHobs.finish mem fuel Hob MemoryBottom MemoryTop FreeMemoryBottom FreeMemoryTop
  | some (some PhitResourceHob) =>
    if sub64 (add64 (mem PhitResourceHob).PhysicalStart (mem PhitResourceHob).ResourceLength)
        (mem Hob).EfiMemoryTop ≥ MinimalNeededSize then
      let MemoryBottom := (mem Hob).EfiFreeMemoryTop
      let FreeMemoryBottom := (mem Hob).EfiMemoryTop
      let FreeMemoryTop := add64 FreeMemoryBottom MinimalNeededSize
      let MemoryTop := FreeMemoryTop
      BuildHobs.finish mem fuel Hob MemoryBottom MemoryTop FreeMemoryBottom FreeMemoryTop
    else if sub64 (mem Hob).EfiMemoryBottom (mem PhitResourceHob).PhysicalStart
        ≥ MinimalNeededSize then
      let MemoryBottom := sub64 (mem Hob).EfiMemoryBottom MinimalNeededSize
      let FreeMemoryBottom := MemoryBottom
      let FreeMemoryTop := (mem Hob).EfiMemoryBottom
      let MemoryTop := (mem Hob).EfiMemoryTop
      BuildHobs.finish mem fuel Hob MemoryBottom MemoryTop FreeMemoryBottom FreeMemoryTop
    else
      match FindAnotherHighestBelow4GResourceDescriptor mem fuel Hob MinimalNeededSize
          (some PhitResourceHob) with
      | none => none
      | some none => some BuildHobs.notFound
      | some (some ResourceHob) =>
        let MemoryBottom :=
          sub64 (add64 (mem ResourceHob).PhysicalStart (mem ResourceHob).ResourceLength)
            MinimalNeededSize
        let FreeMemoryBottom := MemoryBottom
        let FreeMemoryTop :=
          add64 (mem ResourceHob).PhysicalStart (mem ResourceHob).ResourceLength
        let MemoryTop := FreeMemoryTop
        BuildHobs.finish mem fuel Hob MemoryBottom MemoryTop FreeMemoryBottom FreeMemoryTop

/-! ## Specification-level notions -/

/-- The values the loop variable of
`for (Hob.Raw = HobList; !END_OF_HOB_LIST (Hob); Hob.Raw = GET_NEXT_HOB (Hob))`
takes inside the loop body: the addresses of the records before the first end
marker, in list order (`none`: no end marker within the fuel). -/
def HobWalk (mem : Memory) : Nat → Nat → Option (List Nat)
  | 0, _ => none
  | fuel + 1, Hob =>
    if END_OF_HOB_LIST mem Hob then
      some []
    else
      (HobWalk mem fuel (GET_NEXT_HOB mem Hob)).map (fun rest => Hob :: rest)

/-- The classifier of the specification, `IsQualifyingMemoryDescriptor`: a
resource descriptor record of tested system memory. -/
def IsQualifyingMemoryDescriptor (h : HobView) : Prop :=
  h.HobType = EFI_HOB_TYPE_RESOURCE_DESCRIPTOR ∧
  h.ResourceType = EFI_RESOURCE_SYSTEM_MEMORY ∧
  h.ResourceAttribute &&& MEMORY_ATTRIBUTE_MASK = TESTED_MEMORY_ATTRIBUTES

instance (h : HobView) : Decidable (IsQualifyingMemoryDescriptor h) := by
  unfold IsQualifyingMemoryDescriptor; infer_instance

/-- A qualifying descriptor whose range contains `[Base, Top)`, the end of the
range being the 64-bit sum. -/
def ContainsRange (h : HobView) (Base Top : Nat) : Prop :=
  IsQualifyingMemoryDescriptor h ∧ Base ≥ h.PhysicalStart ∧
  Top ≤ add64 h.PhysicalStart h.ResourceLength

instance (h : HobView) (Base Top : Nat) : Decidable (ContainsRange h Base Top) := by
  unfold ContainsRange; infer_instance

/-- The candidate set of `FindHighestBelowLimit`: the record at address `a` is
a qualifying descriptor, is not the excluded one, ends (64-bit sum) at or below
4GiB and is at least `MinimalNeededSize` long. -/
def IsCandidate (mem : Memory) (MinimalNeededSize : Nat) (ExceptResourceHob : Option Nat)
    (a : Nat) : Prop :=
  IsQualifyingMemoryDescriptor (mem a) ∧ some a ≠ ExceptResourceHob ∧
  add64 (mem a).PhysicalStart (mem a).ResourceLength ≤ BASE_4GB ∧
  (mem a).ResourceLength ≥ MinimalNeededSize

instance (mem : Memory) (m : Nat) (ex : Option Nat) (a : Nat) :
    Decidable (IsCandidate mem m ex a) := by
  unfold IsCandidate; infer_instance

/-- The data-model invariant of a resource descriptor: its end does not
overflow 64 bits. -/
def NoOverflow (h : HobView) : Prop := h.PhysicalStart + h.ResourceLength < 2 ^ 64

instance (h : HobView) : Decidable (NoOverflow h) := by
  unfold NoOverflow; infer_instance

/-- The data-model invariant of the hand-off record. -/
def HandoffOrdered (h : HobView) : Prop :=
  h.EfiMemoryBottom ≤ h.EfiFreeMemoryBottom ∧
  h.EfiFreeMemoryBottom ≤ h.EfiFreeMemoryTop ∧
  h.EfiFreeMemoryTop ≤ h.EfiMemoryTop

instance (h : HobView) : Decidable (HandoffOrdered h) := by
  unfold HandoffOrdered; infer_instance

/-- The update of `ReturnResourceHob` by a candidate at address `a`. -/
def pickHigher (mem : Memory) (ReturnResourceHob : Option Nat) (a : Nat) : Option Nat :=
  match ReturnResourceHob with
  | none => some a
  | some Ret => if (mem Ret).PhysicalStart < (mem a).PhysicalStart then some a else some Ret

/-- One turn of the loop body of `FindAnotherHighestBelow4GResourceDescriptor`
on `ReturnResourceHob`. -/
def highestStep (mem : Memory) (MinimalNeededSize : Nat) (ExceptResourceHob : Option Nat)
    (ReturnResourceHob : Option Nat) (a : Nat) : Option Nat :=
  if IsCandidate mem MinimalNeededSize ExceptResourceHob a then
    pickHigher mem ReturnResourceHob a
  else ReturnResourceHob

/-- The result `r` of the highest-below-limit search over the walk `L`: no
candidate at all when `r` is `NULL`; otherwise a candidate of `L` with every
candidate before it strictly lower and every candidate after it not higher. -/
def IsFirstHighest (mem : Memory) (m : Nat) (ex : Option Nat) (L : List Nat) :
    Option Nat → Prop
  | none => ∀ a ∈ L, ¬ IsCandidate mem m ex a
  | some d =>
    IsCandidate mem m ex d ∧
    ∃ pre post, L = pre ++ d :: post ∧
      (∀ c ∈ pre, IsCandidate mem m ex c → (mem c).PhysicalStart < (mem d).PhysicalStart) ∧
      (∀ c ∈ post, IsCandidate mem m ex c → (mem c).PhysicalStart ≤ (mem d).PhysicalStart)

/-- The result `r` of the containment search over the walk `L`: no record of
`L` contains the range when `r` is `NULL`; otherwise `r` contains it and no
record before `r` does. -/
def IsFirstContaining (mem : Memory) (Base Top : Nat) (L : List Nat) : Option Nat → Prop
  | none => ∀ a ∈ L, ¬ ContainsRange (mem a) Base Top
  | some d =>
    ContainsRange (mem d) Base Top ∧
    ∃ pre post, L = pre ++ d :: post ∧ ∀ a ∈ pre, ¬ ContainsRange (mem a) Base Top

/-! ## Example lists -/

/-- An end-of-list marker. -/
def endOfListHob : HobView :=
  { HobType := EFI_HOB_TYPE_END_OF_HOB_LIST, HobLength := 8, ResourceType := 0,
    ResourceAttribute := 0, PhysicalStart := 0, ResourceLength := 0, EfiMemoryTop := 0,
    EfiMemoryBottom := 0, EfiFreeMemoryTop := 0, EfiFreeMemoryBottom := 0, Payload := [] }

/-- A hand-off record with the given bounds. -/
def handoffHob (Bottom Top FreeBottom FreeTop : Nat) : HobView :=
  { HobType := EFI_HOB_TYPE_HANDOFF, HobLength := 56, ResourceType := 0,
    ResourceAttribute := 0, PhysicalStart := 0, ResourceLength := 0, EfiMemoryTop := Top,
    EfiMemoryBottom := Bottom, EfiFreeMemoryTop := FreeTop, EfiFreeMemoryBottom := FreeBottom,
    Payload := [] }

/-- A resource descriptor record. -/
def resourceHob (ResourceType ResourceAttribute PhysicalStart ResourceLength : Nat) : HobView :=
  { HobType := EFI_HOB_TYPE_RESOURCE_DESCRIPTOR, HobLength := 48, ResourceType := ResourceType,
    ResourceAttribute := ResourceAttribute, PhysicalStart := PhysicalStart,
    ResourceLength := ResourceLength, EfiMemoryTop := 0, EfiMemoryBottom := 0,
    EfiFreeMemoryTop := 0, EfiFreeMemoryBottom := 0, Payload := [] }

/-- A descriptor of tested system memory. -/
def testedHob (PhysicalStart ResourceLength : Nat) : HobView :=
  resourceHob EFI_RESOURCE_SYSTEM_MEMORY TESTED_MEMORY_ATTRIBUTES PhysicalStart ResourceLength

/-- The memory that holds the given records back to back from `base` on, each
record `HobLength` bytes after the one before, and end markers elsewhere. -/
def placeHobs : Nat → List HobView → Memory
  | _, [] => fun _ => endOfListHob
  | base, h :: rest => fun a => if a = base then h else placeHobs (base + h.HobLength) rest a

/-- The addresses of the records that `placeHobs` lays out from `base` on. -/
def hobAddresses : Nat → List HobView → List Nat
  | _, [] => []
  | base, h :: rest => base :: hobAddresses (base + h.HobLength) rest

/-- A list whose descriptor has room above the old list (the worked example of
the specification). -/
def memAbove : Memory :=
  placeHobs 0x1000 [handoffHob 0x1000 0x2000 0x1000 0x1800, testedHob 0x0 0x10000]

/-- A list with two candidates of the same start and a lower one between
them. -/
def memTie : Memory :=
  placeHobs 0x1000 [handoffHob 0x1000 0x2000 0x1000 0x1800, testedHob 0x100000 0x10000,
    testedHob 0x80000 0x10000, testedHob 0x100000 0x20000]

/-- A list whose descriptor has room below the old list only. -/
def memBelow : Memory :=
  placeHobs 0x1000 [handoffHob 0x1000 0x2000 0x1000 0x1800, testedHob 0x0 0x2100]

/-- A list whose old footprint lies in no descriptor. -/
def memElsewhere : Memory :=
  placeHobs 0x1000 [handoffHob 0x1000 0x2000 0x1000 0x1800, testedHob 0x100000 0x10000]

/-- A list whose only descriptor is the containing one and has no room. -/
def memFull : Memory :=
  placeHobs 0x1000 [handoffHob 0x1000 0x2000 0x1000 0x1800, testedHob 0x1000 0x1000]

/-- The run of `BuildHobs` that calls `HobConstructor` on the given region,
hands the records of the walk `L` that are not of the hand-off type to
`AddNewHob` and returns `EFI_SUCCESS`. -/
def BuildHobs.success (mem : Memory) (L : List Nat)
    (MemoryBottom MemoryTop FreeMemoryBottom FreeMemoryTop : Nat) : BuildHobsRun :=
  { Status := EFI_STATUS.EFI_SUCCESS
    Constructed := some
      { EfiMemoryBottom := MemoryBottom
        EfiMemoryTop := MemoryTop
        EfiFreeMemoryBottom := FreeMemoryBottom
        EfiFreeMemoryTop := FreeMemoryTop }
    Added := L.filter (fun a => decide ((mem a).HobType ≠ EFI_HOB_TYPE_HANDOFF)) }

/-- The process-wide state after a run of `BuildHobs`, from the state before
it.  `BuildHobs` assigns no global itself: the state changes through its calls
of `HobConstructor` and `AddNewHob` only, whose effects on the state are given
as parameters; the calls are made in the order of the run. -/
def BuildHobsRun.stateAfter {σ : Type} (HobConstructorEffect : HobConstructorArgs → σ → σ)
    (AddNewHobEffect : Nat → σ → σ) (run : BuildHobsRun) (before : σ) : σ :=
  run.Added.foldl (fun s Hob => AddNewHobEffect Hob s)
    (match run.Constructed with
     | none => before
     | some args => HobConstructorEffect args before)

/-! ## The memory as bytes, and the new list -/

/-- The memory as bytes: the byte at each address (its value modulo `256`). -/
abbrev Bytes := Nat → Nat

/-- The little-endian value of the `n` bytes at address `a`. -/
def readLE (b : Bytes) : Nat → Nat → Nat
  | 0, _ => 0
  | n + 1, a => b a % 256 + 256 * readLE b n (a + 1)

/-- The memory after a little-endian store of the low `n` bytes of `v` at
address `a`. -/
def writeLE (b : Bytes) (a n v : Nat) : Bytes :=
  fun x => if a ≤ x ∧ x < a + n then v / 256 ^ (x - a) % 256 else b x

/-- Modelled from the spec: `sizeof (EFI_HOB_GENERIC_HEADER)`, the size of the
record header `{HobType : UINT16, HobLength : UINT16, Reserved : UINT32}` of
the PI headers. -/
def sizeof_EFI_HOB_GENERIC_HEADER : Nat := 8

/-- Modelled from the spec: `sizeof (EFI_HOB_HANDOFF_INFO_TABLE)`, the size of
the hand-off record of the PI headers: the header, `Version` and `BootMode`
(`UINT32` each), and the five addresses `EfiMemoryTop`, `EfiMemoryBottom`,
`EfiFreeMemoryTop`, `EfiFreeMemoryBottom`, `EfiEndOfHobList`. -/
def sizeof_EFI_HOB_HANDOFF_INFO_TABLE : Nat := 56

/-- Modelled from the spec: what the views of `EFI_PEI_HOB_POINTERS` read at
each address of a byte memory, with the field offsets of the PI headers: the
header at `0` (type) and `2` (length); of the resource descriptor, after the
16 bytes of its owner, `ResourceType` at `24`, `ResourceAttribute` at `28`,
`PhysicalStart` at `32`, `ResourceLength` at `40`; of the hand-off table,
`EfiMemoryTop` at `16`, `EfiMemoryBottom` at `24`, `EfiFreeMemoryTop` at `32`,
`EfiFreeMemoryBottom` at `40`.  The payload is the bytes from the end of the
header to the end of the record. -/
def hobViews (b : Bytes) : Memory := fun a =>
  { HobType := readLE b 2 a
    HobLength := readLE b 2 (a + 2)
    ResourceType := readLE b 4 (a + 24)
    ResourceAttribute := readLE b 4 (a + 28)
    PhysicalStart := readLE b 8 (a + 32)
    ResourceLength := readLE b 8 (a + 40)
    EfiMemoryTop := readLE b 8 (a + 16)
    EfiMemoryBottom := readLE b 8 (a + 24)
    EfiFreeMemoryTop := readLE b 8 (a + 32)
    EfiFreeMemoryBottom := readLE b 8 (a + 40)
    Payload := (List.range (readLE b 2 (a + 2) - sizeof_EFI_HOB_GENERIC_HEADER)).map
      fun i => b (a + sizeof_EFI_HOB_GENERIC_HEADER + i) % 256 }

/-- The memory and the global `mHobList` (`extern VOID *mHobList`), the state
that `HobConstructor` and `AddNewHob` act on. -/
structure PayloadState where
  mem : Bytes
  mHobList : Nat

/-- A store of a record header: type, length and the reserved field, which is
zero. -/
def writeHeader (b : Bytes) (a HobType HobLength : Nat) : Bytes :=
  writeLE (writeLE (writeLE b a 2 HobType) (a + 2) 2 HobLength) (a + 4) 4 0

/-- Modelled from the spec: the function `HobConstructor`, which is not in the
sources at hand: it initializes a new empty list, an initial hand-off record
plus an end marker, and makes it the current list.  The list is written into
the free region `[EfiFreeMemoryBottom, EfiFreeMemoryTop)`, from its bottom on
(in every branch of `BuildHobs` but the second this is also the
`EfiMemoryBottom` it passes).  The hand-off record keeps the bounds, the
address of the end marker (`EfiEndOfHobList`, at offset `48`) and, as its
`EfiFreeMemoryBottom`, the address after the end marker. -/
def HobConstructor (b : Bytes)
    (EfiMemoryBottom EfiMemoryTop EfiFreeMemoryBottom EfiFreeMemoryTop : Nat) :
    PayloadState :=
  let Hob := EfiFreeMemoryBottom
  let HobEnd := Hob + sizeof_EFI_HOB_HANDOFF_INFO_TABLE
  let m := writeHeader b Hob EFI_HOB_TYPE_HANDOFF sizeof_EFI_HOB_HANDOFF_INFO_TABLE
  let m := writeHeader m HobEnd EFI_HOB_TYPE_END_OF_HOB_LIST sizeof_EFI_HOB_GENERIC_HEADER
  let m := writeLE m (Hob + 16) 8 EfiMemoryTop
  let m := writeLE m (Hob + 24) 8 EfiMemoryBottom
  let m := writeLE m (Hob + 32) 8 EfiFreeMemoryTop
  let m := writeLE m (Hob + 40) 8 (HobEnd + sizeof_EFI_HOB_GENERIC_HEADER)
  let m := writeLE m (Hob + 48) 8 HobEnd
  { mem := m, mHobList := Hob }

/-- Modelled from the spec: the function `CreateHob`, which is not in the
sources at hand: it appends a record header with the given type and length at
the end marker of the current list, writes a new end marker after the record,
and returns the address of the record; it returns `NULL` (`none`) and writes
nothing when the free memory left, `EfiFreeMemoryTop - EfiFreeMemoryBottom` of
the hand-off record of the current list, is less than the length. -/
def CreateHob (st : PayloadState) (HobType HobLength : Nat) : Option Nat × PayloadState :=
  let HandOffHob := st.mHobList
  let FreeMemory := sub64 (readLE st.mem 8 (HandOffHob + 32)) (readLE st.mem 8 (HandOffHob + 40))
  if FreeMemory < HobLength then
    (none, st)
  else
    let Hob := readLE st.mem 8 (HandOffHob + 48)
    let m := writeHeader st.mem Hob HobType HobLength
    let HobEnd := Hob + HobLength
    let m := writeLE m (HandOffHob + 48) 8 HobEnd
    let m := writeHeader m HobEnd EFI_HOB_TYPE_END_OF_HOB_LIST sizeof_EFI_HOB_GENERIC_HEADER
    let m := writeLE m (HandOffHob + 40) 8 (HobEnd + sizeof_EFI_HOB_GENERIC_HEADER)
    (some Hob, { st with mem := m })

/-- Modelled from the spec: the library function `CopyMem`, which is not in
the sources at hand: the `Length` bytes at `Destination` become the bytes that
were at `Source`. -/
def CopyMem (b : Bytes) (Destination Source Length : Nat) : Bytes :=
  fun x =>
    if Destination ≤ x ∧ x < Destination + Length then b (Source + (x - Destination))
    else b x

/-- The function `AddNewHob`.  `Hob` is `Hob->Raw`; the type and the length of
the record are read from the memory as it is at the call; `NewHob.Header + 1`
and `Hob->Header + 1` are the addresses after the two headers, and the length
of the copy is `Hob->Header->HobLength - sizeof (EFI_HOB_GENERIC_HEADER)`,
read after the call of `CreateHob`. -/
def AddNewHob (st : PayloadState) (Hob : Option Nat) : PayloadState :=
  match Hob with
  | none => st
  | some Raw =>
    match CreateHob st (readLE st.mem 2 Raw) (readLE st.mem 2 (Raw + 2)) with
    | (none, st1) => st1
    | (some NewHob, st1) =>
      { st1 with
        mem := CopyMem st1.mem (NewHob + sizeof_EFI_HOB_GENERIC_HEADER)
          (Raw + sizeof_EFI_HOB_GENERIC_HEADER)
          (sub64 (readLE st1.mem 2 (Raw + 2)) sizeof_EFI_HOB_GENERIC_HEADER) }

/-- What the migration loop of `BuildHobs` does on the memory it runs on: the
records it hands to `AddNewHob`, the records it examines (the values of `Hob`
for which the loop body runs), both in order, and the state it leaves. -/
structure MigrationRun where
  Added : List Nat
  Examined : List Nat
  State : PayloadState

/-- The migration loop of `BuildHobs` (`while (!END_OF_HOB_LIST (Hob))`) on the
memory that `HobConstructor` and `AddNewHob` write to: every read of the loop
is from the memory as the calls made so far have left it. -/
def BuildHobs.migrateWritten : Nat → Nat → PayloadState → Option MigrationRun
  | 0, _, _ => none
  | fuel + 1, Hob, st =>
    if END_OF_HOB_LIST (hobViews st.mem) Hob then
      some { Added := [], Examined := [], State := st }
    else if (hobViews st.mem Hob).HobType ≠ EFI_HOB_TYPE_HANDOFF then
      (migrateWritten fuel (GET_NEXT_HOB (hobViews (AddNewHob st (some Hob)).mem) Hob)
          (AddNewHob st (some Hob))).map
        fun r => { r with Added := Hob :: r.Added, Examined := Hob :: r.Examined }
    else
      (migrateWritten fuel (GET_NEXT_HOB (hobViews st.mem) Hob) st).map
        fun r => { r with Examined := Hob :: r.Examined }

/-- The function `BuildHobs` on a byte memory, with its writes: the region is
selected as `BuildHobs` does on the memory before any write (its status and
its call of `HobConstructor`); then `HobConstructor` writes the new list and
the migration loop runs on the written memory. -/
def BuildHobs.written (st : PayloadState) (fuel BootloaderParameter MinimalNeededSize : Nat) :
    Option (EFI_STATUS × MigrationRun) :=
  match BuildHobs (hobViews st.mem) fuel BootloaderParameter MinimalNeededSize with
  | none => none
  | some run =>
    match run.Constructed with
    | none => some (run.Status, { Added := [], Examined := [], State := st })
    | some args =>
      (BuildHobs.migrateWritten fuel BootloaderParameter
          (HobConstructor st.mem args.EfiMemoryBottom args.EfiMemoryTop
            args.EfiFreeMemoryBottom args.EfiFreeMemoryTop)).map
        fun r => (run.Status, r)

/-- The state `st` is one that `HobConstructor` on the free region
`[FreeMemoryBottom, FreeMemoryTop)` and calls of `AddNewHob` have left of the
memory `b`: the current list is at the bottom of the region, the hand-off
record of the current list holds the top of the region, an end-of-list address
`E` inside it and the address `E + 8` after the end marker as the bottom of the
free memory, and the memory outside the bytes `[FreeMemoryBottom, E + 8)` of
the current list is as in `b`. -/
def WrittenInside (b : Bytes) (FreeMemoryBottom FreeMemoryTop : Nat) (st : PayloadState) :
    Prop :=
  st.mHobList = FreeMemoryBottom ∧
  readLE st.mem 8 (FreeMemoryBottom + 32) = FreeMemoryTop ∧
  ∃ E, readLE st.mem 8 (FreeMemoryBottom + 48) = E ∧
    readLE st.mem 8 (FreeMemoryBottom + 40) = E + 8 ∧
    FreeMemoryBottom + 56 ≤ E ∧ E + 8 ≤ FreeMemoryTop ∧
    ∀ x, x < FreeMemoryBottom ∨ E + 8 ≤ x → st.mem x = b x

/-- The record at address `a`: its type, its length and its payload, the bytes
from the end of its header to its end. -/
def recordAt (mem : Memory) (a : Nat) : Nat × Nat × List Nat :=
  ((mem a).HobType, (mem a).HobLength, (mem a).Payload)

/-- The memory `new` holds, from address `a` on, copies of the records that
the memory `old` holds at the addresses `srcs`, one after the other and in
that order, and an end marker after the last of them. -/
def CopiesLaid (old new : Bytes) : Nat → List Nat → Prop
  | a, [] => END_OF_HOB_LIST (hobViews new) a = true
  | a, s :: rest =>
    recordAt (hobViews new) a = recordAt (hobViews old) s ∧
    CopiesLaid old new (a + (hobViews old s).HobLength) rest

/-- The total length of the records at the addresses `srcs`. -/
def totalLength (b : Bytes) (srcs : List Nat) : Nat :=
  (srcs.map fun a => (hobViews b a).HobLength).sum

/-- The bytes of the value `v` in `n` bytes, little-endian. -/
def encodeLE : Nat → Nat → List Nat
  | 0, _ => []
  | n + 1, v => v % 256 :: encodeLE n (v / 256)

/-- The bytes of a record header. -/
def headerBytes (HobType HobLength : Nat) : List Nat :=
  encodeLE 2 HobType ++ encodeLE 2 HobLength ++ encodeLE 4 0

/-- The bytes of a hand-off record with the given bounds, of version `9` and
boot mode `0`. -/
def handoffBytes (Bottom Top FreeBottom FreeTop EndOfHobList : Nat) : List Nat :=
  headerBytes EFI_HOB_TYPE_HANDOFF sizeof_EFI_HOB_HANDOFF_INFO_TABLE ++
    encodeLE 4 9 ++ encodeLE 4 0 ++ encodeLE 8 Top ++ encodeLE 8 Bottom ++
    encodeLE 8 FreeTop ++ encodeLE 8 FreeBottom ++ encodeLE 8 EndOfHobList

/-- The bytes of a resource descriptor record, its owner being zero. -/
def resourceBytes (ResourceType ResourceAttribute PhysicalStart ResourceLength : Nat) :
    List Nat :=
  headerBytes EFI_HOB_TYPE_RESOURCE_DESCRIPTOR 48 ++ List.replicate 16 0 ++
    encodeLE 4 ResourceType ++ encodeLE 4 ResourceAttribute ++
    encodeLE 8 PhysicalStart ++ encodeLE 8 ResourceLength

/-- The bytes of a descriptor of tested system memory. -/
def testedBytes (PhysicalStart ResourceLength : Nat) : List Nat :=
  resourceBytes EFI_RESOURCE_SYSTEM_MEMORY TESTED_MEMORY_ATTRIBUTES PhysicalStart ResourceLength

/-- The bytes of an end marker. -/
def endBytes : List Nat :=
  headerBytes EFI_HOB_TYPE_END_OF_HOB_LIST sizeof_EFI_HOB_GENERIC_HEADER

/-- The memory that holds the given bytes from `base` on and zero elsewhere. -/
def placeBytes (base : Nat) (bytes : List Nat) : Bytes :=
  fun x => if base ≤ x then bytes.getD (x - base) 0 else 0

/-- The list of `memBelow` as bytes: a hand-off record with the footprint
`[0x1000, 0x2000)` and the descriptor `[0x0, 0x2100)`, with room below the
footprint only; the list itself lies in `[0x1000, 0x1070)`. -/
def bytesBelow : Bytes :=
  placeBytes 0x1000
    (handoffBytes 0x1000 0x2000 0x1000 0x1800 0x1068 ++ testedBytes 0x0 0x2100 ++ endBytes)

/-- The list of `memStraddle` as bytes: the footprint `[0x10FE00, 0x110200)`
straddles the end of the only descriptor, `[0x100000, 0x110000)`, and the list
itself lies at the bottom of the footprint, in `[0x10FE00, 0x10FE70)`. -/
def bytesStraddle : Bytes :=
  placeBytes 0x10FE00
    (handoffBytes 0x10FE00 0x110200 0x10FE70 0x110200 0x10FE68 ++
      testedBytes 0x100000 0x10000 ++ endBytes)

/-- The hand-off record of a list, in the words of the specification: the one
record of the hand-off type, found as the first such record of the walk. -/
def listHandoff (mem : Memory) (L : List Nat) : Option Nat :=
  L.find? (fun a => decide ((mem a).HobType = EFI_HOB_TYPE_HANDOFF))

/-- The search `FindContaining` of the specification over the records `L`: the
first qualifying descriptor that contains the range. -/
def FindContaining (mem : Memory) (L : List Nat) (base top : Nat) : Option Nat :=
  L.find? (fun a => decide (ContainsRange (mem a) base top))

/-- The search `FindHighestBelowLimit` of the specification over the records
`L`: the first candidate initializes the running maximum, a later candidate
replaces it only on a strictly greater `PhysicalStart`. -/
def FindHighestBelowLimit (mem : Memory) (L : List Nat) (minSize : Nat)
    (exclude : Option Nat) : Option Nat :=
  L.foldl (highestStep mem minSize exclude) none

/-- The placement of case 1 of the specification, at the top of the descriptor
at address `d`. -/
def placeAtTop (mem : Memory) (minimalSize : Nat) (d : Nat) : HobConstructorArgs :=
  { EfiMemoryBottom := sub64 (add64 (mem d).PhysicalStart (mem d).ResourceLength) minimalSize
    EfiMemoryTop := add64 (mem d).PhysicalStart (mem d).ResourceLength
    EfiFreeMemoryBottom :=
      sub64 (add64 (mem d).PhysicalStart (mem d).ResourceLength) minimalSize
    EfiFreeMemoryTop := add64 (mem d).PhysicalStart (mem d).ResourceLength }

/-- The four-case decision of the specification (Memory Region Selector) over
the records `L`, from the bounds of the hand-off record `Handoff` and the
minimal size; `none` when the operation fails.  Addresses are 64-bit values,
sums and differences are those of 64-bit arithmetic. -/
def SelectRegion (mem : Memory) (L : List Nat) (minimalSize : Nat) (Handoff : HobView) :
    Option HobConstructorArgs :=
  match FindContaining mem L Handoff.EfiMemoryBottom Handoff.EfiMemoryTop with
  | none => (FindHighestBelowLimit mem L minimalSize none).map (placeAtTop mem minimalSize)
  | some d =>
    if sub64 (add64 (mem d).PhysicalStart (mem d).ResourceLength) Handoff.EfiMemoryTop
        ≥ minimalSize then
      some { EfiMemoryBottom := Handoff.EfiFreeMemoryTop
             EfiFreeMemoryBottom := Handoff.EfiMemoryTop
             EfiFreeMemoryTop := add64 Handoff.EfiMemoryTop minimalSize
             EfiMemoryTop := add64 Handoff.EfiMemoryTop minimalSize }
    else if sub64 Handoff.EfiMemoryBottom (mem d).PhysicalStart ≥ minimalSize then
      some { EfiMemoryBottom := sub64 Handoff.EfiMemoryBottom minimalSize
             EfiFreeMemoryBottom := sub64 Handoff.EfiMemoryBottom minimalSize
             EfiFreeMemoryTop := Handoff.EfiMemoryBottom
             EfiMemoryTop := Handoff.EfiMemoryTop }
    else
      (FindHighestBelowLimit mem L minimalSize (some d)).map (placeAtTop mem minimalSize)

/-- A list whose hand-off record is its second record.  The first record is a
descriptor of tested system memory `[0x100000, 0x110000)`; read as a hand-off
table it shows the bounds that the layout of the two record types overlays on
its fields (`EfiMemoryBottom` on the resource type and attribute,
`EfiFreeMemoryTop` on `PhysicalStart`, `EfiFreeMemoryBottom` on
`ResourceLength`).  The third record is the descriptor `[0x0, 0x10000)` that
contains the range of the hand-off record. -/
def memHandoffSecond : Memory :=
  placeHobs 0x1000
    [{ testedHob 0x100000 0x10000 with
        EfiMemoryTop := 0x0, EfiMemoryBottom := 0x700000000,
        EfiFreeMemoryTop := 0x100000, EfiFreeMemoryBottom := 0x10000 },
     handoffHob 0x1000 0x2000 0x1000 0x1800,
     testedHob 0x0 0x10000]

/-- The ranges of two descriptors do not overlap: one ends at or before the
start of the other. -/
def NonOverlapping (h1 h2 : HobView) : Prop :=
  h1.PhysicalStart + h1.ResourceLength ≤ h2.PhysicalStart ∨
  h2.PhysicalStart + h2.ResourceLength ≤ h1.PhysicalStart

instance (h1 h2 : HobView) : Decidable (NonOverlapping h1 h2) := by
  unfold NonOverlapping; infer_instance

/-- The qualifying descriptors among the records `L` are pairwise
non-overlapping. -/
def PairwiseNonOverlapping (mem : Memory) (L : List Nat) : Prop :=
  ∀ a ∈ L, ∀ b ∈ L, a ≠ b → IsQualifyingMemoryDescriptor (mem a) →
    IsQualifyingMemoryDescriptor (mem b) → NonOverlapping (mem a) (mem b)

instance (mem : Memory) (L : List Nat) : Decidable (PairwiseNonOverlapping mem L) := by
  unfold PairwiseNonOverlapping; infer_instance

/-- A list of two adjacent qualifying descriptors, `[0x0, 0x1000)` and
`[0x1000, 0x2000)`, and nothing else. -/
def memAdjacent : Memory :=
  placeHobs 0x8000 [testedHob 0x0 0x1000, testedHob 0x1000 0x1000]

/-- A list whose footprint `[0x10FE00, 0x110200)` straddles the end of its only
descriptor, `[0x100000, 0x110000)`: no descriptor contains it. -/
def memStraddle : Memory :=
  placeHobs 0x10FE00 [handoffHob 0x10FE00 0x110200 0x10FE70 0x110200, testedHob 0x100000 0x10000]

/-- The value `a` with the bits of `x` cleared (`a & ~x`). -/
def clearBits (a x : Nat) : Nat := a ^^^ (a &&& x)

/-- The record `h` with its `ResourceAttribute` replaced. -/
def withAttribute (h : HobView) (attr : Nat) : HobView :=
  { h with ResourceAttribute := attr }

/-- The memory `mem2` is the memory `mem` with unrelated attribute bits changed:
at every address, the `ResourceAttribute` has some bits outside
`MEMORY_ATTRIBUTE_MASK` set or cleared, and nothing else differs. -/
def UnrelatedBitsChanged (mem mem2 : Memory) : Prop :=
  ∀ a, ∃ x, x &&& MEMORY_ATTRIBUTE_MASK = 0 ∧
    (mem2 a = withAttribute (mem a) ((mem a).ResourceAttribute ||| x) ∨
      mem2 a = withAttribute (mem a) (clearBits (mem a).ResourceAttribute x))

/-- The list with three candidates, with the two unrelated bits `0x8` and
`0x2000000` set in every record. -/
def memTieExtraBits : Memory :=
  fun a => withAttribute (memTie a) ((memTie a).ResourceAttribute ||| 0x2000008)

/-! ## The records a loop examines -/

/-- One more record examined: the record at `Hob` goes in front of the
records that the rest of the loop examines. -/
def examinedFirst {α : Type} (Hob : Nat) (rest : Option (α × List Nat)) :
    Option (α × List Nat) :=
  rest.map fun r => (r.1, Hob :: r.2)

/-- The function `FindResourceDescriptorByRange` with the records it examines:
the values of `Hob` for which the loop body runs, in order.  The control flow
is that of `FindResourceDescriptorByRange`. -/
def FindResourceDescriptorByRange.traced (mem : Memory) :
    Nat → Nat → Nat → Nat → Option (Option Nat × List Nat)
  | 0, _, _, _ => none
  | fuel + 1, HobList, Base, Top =>
    if END_OF_HOB_LIST mem HobList then
      some (none, [])
    else if GET_HOB_TYPE mem HobList ≠ EFI_HOB_TYPE_RESOURCE_DESCRIPTOR then
      examinedFirst HobList (traced mem fuel (GET_NEXT_HOB mem HobList) Base Top)
    else if (mem HobList).ResourceType ≠ EFI_RESOURCE_SYSTEM_MEMORY then
      examinedFirst HobList (traced mem fuel (GET_NEXT_HOB mem HobList) Base Top)
    else if (mem HobList).ResourceAttribute &&& MEMORY_ATTRIBUTE_MASK
        ≠ TESTED_MEMORY_ATTRIBUTES then
      examinedFirst HobList (traced mem fuel (GET_NEXT_HOB mem HobList) Base Top)
    else if Base < (mem HobList).PhysicalStart then
      examinedFirst HobList (traced mem fuel (GET_NEXT_HOB mem HobList) Base Top)
    else if Top > add64 (mem HobList).PhysicalStart (mem HobList).ResourceLength then
      examinedFirst HobList (traced mem fuel (GET_NEXT_HOB mem HobList) Base Top)
    else
      some (some HobList, [HobList])

/-- The loop of `FindAnotherHighestBelow4GResourceDescriptor` with the records
it examines: the values of `Hob` for which the loop body runs, in order.  The
control flow is that of the loop of the function. -/
def FindAnotherHighestBelow4GResourceDescriptor.tracedLoop (mem : Memory)
    (MinimalNeededSize : Nat) (ExceptResourceHob : Option Nat) :
    Nat → Nat → Option Nat → Option (Option Nat × List Nat)
  | 0, _, _ => none
  | fuel + 1, Hob, ReturnResourceHob =>
    if END_OF_HOB_LIST mem Hob then
      some (ReturnResourceHob, [])
    else if GET_HOB_TYPE mem Hob ≠ EFI_HOB_TYPE_RESOURCE_DESCRIPTOR then
      examinedFirst Hob (tracedLoop mem MinimalNeededSize ExceptResourceHob fuel
        (GET_NEXT_HOB mem Hob) ReturnResourceHob)
    else if (mem Hob).ResourceType ≠ EFI_RESOURCE_SYSTEM_MEMORY then
      examinedFirst Hob (tracedLoop mem MinimalNeededSize ExceptResourceHob fuel
        (GET_NEXT_HOB mem Hob) ReturnResourceHob)
    else if (mem Hob).ResourceAttribute &&& MEMORY_ATTRIBUTE_MASK
        ≠ TESTED_MEMORY_ATTRIBUTES then
      examinedFirst Hob (tracedLoop mem MinimalNeededSize ExceptResourceHob fuel
        (GET_NEXT_HOB mem Hob) ReturnResourceHob)
    else if some Hob = ExceptResourceHob then
      examinedFirst Hob (tracedLoop mem MinimalNeededSize ExceptResourceHob fuel
        (GET_NEXT_HOB mem Hob) ReturnResourceHob)
    else if add64 (mem Hob).PhysicalStart (mem Hob).ResourceLength > BASE_4GB then
      examinedFirst Hob (tracedLoop mem MinimalNeededSize ExceptResourceHob fuel
        (GET_NEXT_HOB mem Hob) ReturnResourceHob)
    else if (mem Hob).ResourceLength < MinimalNeededSize then
      examinedFirst Hob (tracedLoop mem MinimalNeededSize ExceptResourceHob fuel
        (GET_NEXT_HOB mem Hob) ReturnResourceHob)
    else
      match ReturnResourceHob with
      | none =>
        examinedFirst Hob (tracedLoop mem MinimalNeededSize ExceptResourceHob fuel
          (GET_NEXT_HOB mem Hob) (some Hob))
      | some Ret =>
        if (mem Ret).PhysicalStart < (mem Hob).PhysicalStart then
          examinedFirst Hob (tracedLoop mem MinimalNeededSize ExceptResourceHob fuel
            (GET_NEXT_HOB mem Hob) (some Hob))
        else
          examinedFirst Hob (tracedLoop mem MinimalNeededSize ExceptResourceHob fuel
            (GET_NEXT_HOB mem Hob) (some Ret))

/-- The address of the first end marker that the walk from `Hob` reaches
(`none`: no end marker within the fuel). -/
def HobListEnd (mem : Memory) : Nat → Nat → Option Nat
  | 0, _ => none
  | fuel + 1, Hob =>
    if END_OF_HOB_LIST mem Hob then some Hob
    else HobListEnd mem fuel (GET_NEXT_HOB mem Hob)

theorem add64_lt (a b : Nat) : add64 a b < 2 ^ 64 := by
  unfold add64; exact Nat.mod_lt _ (by norm_num)

theorem add64_of_lt {a b : Nat} (h : a + b < 2 ^ 64) : add64 a b = a + b := by
  unfold add64; exact Nat.mod_eq_of_lt h

theorem sub64_of_le {a b : Nat} (hb : b ≤ a) (ha : a < 2 ^ 64) : sub64 a b = a - b := by
  unfold sub64
  have : a + 2 ^ 64 - b = (a - b) + 2 ^ 64 := by omega
  rw [this, Nat.add_mod_right]
  exact Nat.mod_eq_of_lt (by omega)

/-- The walk reads the memory at the start address and above only. -/
theorem HobWalk_congr (mem mem2 : Memory) :
    ∀ (fuel Hob : Nat), (∀ a, Hob ≤ a → mem a = mem2 a) →
      HobWalk mem fuel Hob = HobWalk mem2 fuel Hob := by
  intro fuel
  induction fuel with
  | zero => intro Hob _; rfl
  | succ n ih =>
    intro Hob h
    have h0 : mem Hob = mem2 Hob := h Hob (le_refl _)
    have hend : END_OF_HOB_LIST mem Hob = END_OF_HOB_LIST mem2 Hob := by
      unfold END_OF_HOB_LIST GET_HOB_TYPE; rw [h0]
    have hnext : GET_NEXT_HOB mem Hob = GET_NEXT_HOB mem2 Hob := by
      unfold GET_NEXT_HOB GET_HOB_LENGTH; rw [h0]
    rw [HobWalk, HobWalk, hend, hnext]
    rw [ih (GET_NEXT_HOB mem2 Hob) (fun a ha => h a (by
      unfold GET_NEXT_HOB at ha; omega))]

/-- Every finite list of records, none an end marker and none of length zero,
laid out back to back and followed by an end marker, has a walk: the addresses
of its records, within a fuel of one more than its length. -/
theorem HobWalk_placeHobs :
    ∀ (recs : List HobView) (base : Nat),
      (∀ r ∈ recs, r.HobType ≠ EFI_HOB_TYPE_END_OF_HOB_LIST ∧ 0 < r.HobLength) →
      HobWalk (placeHobs base recs) (recs.length + 1) base = some (hobAddresses base recs) := by
  intro recs
  induction recs with
  | nil => intro base _; rfl
  | cons h rest ih =>
    intro base hwf
    obtain ⟨hty, hlen⟩ := hwf h (List.mem_cons_self _ _)
    have hread : placeHobs base (h :: rest) base = h := by
      unfold placeHobs; simp
    have hend : END_OF_HOB_LIST (placeHobs base (h :: rest)) base = false := by
      unfold END_OF_HOB_LIST GET_HOB_TYPE
      rw [hread]
      simpa using hty
    have hnext : GET_NEXT_HOB (placeHobs base (h :: rest)) base = base + h.HobLength := by
      unfold GET_NEXT_HOB GET_HOB_LENGTH; rw [hread]
    rw [List.length_cons, HobWalk, hend, hnext]
    have hcongr := HobWalk_congr (placeHobs base (h :: rest))
      (placeHobs (base + h.HobLength) rest) (rest.length + 1) (base + h.HobLength)
      (fun a ha => by
        show (if a = base then h else placeHobs (base + h.HobLength) rest a) = _
        rw [if_neg (by omega)])
    rw [hcongr, ih (base + h.HobLength) (fun r hr => hwf r (List.mem_cons_of_mem _ hr))]
    rfl

/-- One turn of the loop of `FindResourceDescriptorByRange`. -/
theorem FindResourceDescriptorByRange_step (mem : Memory) (fuel Hob Base Top : Nat) :
    FindResourceDescriptorByRange mem (fuel + 1) Hob Base Top =
      if END_OF_HOB_LIST mem Hob then some none
      else if ContainsRange (mem Hob) Base Top then some (some Hob)
      else FindResourceDescriptorByRange mem fuel (GET_NEXT_HOB mem Hob) Base Top := by
  rw [FindResourceDescriptorByRange]
  unfold ContainsRange IsQualifyingMemoryDescriptor GET_HOB_TYPE
  split_ifs <;> first | rfl | omega

/-- On a list with an end marker within the fuel, `FindResourceDescriptorByRange`
is the search of the first address of the walk whose record contains the
range. -/
theorem FindResourceDescriptorByRange_walk (mem : Memory) (Base Top : Nat) :
    ∀ (fuel HobList : Nat) (L : List Nat), HobWalk mem fuel HobList = some L →
      FindResourceDescriptorByRange mem fuel HobList Base Top =
        some (L.find? (fun a => decide (ContainsRange (mem a) Base Top))) := by
  intro fuel
  induction fuel with
  | zero => intro HobList L h; simp [HobWalk] at h
  | succ n ih =>
    intro HobList L h
    rw [FindResourceDescriptorByRange_step]
    rw [HobWalk] at h
    by_cases hend : END_OF_HOB_LIST mem HobList = true
    · rw [if_pos hend] at h ⊢
      cases h
      rfl
    · rw [if_neg hend] at h ⊢
      cases hrest : HobWalk mem n (GET_NEXT_HOB mem HobList) with
      | none => rw [hrest] at h; simp at h
      | some rest =>
        rw [hrest] at h
        simp only [Option.map_some', Option.some.injEq] at h
        subst h
        by_cases hc : ContainsRange (mem HobList) Base Top
        · simp [hc]
        · simp [hc, ih _ _ hrest]

/-- One turn of the loop of `FindAnotherHighestBelow4GResourceDescriptor`. -/
theorem FindAnotherHighest_loop_step (mem : Memory) (m : Nat) (ex : Option Nat)
    (fuel Hob : Nat) (acc : Option Nat) :
    FindAnotherHighestBelow4GResourceDescriptor.loop mem m ex (fuel + 1) Hob acc =
      if END_OF_HOB_LIST mem Hob then some acc
      else FindAnotherHighestBelow4GResourceDescriptor.loop mem m ex fuel
        (GET_NEXT_HOB mem Hob) (highestStep mem m ex acc Hob) := by
  conv_lhs => unfold FindAnotherHighestBelow4GResourceDescriptor.loop
  by_cases hend : END_OF_HOB_LIST mem Hob = true
  · rw [if_pos hend, if_pos hend]
  · rw [if_neg hend, if_neg hend]
    unfold highestStep
    by_cases hc : IsCandidate mem m ex Hob
    · rw [if_pos hc]
      obtain ⟨⟨h1, h2, h3⟩, h4, h5, h6⟩ := hc
      rw [if_neg (show ¬ GET_HOB_TYPE mem Hob ≠ EFI_HOB_TYPE_RESOURCE_DESCRIPTOR from
          not_not.mpr h1), if_neg (not_not.mpr h2), if_neg (not_not.mpr h3),
        if_neg h4, if_neg (Nat.not_lt.mpr h5), if_neg (Nat.not_lt.mpr h6)]
      cases acc with
      | none => rfl
      | some Ret =>
        dsimp only [pickHigher]
        split_ifs <;> rfl
    · rw [if_neg hc]
      by_cases h1 : GET_HOB_TYPE mem Hob ≠ EFI_HOB_TYPE_RESOURCE_DESCRIPTOR
      · rw [if_pos h1]
      rw [if_neg h1]
      by_cases h2 : (mem Hob).ResourceType ≠ EFI_RESOURCE_SYSTEM_MEMORY
      · rw [if_pos h2]
      rw [if_neg h2]
      by_cases h3 : (mem Hob).ResourceAttribute &&& MEMORY_ATTRIBUTE_MASK
          ≠ TESTED_MEMORY_ATTRIBUTES
      · rw [if_pos h3]
      rw [if_neg h3]
      by_cases h4 : some Hob = ex
      · rw [if_pos h4]
      rw [if_neg h4]
      by_cases h5 : add64 (mem Hob).PhysicalStart (mem Hob).ResourceLength > BASE_4GB
      · rw [if_pos h5]
      rw [if_neg h5]
      by_cases h6 : (mem Hob).ResourceLength < m
      · rw [if_pos h6]
      exact absurd ⟨⟨not_not.mp h1, not_not.mp h2, not_not.mp h3⟩, h4,
        Nat.not_lt.mp h5, Nat.not_lt.mp h6⟩ hc

/-- On a list with an end marker within the fuel, the loop of
`FindAnotherHighestBelow4GResourceDescriptor` folds `highestStep` over the
walk. -/
theorem FindAnotherHighest_loop_walk (mem : Memory) (m : Nat) (ex : Option Nat) :
    ∀ (fuel Hob : Nat) (L : List Nat) (acc : Option Nat), HobWalk mem fuel Hob = some L →
      FindAnotherHighestBelow4GResourceDescriptor.loop mem m ex fuel Hob acc =
        some (L.foldl (highestStep mem m ex) acc) := by
  intro fuel
  induction fuel with
  | zero => intro Hob L acc h; simp [HobWalk] at h
  | succ n ih =>
    intro Hob L acc h
    rw [FindAnotherHighest_loop_step]
    rw [HobWalk] at h
    by_cases hend : END_OF_HOB_LIST mem Hob = true
    · rw [if_pos hend] at h ⊢
      cases h
      rfl
    · rw [if_neg hend] at h ⊢
      cases hrest : HobWalk mem n (GET_NEXT_HOB mem Hob) with
      | none => rw [hrest] at h; simp at h
      | some rest =>
        rw [hrest] at h
        simp only [Option.map_some', Option.some.injEq] at h
        subst h
        rw [ih _ _ _ hrest, List.foldl_cons]

/-- The fold of `highestStep` from `NULL` yields the first highest
candidate. -/
theorem foldl_highestStep_isFirstHighest (mem : Memory) (m : Nat) (ex : Option Nat)
    (L : List Nat) :
    IsFirstHighest mem m ex L (L.foldl (highestStep mem m ex) none) := by
  induction L using List.reverseRecOn with
  | nil => intro a ha; simp at ha
  | append_singleton init a ih =>
    rw [List.foldl_append, List.foldl_cons, List.foldl_nil]
    generalize List.foldl (highestStep mem m ex) none init = r0 at ih ⊢
    by_cases hc : IsCandidate mem m ex a
    · cases r0 with
      | none =>
        have hstep : highestStep mem m ex none a = some a := by
          unfold highestStep; rw [if_pos hc]; rfl
        rw [hstep]
        refine ⟨hc, init, [], rfl, ?_, ?_⟩
        · intro c hcmem hcc; exact absurd hcc (ih c hcmem)
        · intro c hcmem; simp at hcmem
      | some r =>
        obtain ⟨hrc, pre, post, hsplit, hpre, hpost⟩ := ih
        by_cases hlt : (mem r).PhysicalStart < (mem a).PhysicalStart
        · have hstep : highestStep mem m ex (some r) a = some a := by
            unfold highestStep; rw [if_pos hc]; unfold pickHigher; dsimp only; rw [if_pos hlt]
          rw [hstep]
          refine ⟨hc, init, [], rfl, ?_, ?_⟩
          · intro c hcmem hcc
            rw [hsplit] at hcmem
            rcases List.mem_append.mp hcmem with h1 | h1
            · exact lt_trans (hpre c h1 hcc) hlt
            · rcases List.mem_cons.mp h1 with h2 | h2
              · rw [h2]; exact hlt
              · exact lt_of_le_of_lt (hpost c h2 hcc) hlt
          · intro c hcmem; simp at hcmem
        · have hstep : highestStep mem m ex (some r) a = some r := by
            unfold highestStep; rw [if_pos hc]; unfold pickHigher; dsimp only; rw [if_neg hlt]
          rw [hstep]
          refine ⟨hrc, pre, post ++ [a], by rw [hsplit]; simp, hpre, ?_⟩
          intro c hcmem hcc
          rcases List.mem_append.mp hcmem with h1 | h1
          · exact hpost c h1 hcc
          · rw [List.mem_singleton.mp h1]; exact Nat.not_lt.mp hlt
    · have hstep : highestStep mem m ex r0 a = r0 := by
        unfold highestStep; rw [if_neg hc]
      rw [hstep]
      cases r0 with
      | none =>
        intro c hcmem
        rcases List.mem_append.mp hcmem with h1 | h1
        · exact ih c h1
        · rw [List.mem_singleton.mp h1]; exact hc
      | some r =>
        obtain ⟨hrc, pre, post, hsplit, hpre, hpost⟩ := ih
        refine ⟨hrc, pre, post ++ [a], by rw [hsplit]; simp, hpre, ?_⟩
        intro c hcmem hcc
        rcases List.mem_append.mp hcmem with h1 | h1
        · exact hpost c h1 hcc
        · rw [List.mem_singleton.mp h1] at hcc; exact absurd hcc hc

/-- On a list with an end marker within the fuel,
`FindAnotherHighestBelow4GResourceDescriptor` returns, and what it returns is
the first highest candidate of the walk. -/
theorem FindAnotherHighest_walk (mem : Memory) (m : Nat) (ex : Option Nat)
    (fuel HobList : Nat) (L : List Nat) (hL : HobWalk mem fuel HobList = some L) :
    ∃ r, FindAnotherHighestBelow4GResourceDescriptor mem fuel HobList m ex = some r ∧
      IsFirstHighest mem m ex L r := by
  refine ⟨_, ?_, foldl_highestStep_isFirstHighest mem m ex L⟩
  unfold FindAnotherHighestBelow4GResourceDescriptor
  exact FindAnotherHighest_loop_walk mem m ex fuel HobList L none hL

/-- On a list with an end marker within the fuel, the migration loop hands
over the records of the walk that are not of the hand-off type. -/
theorem migrate_walk (mem : Memory) :
    ∀ (fuel Hob : Nat) (L : List Nat), HobWalk mem fuel Hob = some L →
      BuildHobs.migrate mem fuel Hob =
        some (L.filter (fun a => decide ((mem a).HobType ≠ EFI_HOB_TYPE_HANDOFF))) := by
  intro fuel
  induction fuel with
  | zero => intro Hob L h; simp [HobWalk] at h
  | succ n ih =>
    intro Hob L h
    rw [BuildHobs.migrate]
    rw [HobWalk] at h
    by_cases hend : END_OF_HOB_LIST mem Hob = true
    · rw [if_pos hend] at h ⊢
      cases h
      rfl
    · rw [if_neg hend] at h ⊢
      cases hrest : HobWalk mem n (GET_NEXT_HOB mem Hob) with
      | none => rw [hrest] at h; simp at h
      | some rest =>
        rw [hrest] at h
        simp only [Option.map_some', Option.some.injEq] at h
        subst h
        rw [ih _ _ hrest]
        by_cases ht : (mem Hob).HobType ≠ EFI_HOB_TYPE_HANDOFF
        · rw [if_pos ht]; simp [ht]
        · rw [if_neg ht]; simp [ht]

/-- On a list with an end marker within the fuel, `FindResourceDescriptorByRange`
returns, and what it returns is the first containing descriptor of the walk. -/
theorem FindResourceDescriptorByRange_result (mem : Memory) (fuel HobList Base Top : Nat)
    (L : List Nat) (hL : HobWalk mem fuel HobList = some L) :
    ∃ r, FindResourceDescriptorByRange mem fuel HobList Base Top = some r ∧
      IsFirstContaining mem Base Top L r := by
  refine ⟨_, FindResourceDescriptorByRange_walk mem Base Top fuel HobList L hL, ?_⟩
  cases hf : L.find? (fun a => decide (ContainsRange (mem a) Base Top)) with
  | none =>
    intro a ha
    have := List.find?_eq_none.mp hf a ha
    simpa using this
  | some d =>
    obtain ⟨hd, pre, post, hsplit, hpre⟩ := List.find?_eq_some.mp hf
    refine ⟨by simpa using hd, pre, post, hsplit, ?_⟩
    intro a ha
    have := hpre a ha
    simpa using this

/-- A record that `IsFirstContaining` or `IsFirstHighest` names lies on the
walk. -/
theorem mem_of_split {L pre post : List Nat} {d : Nat} (h : L = pre ++ d :: post) : d ∈ L := by
  rw [h]; simp

/-- A descriptor that is a candidate with the end taken as an exact sum is a
candidate with the 64-bit sum of the source. -/
theorem isCandidate_of_exact (mem : Memory) (m : Nat) (ex : Option Nat) (a : Nat)
    (hq : IsQualifyingMemoryDescriptor (mem a)) (hne : some a ≠ ex)
    (hend : (mem a).PhysicalStart + (mem a).ResourceLength ≤ BASE_4GB)
    (hlen : (mem a).ResourceLength ≥ m) : IsCandidate mem m ex a := by
  refine ⟨hq, hne, ?_, hlen⟩
  rw [add64_of_lt (lt_of_le_of_lt hend (by unfold BASE_4GB; norm_num))]
  exact hend

/-! ## The finders: claims -/

/-- C2: on every list (the records `L` before the end marker), for every base
and top, `FindResourceDescriptorByRange` returns; it returns `NULL` exactly when
no qualifying descriptor of the list satisfies `Base ≥ PhysicalStart` and
`Top ≤ PhysicalStart + ResourceLength` (sum modulo `2 ^ 64`); and a descriptor it
returns satisfies both and is the first record in list order that does. -/
theorem FindResourceDescriptorByRange_first_match (mem : Memory)
    (fuel HobList Base Top : Nat) (L : List Nat) (hL : HobWalk mem fuel HobList = some L) :
    ∃ r, FindResourceDescriptorByRange mem fuel HobList Base Top = some r ∧
      (r = none ↔ ∀ a ∈ L, ¬ (IsQualifyingMemoryDescriptor (mem a) ∧
        Base ≥ (mem a).PhysicalStart ∧
        Top ≤ ((mem a).PhysicalStart + (mem a).ResourceLength) % 2 ^ 64)) ∧
      (∀ d, r = some d →
        (IsQualifyingMemoryDescriptor (mem d) ∧ Base ≥ (mem d).PhysicalStart ∧
          Top ≤ ((mem d).PhysicalStart + (mem d).ResourceLength) % 2 ^ 64) ∧
        ∃ pre post, L = pre ++ d :: post ∧
          ∀ a ∈ pre, ¬ (IsQualifyingMemoryDescriptor (mem a) ∧
            Base ≥ (mem a).PhysicalStart ∧
            Top ≤ ((mem a).PhysicalStart + (mem a).ResourceLength) % 2 ^ 64)) := by
  obtain ⟨r, hr, hfirst⟩ := FindResourceDescriptorByRange_result mem fuel HobList Base Top L hL
  refine ⟨r, hr, ?_, ?_⟩
  · cases r with
    | none => exact ⟨fun _ => hfirst, fun _ => rfl⟩
    | some d =>
      constructor
      · intro h; cases h
      · intro h
        obtain ⟨hd, pre, post, hsplit, _⟩ := hfirst
        exact absurd hd (h d (mem_of_split hsplit))
  · intro d hd
    subst hd
    exact hfirst

/-- Witness of C2 on the worked example of the specification. -/
theorem FindResourceDescriptorByRange_first_match_witness :
    HobWalk memAbove 3 0x1000 = some [0x1000, 0x1038] ∧
    ∃ r, FindResourceDescriptorByRange memAbove 3 0x1000 0x1000 0x2000 = some r ∧
      (r = none ↔ ∀ a ∈ [0x1000, 0x1038], ¬ (IsQualifyingMemoryDescriptor (memAbove a) ∧
        0x1000 ≥ (memAbove a).PhysicalStart ∧
        0x2000 ≤ ((memAbove a).PhysicalStart + (memAbove a).ResourceLength) % 2 ^ 64)) ∧
      (∀ d, r = some d →
        (IsQualifyingMemoryDescriptor (memAbove d) ∧ 0x1000 ≥ (memAbove d).PhysicalStart ∧
          0x2000 ≤ ((memAbove d).PhysicalStart + (memAbove d).ResourceLength) % 2 ^ 64) ∧
        ∃ pre post, [0x1000, 0x1038] = pre ++ d :: post ∧
          ∀ a ∈ pre, ¬ (IsQualifyingMemoryDescriptor (memAbove a) ∧
            0x1000 ≥ (memAbove a).PhysicalStart ∧
            0x2000 ≤ ((memAbove a).PhysicalStart + (memAbove a).ResourceLength) % 2 ^ 64)) :=
  ⟨by decide,
    FindResourceDescriptorByRange_first_match memAbove 3 0x1000 0x1000 0x2000 _ (by decide)⟩

/-- C3: when `FindAnotherHighestBelow4GResourceDescriptor` returns a descriptor
`r`, every candidate of the list (qualifying, not the excluded descriptor, end
at or below 4GiB, length at least the minimal size) has a `PhysicalStart` at
most that of `r`, and `r` is the earliest in list order among the candidates
of its `PhysicalStart`: every candidate before `r` has a strictly lower one. -/
theorem FindAnotherHighest_first_max (mem : Memory) (fuel HobList m : Nat) (ex : Option Nat)
    (L : List Nat) (r : Nat) (hL : HobWalk mem fuel HobList = some L)
    (hr : FindAnotherHighestBelow4GResourceDescriptor mem fuel HobList m ex = some (some r)) :
    (∀ c ∈ L, IsCandidate mem m ex c → (mem c).PhysicalStart ≤ (mem r).PhysicalStart) ∧
    ∃ pre post, L = pre ++ r :: post ∧
      ∀ c ∈ pre, IsCandidate mem m ex c → (mem c).PhysicalStart < (mem r).PhysicalStart := by
  obtain ⟨r0, hr0, hfirst⟩ := FindAnotherHighest_walk mem m ex fuel HobList L hL
  rw [hr] at hr0
  cases hr0
  obtain ⟨_, pre, post, hsplit, hpre, hpost⟩ := hfirst
  refine ⟨?_, pre, post, hsplit, hpre⟩
  intro c hc hcc
  rw [hsplit] at hc
  rcases List.mem_append.mp hc with h1 | h1
  · exact le_of_lt (hpre c h1 hcc)
  · rcases List.mem_cons.mp h1 with h2 | h2
    · rw [h2]
    · exact hpost c h2 hcc

/-- Witness of C3: of two candidates that start at `0x100000`, the first one,
at address `0x1038`, is returned. -/
theorem FindAnotherHighest_first_max_witness :
    HobWalk memTie 5 0x1000 = some [0x1000, 0x1038, 0x1068, 0x1098] ∧
    FindAnotherHighestBelow4GResourceDescriptor memTie 5 0x1000 0x200 none
      = some (some 0x1038) ∧
    ((∀ c ∈ [0x1000, 0x1038, 0x1068, 0x1098], IsCandidate memTie 0x200 none c →
        (memTie c).PhysicalStart ≤ (memTie 0x1038).PhysicalStart) ∧
      ∃ pre post, [0x1000, 0x1038, 0x1068, 0x1098] = pre ++ 0x1038 :: post ∧
        ∀ c ∈ pre, IsCandidate memTie 0x200 none c →
          (memTie c).PhysicalStart < (memTie 0x1038).PhysicalStart) :=
  ⟨by decide, by decide,
    FindAnotherHighest_first_max memTie 5 0x1000 0x200 none _ 0x1038 (by decide) (by decide)⟩

/-- C4: on every list, `FindAnotherHighestBelow4GResourceDescriptor` returns; a
descriptor it returns is a record of the list and a candidate (qualifying, not
the excluded descriptor, 64-bit end at or below 4GiB, which is its exact end
when that does not overflow, length at least the minimal size); and it
returns `NULL` if and only if the list has no candidate, the end of a
candidate being the 64-bit sum, or the exact sum on a list whose qualifying
descriptors do not overflow. -/
theorem FindAnotherHighest_candidate (mem : Memory) (fuel HobList m : Nat) (ex : Option Nat)
    (L : List Nat) (hL : HobWalk mem fuel HobList = some L) :
    ∃ r, FindAnotherHighestBelow4GResourceDescriptor mem fuel HobList m ex = some r ∧
      (∀ d, r = some d →
        d ∈ L ∧ IsQualifyingMemoryDescriptor (mem d) ∧ some d ≠ ex ∧
        ((mem d).PhysicalStart + (mem d).ResourceLength) % 2 ^ 64 ≤ BASE_4GB ∧
        (NoOverflow (mem d) → (mem d).PhysicalStart + (mem d).ResourceLength ≤ BASE_4GB) ∧
        (mem d).ResourceLength ≥ m) ∧
      (r = none ↔ ∀ a ∈ L, ¬ IsCandidate mem m ex a) ∧
      ((∀ a ∈ L, IsQualifyingMemoryDescriptor (mem a) → NoOverflow (mem a)) →
        (r = none ↔ ∀ a ∈ L, ¬ (IsQualifyingMemoryDescriptor (mem a) ∧ some a ≠ ex ∧
          (mem a).PhysicalStart + (mem a).ResourceLength ≤ BASE_4GB ∧
          (mem a).ResourceLength ≥ m))) := by
  obtain ⟨r, hr, hfirst⟩ := FindAnotherHighest_walk mem m ex fuel HobList L hL
  have hnull : r = none ↔ ∀ a ∈ L, ¬ IsCandidate mem m ex a := by
    cases r with
    | none => exact ⟨fun _ => hfirst, fun _ => rfl⟩
    | some d =>
      constructor
      · intro h; cases h
      · intro h
        obtain ⟨hd, pre, post, hsplit, _, _⟩ := hfirst
        exact absurd hd (h d (mem_of_split hsplit))
  refine ⟨r, hr, ?_, hnull, ?_⟩
  · intro d hd
    subst hd
    obtain ⟨⟨hq, hne, hend, hlen⟩, pre, post, hsplit, _, _⟩ := hfirst
    refine ⟨mem_of_split hsplit, hq, hne, hend, ?_, hlen⟩
    intro hno
    rw [add64_of_lt hno] at hend
    exact hend
  · intro hno
    rw [hnull]
    constructor
    · intro h a ha ⟨hq, hne, hend, hlen⟩
      exact h a ha (isCandidate_of_exact mem m ex a hq hne hend hlen)
    · intro h a ha ⟨hq, hne, hend, hlen⟩
      rw [add64_of_lt (hno a ha hq)] at hend
      exact h a ha ⟨hq, hne, hend, hlen⟩

/-- Witness of C4 on the list with three candidates. -/
theorem FindAnotherHighest_candidate_witness :
    HobWalk memTie 5 0x1000 = some [0x1000, 0x1038, 0x1068, 0x1098] ∧
    ∃ r, FindAnotherHighestBelow4GResourceDescriptor memTie 5 0x1000 0x200 (some 0x1038)
        = some r ∧
      (∀ d, r = some d →
        d ∈ [0x1000, 0x1038, 0x1068, 0x1098] ∧ IsQualifyingMemoryDescriptor (memTie d) ∧
        some d ≠ some 0x1038 ∧
        ((memTie d).PhysicalStart + (memTie d).ResourceLength) % 2 ^ 64 ≤ BASE_4GB ∧
        (NoOverflow (memTie d) →
          (memTie d).PhysicalStart + (memTie d).ResourceLength ≤ BASE_4GB) ∧
        (memTie d).ResourceLength ≥ 0x200) ∧
      (r = none ↔ ∀ a ∈ [0x1000, 0x1038, 0x1068, 0x1098],
        ¬ IsCandidate memTie 0x200 (some 0x1038) a) ∧
      ((∀ a ∈ [0x1000, 0x1038, 0x1068, 0x1098],
          IsQualifyingMemoryDescriptor (memTie a) → NoOverflow (memTie a)) →
        (r = none ↔ ∀ a ∈ [0x1000, 0x1038, 0x1068, 0x1098],
          ¬ (IsQualifyingMemoryDescriptor (memTie a) ∧ some a ≠ some 0x1038 ∧
            (memTie a).PhysicalStart + (memTie a).ResourceLength ≤ BASE_4GB ∧
            (memTie a).ResourceLength ≥ 0x200))) :=
  ⟨by decide,
    FindAnotherHighest_candidate memTie 5 0x1000 0x200 (some 0x1038) _ (by decide)⟩

/-- The bits of `MEMORY_ATTRIBUTE_MASK` are the eleven attribute bits of its
definition. -/
theorem testBit_MEMORY_ATTRIBUTE_MASK (i : Nat) :
    MEMORY_ATTRIBUTE_MASK.testBit i = true ↔
      2 ^ i ∈ [ EFI_RESOURCE_ATTRIBUTE_PRESENT, EFI_RESOURCE_ATTRIBUTE_INITIALIZED,
        EFI_RESOURCE_ATTRIBUTE_TESTED, EFI_RESOURCE_ATTRIBUTE_READ_PROTECTED,
        EFI_RESOURCE_ATTRIBUTE_WRITE_PROTECTED, EFI_RESOURCE_ATTRIBUTE_EXECUTION_PROTECTED,
        EFI_RESOURCE_ATTRIBUTE_READ_ONLY_PROTECTED, EFI_RESOURCE_ATTRIBUTE_16_BIT_IO,
        EFI_RESOURCE_ATTRIBUTE_32_BIT_IO, EFI_RESOURCE_ATTRIBUTE_64_BIT_IO,
        EFI_RESOURCE_ATTRIBUTE_PERSISTENT] := by
  by_cases hi : i < 24
  · interval_cases i <;> decide
  · have hpow : 2 ^ 24 ≤ 2 ^ i := Nat.pow_le_pow_right (by norm_num) (Nat.not_lt.mp hi)
    have hmask : MEMORY_ATTRIBUTE_MASK < 2 ^ i := lt_of_lt_of_le (by decide) hpow
    rw [Nat.testBit_lt_two_pow hmask]
    simp only [EFI_RESOURCE_ATTRIBUTE_PRESENT, EFI_RESOURCE_ATTRIBUTE_INITIALIZED,
      EFI_RESOURCE_ATTRIBUTE_TESTED, EFI_RESOURCE_ATTRIBUTE_READ_PROTECTED,
      EFI_RESOURCE_ATTRIBUTE_WRITE_PROTECTED, EFI_RESOURCE_ATTRIBUTE_EXECUTION_PROTECTED,
      EFI_RESOURCE_ATTRIBUTE_READ_ONLY_PROTECTED, EFI_RESOURCE_ATTRIBUTE_16_BIT_IO,
      EFI_RESOURCE_ATTRIBUTE_32_BIT_IO, EFI_RESOURCE_ATTRIBUTE_64_BIT_IO,
      EFI_RESOURCE_ATTRIBUTE_PERSISTENT, List.mem_cons, List.mem_singleton, List.mem_nil_iff, or_false]
    constructor
    · intro h; cases h
    · intro h; exfalso; omega

/-- The bits of `TESTED_MEMORY_ATTRIBUTES` are Present, Initialized and
Tested. -/
theorem testBit_TESTED_MEMORY_ATTRIBUTES (i : Nat) :
    TESTED_MEMORY_ATTRIBUTES.testBit i = true ↔
      2 ^ i ∈ [ EFI_RESOURCE_ATTRIBUTE_PRESENT, EFI_RESOURCE_ATTRIBUTE_INITIALIZED,
        EFI_RESOURCE_ATTRIBUTE_TESTED] := by
  by_cases hi : i < 3
  · interval_cases i <;> decide
  · have hpow : 2 ^ 3 ≤ 2 ^ i := Nat.pow_le_pow_right (by norm_num) (Nat.not_lt.mp hi)
    have hmask : TESTED_MEMORY_ATTRIBUTES < 2 ^ i := lt_of_lt_of_le (by decide) hpow
    rw [Nat.testBit_lt_two_pow hmask]
    simp only [EFI_RESOURCE_ATTRIBUTE_PRESENT, EFI_RESOURCE_ATTRIBUTE_INITIALIZED,
      EFI_RESOURCE_ATTRIBUTE_TESTED, List.mem_cons, List.mem_singleton, List.mem_nil_iff, or_false]
    constructor
    · intro h; cases h
    · intro h; exfalso; omega

/-- C5: the attribute mask has exactly the eleven named bits and the tested
value exactly the bits Present, Initialized and Tested; and in both finders a
record that is not the end marker passes the filter if and only if its type is
ResourceDescriptor, its resource type is SystemMemory and
`ResourceAttribute & MEMORY_ATTRIBUTE_MASK` equals `TESTED_MEMORY_ATTRIBUTES`
(one and the same predicate): a record that fails it is skipped, the search
going on unchanged, and a record that passes it goes on to the range
tests. -/
theorem finders_share_qualifying_filter :
    (∀ i, MEMORY_ATTRIBUTE_MASK.testBit i = true ↔
      2 ^ i ∈ [ EFI_RESOURCE_ATTRIBUTE_PRESENT, EFI_RESOURCE_ATTRIBUTE_INITIALIZED,
        EFI_RESOURCE_ATTRIBUTE_TESTED, EFI_RESOURCE_ATTRIBUTE_READ_PROTECTED,
        EFI_RESOURCE_ATTRIBUTE_WRITE_PROTECTED, EFI_RESOURCE_ATTRIBUTE_EXECUTION_PROTECTED,
        EFI_RESOURCE_ATTRIBUTE_READ_ONLY_PROTECTED, EFI_RESOURCE_ATTRIBUTE_16_BIT_IO,
        EFI_RESOURCE_ATTRIBUTE_32_BIT_IO, EFI_RESOURCE_ATTRIBUTE_64_BIT_IO,
        EFI_RESOURCE_ATTRIBUTE_PERSISTENT]) ∧
    (∀ i, TESTED_MEMORY_ATTRIBUTES.testBit i = true ↔
      2 ^ i ∈ [ EFI_RESOURCE_ATTRIBUTE_PRESENT, EFI_RESOURCE_ATTRIBUTE_INITIALIZED,
        EFI_RESOURCE_ATTRIBUTE_TESTED]) ∧
    (∀ (mem : Memory) (fuel Hob Base Top : Nat),
      FindResourceDescriptorByRange mem (fuel + 1) Hob Base Top =
        if END_OF_HOB_LIST mem Hob then some none
        else if (mem Hob).HobType = EFI_HOB_TYPE_RESOURCE_DESCRIPTOR ∧
            (mem Hob).ResourceType = EFI_RESOURCE_SYSTEM_MEMORY ∧
            (mem Hob).ResourceAttribute &&& MEMORY_ATTRIBUTE_MASK = TESTED_MEMORY_ATTRIBUTES then
          if Base ≥ (mem Hob).PhysicalStart ∧
              Top ≤ add64 (mem Hob).PhysicalStart (mem Hob).ResourceLength then
            some (some Hob)
          else FindResourceDescriptorByRange mem fuel (GET_NEXT_HOB mem Hob) Base Top
        else FindResourceDescriptorByRange mem fuel (GET_NEXT_HOB mem Hob) Base Top) ∧
    (∀ (mem : Memory) (m : Nat) (ex : Option Nat) (fuel Hob : Nat) (acc : Option Nat),
      FindAnotherHighestBelow4GResourceDescriptor.loop mem m ex (fuel + 1) Hob acc =
        if END_OF_HOB_LIST mem Hob then some acc
        else if (mem Hob).HobType = EFI_HOB_TYPE_RESOURCE_DESCRIPTOR ∧
            (mem Hob).ResourceType = EFI_RESOURCE_SYSTEM_MEMORY ∧
            (mem Hob).ResourceAttribute &&& MEMORY_ATTRIBUTE_MASK = TESTED_MEMORY_ATTRIBUTES then
          if some Hob ≠ ex ∧
              add64 (mem Hob).PhysicalStart (mem Hob).ResourceLength ≤ BASE_4GB ∧
              (mem Hob).ResourceLength ≥ m then
            FindAnotherHighestBelow4GResourceDescriptor.loop mem m ex fuel
              (GET_NEXT_HOB mem Hob) (pickHigher mem acc Hob)
          else FindAnotherHighestBelow4GResourceDescriptor.loop mem m ex fuel
              (GET_NEXT_HOB mem Hob) acc
        else FindAnotherHighestBelow4GResourceDescriptor.loop mem m ex fuel
            (GET_NEXT_HOB mem Hob) acc) := by
  refine ⟨testBit_MEMORY_ATTRIBUTE_MASK, testBit_TESTED_MEMORY_ATTRIBUTES, ?_, ?_⟩
  · intro mem fuel Hob Base Top
    rw [FindResourceDescriptorByRange_step]
    unfold ContainsRange IsQualifyingMemoryDescriptor
    split_ifs <;> first | rfl | (exfalso; tauto)
  · intro mem m ex fuel Hob acc
    rw [FindAnotherHighest_loop_step]
    unfold highestStep IsCandidate IsQualifyingMemoryDescriptor
    split_ifs <;> first | rfl | (exfalso; tauto)

/-! ## BuildHobs: lemmas -/

/-- On a list with an end marker within the fuel, the tail of `BuildHobs`
returns `EFI_SUCCESS` after the call of `HobConstructor` and the migration of
the records that are not of the hand-off type. -/
theorem BuildHobs_finish_walk (mem : Memory) (fuel Hob : Nat) (L : List Nat)
    (MemoryBottom MemoryTop FreeMemoryBottom FreeMemoryTop : Nat)
    (hL : HobWalk mem fuel Hob = some L) :
    BuildHobs.finish mem fuel Hob MemoryBottom MemoryTop FreeMemoryBottom FreeMemoryTop =
      some { Status := EFI_STATUS.EFI_SUCCESS
             Constructed := some
               { EfiMemoryBottom := MemoryBottom
                 EfiMemoryTop := MemoryTop
                 EfiFreeMemoryBottom := FreeMemoryBottom
                 EfiFreeMemoryTop := FreeMemoryTop }
             Added := L.filter (fun a => decide ((mem a).HobType ≠ EFI_HOB_TYPE_HANDOFF)) } := by
  unfold BuildHobs.finish
  rw [migrate_walk mem fuel Hob L hL]
  rfl

/-- What the containment search returns contains the range and lies on the
walk. -/
theorem FindResourceDescriptorByRange_some (mem : Memory) (fuel HobList Base Top : Nat)
    (L : List Nat) (d : Nat) (hL : HobWalk mem fuel HobList = some L)
    (hd : FindResourceDescriptorByRange mem fuel HobList Base Top = some (some d)) :
    d ∈ L ∧ ContainsRange (mem d) Base Top := by
  obtain ⟨r, hr, hfirst⟩ := FindResourceDescriptorByRange_result mem fuel HobList Base Top L hL
  rw [hd] at hr
  cases hr
  obtain ⟨hc, pre, post, hsplit, _⟩ := hfirst
  exact ⟨mem_of_split hsplit, hc⟩

/-- What the highest-below-limit search returns is a candidate on the walk. -/
theorem FindAnotherHighest_some (mem : Memory) (fuel HobList m : Nat) (ex : Option Nat)
    (L : List Nat) (e : Nat) (hL : HobWalk mem fuel HobList = some L)
    (he : FindAnotherHighestBelow4GResourceDescriptor mem fuel HobList m ex = some (some e)) :
    e ∈ L ∧ IsCandidate mem m ex e := by
  obtain ⟨r, hr, hfirst⟩ := FindAnotherHighest_walk mem m ex fuel HobList L hL
  rw [he] at hr
  cases hr
  obtain ⟨hc, pre, post, hsplit, _, _⟩ := hfirst
  exact ⟨mem_of_split hsplit, hc⟩

/-- Branches 1 and 4 place the new region at the top of the descriptor found:
under the no-overflow invariant the 64-bit results are the exact ones and the
region lies in the descriptor. -/
theorem placement_at_top (h : HobView) (m : Nat) (hno : NoOverflow h)
    (hlen : h.ResourceLength ≥ m) :
    add64 h.PhysicalStart h.ResourceLength = h.PhysicalStart + h.ResourceLength ∧
    sub64 (add64 h.PhysicalStart h.ResourceLength) m
      = h.PhysicalStart + h.ResourceLength - m ∧
    h.PhysicalStart ≤ h.PhysicalStart + h.ResourceLength - m ∧
    h.PhysicalStart + h.ResourceLength - m ≤ h.PhysicalStart + h.ResourceLength := by
  unfold NoOverflow at hno
  have h1 := add64_of_lt hno
  refine ⟨h1, ?_, by omega, by omega⟩
  rw [h1, sub64_of_le (by omega) hno]

/-- The four branches of `BuildHobs`, each with the outcomes of the searches
it depends on, on a list with an end marker within the fuel. -/
theorem BuildHobs_cases (mem : Memory) (fuel BootloaderParameter MinimalNeededSize : Nat)
    (L : List Nat) (hL : HobWalk mem fuel BootloaderParameter = some L) :
    (FindResourceDescriptorByRange mem fuel BootloaderParameter
        (mem BootloaderParameter).EfiMemoryBottom (mem BootloaderParameter).EfiMemoryTop
          = some none ∧
      ((FindAnotherHighestBelow4GResourceDescriptor mem fuel BootloaderParameter
          MinimalNeededSize none = some none ∧
        BuildHobs mem fuel BootloaderParameter MinimalNeededSize = some BuildHobs.notFound) ∨
      ∃ e, FindAnotherHighestBelow4GResourceDescriptor mem fuel BootloaderParameter
          MinimalNeededSize none = some (some e) ∧
        BuildHobs mem fuel BootloaderParameter MinimalNeededSize =
          some (BuildHobs.success mem L
            (sub64 (add64 (mem e).PhysicalStart (mem e).ResourceLength) MinimalNeededSize)
            (add64 (mem e).PhysicalStart (mem e).ResourceLength)
            (sub64 (add64 (mem e).PhysicalStart (mem e).ResourceLength) MinimalNeededSize)
            (add64 (mem e).PhysicalStart (mem e).ResourceLength)))) ∨
    ∃ d, FindResourceDescriptorByRange mem fuel BootloaderParameter
        (mem BootloaderParameter).EfiMemoryBottom (mem BootloaderParameter).EfiMemoryTop
          = some (some d) ∧
      ((sub64 (add64 (mem d).PhysicalStart (mem d).ResourceLength)
          (mem BootloaderParameter).EfiMemoryTop ≥ MinimalNeededSize ∧
        BuildHobs mem fuel BootloaderParameter MinimalNeededSize =
          some (BuildHobs.success mem L (mem BootloaderParameter).EfiFreeMemoryTop
            (add64 (mem BootloaderParameter).EfiMemoryTop MinimalNeededSize)
            (mem BootloaderParameter).EfiMemoryTop
            (add64 (mem BootloaderParameter).EfiMemoryTop MinimalNeededSize))) ∨
      (sub64 (add64 (mem d).PhysicalStart (mem d).ResourceLength)
          (mem BootloaderParameter).EfiMemoryTop < MinimalNeededSize ∧
        sub64 (mem BootloaderParameter).EfiMemoryBottom (mem d).PhysicalStart
          ≥ MinimalNeededSize ∧
        BuildHobs mem fuel BootloaderParameter MinimalNeededSize =
          some (BuildHobs.success mem L
            (sub64 (mem BootloaderParameter).EfiMemoryBottom MinimalNeededSize)
            (mem BootloaderParameter).EfiMemoryTop
            (sub64 (mem BootloaderParameter).EfiMemoryBottom MinimalNeededSize)
            (mem BootloaderParameter).EfiMemoryBottom)) ∨
      (sub64 (add64 (mem d).PhysicalStart (mem d).ResourceLength)
          (mem BootloaderParameter).EfiMemoryTop < MinimalNeededSize ∧
        sub64 (mem BootloaderParameter).EfiMemoryBottom (mem d).PhysicalStart
          < MinimalNeededSize ∧
        ((FindAnotherHighestBelow4GResourceDescriptor mem fuel BootloaderParameter
            MinimalNeededSize (some d) = some none ∧
          BuildHobs mem fuel BootloaderParameter MinimalNeededSize
            = some BuildHobs.notFound) ∨
        ∃ e, FindAnotherHighestBelow4GResourceDescriptor mem fuel BootloaderParameter
            MinimalNeededSize (some d) = some (some e) ∧
          BuildHobs mem fuel BootloaderParameter MinimalNeededSize =
            some (BuildHobs.success mem L
              (sub64 (add64 (mem e).PhysicalStart (mem e).ResourceLength) MinimalNeededSize)
              (add64 (mem e).PhysicalStart (mem e).ResourceLength)
              (sub64 (add64 (mem e).PhysicalStart (mem e).ResourceLength) MinimalNeededSize)
              (add64 (mem e).PhysicalStart (mem e).ResourceLength))))) := by
  have hfin := fun a b c d => BuildHobs_finish_walk mem fuel BootloaderParameter L a b c d hL
  obtain ⟨r, hr, -⟩ := FindResourceDescriptorByRange_result mem fuel BootloaderParameter
    (mem BootloaderParameter).EfiMemoryBottom (mem BootloaderParameter).EfiMemoryTop L hL
  cases r with
  | none =>
    refine Or.inl ⟨hr, ?_⟩
    obtain ⟨r2, hr2, -⟩ := FindAnotherHighest_walk mem MinimalNeededSize none fuel
      BootloaderParameter L hL
    cases r2 with
    | none =>
      refine Or.inl ⟨hr2, ?_⟩
      unfold BuildHobs; simp only [hr, hr2]
    | some e =>
      refine Or.inr ⟨e, hr2, ?_⟩
      unfold BuildHobs; simp only [hr, hr2]
      exact hfin _ _ _ _
  | some d =>
    refine Or.inr ⟨d, hr, ?_⟩
    by_cases habove : sub64 (add64 (mem d).PhysicalStart (mem d).ResourceLength)
        (mem BootloaderParameter).EfiMemoryTop ≥ MinimalNeededSize
    · refine Or.inl ⟨habove, ?_⟩
      unfold BuildHobs; simp only [hr]
      rw [if_pos habove]
      exact hfin _ _ _ _
    · by_cases hbelow : sub64 (mem BootloaderParameter).EfiMemoryBottom
          (mem d).PhysicalStart ≥ MinimalNeededSize
      · refine Or.inr (Or.inl ⟨Nat.not_le.mp habove, hbelow, ?_⟩)
        unfold BuildHobs; simp only [hr]
        rw [if_neg habove, if_pos hbelow]
        exact hfin _ _ _ _
      · refine Or.inr (Or.inr ⟨Nat.not_le.mp habove, Nat.not_le.mp hbelow, ?_⟩)
        obtain ⟨r2, hr2, -⟩ := FindAnotherHighest_walk mem MinimalNeededSize (some d) fuel
          BootloaderParameter L hL
        cases r2 with
        | none =>
          refine Or.inl ⟨hr2, ?_⟩
          unfold BuildHobs; simp only [hr]
          rw [if_neg habove, if_neg hbelow]
          simp only [hr2]
        | some e =>
          refine Or.inr ⟨e, hr2, ?_⟩
          unfold BuildHobs; simp only [hr]
          rw [if_neg habove, if_neg hbelow]
          simp only [hr2]
          exact hfin _ _ _ _

/-! ## BuildHobs: claims -/

/-- C6 (branch 2): when the containment search on the hand-off range finds a
descriptor `d` and the room above, `(d.PhysicalStart + d.ResourceLength) -
EfiMemoryTop` in the 64-bit arithmetic of the source, is at least the minimal
size, `BuildHobs` succeeds with `MemoryBottom` the old `EfiFreeMemoryTop`,
`FreeMemoryBottom` the old `EfiMemoryTop`, and `FreeMemoryTop = MemoryTop` the
old `EfiMemoryTop` plus the minimal size (a sum that does not wrap); nothing is
assumed about the room below. -/
theorem BuildHobs_room_above (mem : Memory) (fuel BootloaderParameter MinimalNeededSize : Nat)
    (L : List Nat) (d : Nat) (hL : HobWalk mem fuel BootloaderParameter = some L)
    (hd : FindResourceDescriptorByRange mem fuel BootloaderParameter
      (mem BootloaderParameter).EfiMemoryBottom (mem BootloaderParameter).EfiMemoryTop
        = some (some d))
    (habove : sub64 (add64 (mem d).PhysicalStart (mem d).ResourceLength)
      (mem BootloaderParameter).EfiMemoryTop ≥ MinimalNeededSize) :
    BuildHobs mem fuel BootloaderParameter MinimalNeededSize =
      some { Status := EFI_STATUS.EFI_SUCCESS
             Constructed := some
               { EfiMemoryBottom := (mem BootloaderParameter).EfiFreeMemoryTop
                 EfiMemoryTop := (mem BootloaderParameter).EfiMemoryTop + MinimalNeededSize
                 EfiFreeMemoryBottom := (mem BootloaderParameter).EfiMemoryTop
                 EfiFreeMemoryTop := (mem BootloaderParameter).EfiMemoryTop + MinimalNeededSize }
             Added := L.filter (fun a => decide ((mem a).HobType ≠ EFI_HOB_TYPE_HANDOFF)) } := by
  obtain ⟨_, _, _, htop⟩ := FindResourceDescriptorByRange_some mem fuel BootloaderParameter
    _ _ L d hL hd
  have hlt := add64_lt (mem d).PhysicalStart (mem d).ResourceLength
  rw [sub64_of_le htop hlt] at habove
  have hsum : add64 (mem BootloaderParameter).EfiMemoryTop MinimalNeededSize
      = (mem BootloaderParameter).EfiMemoryTop + MinimalNeededSize :=
    add64_of_lt (by omega)
  have habove2 : sub64 (add64 (mem d).PhysicalStart (mem d).ResourceLength)
      (mem BootloaderParameter).EfiMemoryTop ≥ MinimalNeededSize := by
    rw [sub64_of_le htop hlt]; exact habove
  unfold BuildHobs
  simp only [hd]
  rw [if_pos habove2, BuildHobs_finish_walk mem fuel BootloaderParameter L _ _ _ _ hL, hsum]

/-- Witness of C6 on the worked example, where there is room above and
below. -/
theorem BuildHobs_room_above_witness :
    HobWalk memAbove 3 0x1000 = some [0x1000, 0x1038] ∧
    FindResourceDescriptorByRange memAbove 3 0x1000 (memAbove 0x1000).EfiMemoryBottom
      (memAbove 0x1000).EfiMemoryTop = some (some 0x1038) ∧
    sub64 (memAbove 0x1000).EfiMemoryBottom (memAbove 0x1038).PhysicalStart ≥ 0x200 ∧
    BuildHobs memAbove 3 0x1000 0x200 =
      some { Status := EFI_STATUS.EFI_SUCCESS
             Constructed := some
               { EfiMemoryBottom := (memAbove 0x1000).EfiFreeMemoryTop
                 EfiMemoryTop := (memAbove 0x1000).EfiMemoryTop + 0x200
                 EfiFreeMemoryBottom := (memAbove 0x1000).EfiMemoryTop
                 EfiFreeMemoryTop := (memAbove 0x1000).EfiMemoryTop + 0x200 }
             Added := [0x1000, 0x1038].filter
               (fun a => decide ((memAbove a).HobType ≠ EFI_HOB_TYPE_HANDOFF)) } :=
  ⟨by decide, by decide, by decide,
    BuildHobs_room_above memAbove 3 0x1000 0x200 _ 0x1038 (by decide) (by decide) (by decide)⟩

/-- C7 (branch 3): when the containment search finds a descriptor `d`, the
room above is smaller than the minimal size and the room below,
`EfiMemoryBottom - d.PhysicalStart`, is at least the minimal size, `BuildHobs`
succeeds with `MemoryBottom = FreeMemoryBottom` the old `EfiMemoryBottom` minus
the minimal size (a difference that does not wrap), `FreeMemoryTop` the old
`EfiMemoryBottom` and `MemoryTop` the old `EfiMemoryTop`. -/
theorem BuildHobs_room_below (mem : Memory) (fuel BootloaderParameter MinimalNeededSize : Nat)
    (L : List Nat) (d : Nat) (hL : HobWalk mem fuel BootloaderParameter = some L)
    (hty : (mem BootloaderParameter).EfiMemoryBottom < 2 ^ 64)
    (hd : FindResourceDescriptorByRange mem fuel BootloaderParameter
      (mem BootloaderParameter).EfiMemoryBottom (mem BootloaderParameter).EfiMemoryTop
        = some (some d))
    (habove : sub64 (add64 (mem d).PhysicalStart (mem d).ResourceLength)
      (mem BootloaderParameter).EfiMemoryTop < MinimalNeededSize)
    (hbelow : sub64 (mem BootloaderParameter).EfiMemoryBottom (mem d).PhysicalStart
      ≥ MinimalNeededSize) :
    MinimalNeededSize ≤ (mem BootloaderParameter).EfiMemoryBottom ∧
    BuildHobs mem fuel BootloaderParameter MinimalNeededSize =
      some { Status := EFI_STATUS.EFI_SUCCESS
             Constructed := some
               { EfiMemoryBottom := (mem BootloaderParameter).EfiMemoryBottom - MinimalNeededSize
                 EfiMemoryTop := (mem BootloaderParameter).EfiMemoryTop
                 EfiFreeMemoryBottom :=
                   (mem BootloaderParameter).EfiMemoryBottom - MinimalNeededSize
                 EfiFreeMemoryTop := (mem BootloaderParameter).EfiMemoryBottom }
             Added := L.filter (fun a => decide ((mem a).HobType ≠ EFI_HOB_TYPE_HANDOFF)) } := by
  obtain ⟨_, _, hbase, _⟩ := FindResourceDescriptorByRange_some mem fuel BootloaderParameter
    _ _ L d hL hd
  have hb := hbelow
  rw [sub64_of_le hbase hty] at hb
  have hle : MinimalNeededSize ≤ (mem BootloaderParameter).EfiMemoryBottom := by omega
  refine ⟨hle, ?_⟩
  unfold BuildHobs
  simp only [hd]
  rw [if_neg (Nat.not_le.mpr habove), if_pos hbelow,
    BuildHobs_finish_walk mem fuel BootloaderParameter L _ _ _ _ hL, sub64_of_le hle hty]

/-- Witness of C7 on a list with `0x100` bytes above and `0x1000` bytes
below. -/
theorem BuildHobs_room_below_witness :
    HobWalk memBelow 3 0x1000 = some [0x1000, 0x1038] ∧
    0x200 ≤ (memBelow 0x1000).EfiMemoryBottom ∧
    BuildHobs memBelow 3 0x1000 0x200 =
      some { Status := EFI_STATUS.EFI_SUCCESS
             Constructed := some
               { EfiMemoryBottom := (memBelow 0x1000).EfiMemoryBottom - 0x200
                 EfiMemoryTop := (memBelow 0x1000).EfiMemoryTop
                 EfiFreeMemoryBottom := (memBelow 0x1000).EfiMemoryBottom - 0x200
                 EfiFreeMemoryTop := (memBelow 0x1000).EfiMemoryBottom }
             Added := [0x1000, 0x1038].filter
               (fun a => decide ((memBelow a).HobType ≠ EFI_HOB_TYPE_HANDOFF)) } :=
  ⟨by decide,
    BuildHobs_room_below memBelow 3 0x1000 0x200 _ 0x1038 (by decide) (by decide) (by decide)
      (by decide) (by decide)⟩

/-- C1: on every list that satisfies the data-model invariants (the end of
every qualifying descriptor does not overflow 64 bits; the hand-off record
has `EfiMemoryBottom ≤ EfiFreeMemoryBottom ≤ EfiFreeMemoryTop ≤ EfiMemoryTop`)
and for every minimal size, `BuildHobs` returns, and when it returns
`EFI_SUCCESS` it has called `HobConstructor` on a region `[MemoryBottom,
MemoryTop)` that lies, together with the free region `[FreeMemoryBottom,
FreeMemoryTop)` inside it, in the range `[PhysicalStart, PhysicalStart +
ResourceLength)` of one qualifying descriptor of the list. -/
theorem BuildHobs_region_in_descriptor (mem : Memory)
    (fuel BootloaderParameter MinimalNeededSize : Nat) (L : List Nat)
    (hL : HobWalk mem fuel BootloaderParameter = some L)
    (hno : ∀ a ∈ L, IsQualifyingMemoryDescriptor (mem a) → NoOverflow (mem a))
    (hord : HandoffOrdered (mem BootloaderParameter)) :
    ∃ run, BuildHobs mem fuel BootloaderParameter MinimalNeededSize = some run ∧
      (run.Status = EFI_STATUS.EFI_SUCCESS →
        ∃ args d, run.Constructed = some args ∧ d ∈ L ∧
          IsQualifyingMemoryDescriptor (mem d) ∧
          (mem d).PhysicalStart ≤ args.EfiMemoryBottom ∧
          args.EfiMemoryBottom ≤ args.EfiFreeMemoryBottom ∧
          args.EfiFreeMemoryBottom ≤ args.EfiFreeMemoryTop ∧
          args.EfiFreeMemoryTop ≤ args.EfiMemoryTop ∧
          args.EfiMemoryTop ≤ (mem d).PhysicalStart + (mem d).ResourceLength) := by
  obtain ⟨ho1, ho2, ho3⟩ := hord
  have top : ∀ (ex : Option Nat) (e : Nat),
      FindAnotherHighestBelow4GResourceDescriptor mem fuel BootloaderParameter
        MinimalNeededSize ex = some (some e) →
      e ∈ L ∧ IsQualifyingMemoryDescriptor (mem e) ∧
      (mem e).PhysicalStart
        ≤ sub64 (add64 (mem e).PhysicalStart (mem e).ResourceLength) MinimalNeededSize ∧
      sub64 (add64 (mem e).PhysicalStart (mem e).ResourceLength) MinimalNeededSize
        ≤ add64 (mem e).PhysicalStart (mem e).ResourceLength ∧
      add64 (mem e).PhysicalStart (mem e).ResourceLength
        ≤ (mem e).PhysicalStart + (mem e).ResourceLength := by
    intro ex e he
    obtain ⟨heL, hq, _, _, hlen⟩ := FindAnotherHighest_some mem fuel BootloaderParameter
      MinimalNeededSize ex L e hL he
    obtain ⟨h1, h2, h3, h4⟩ := placement_at_top (mem e) MinimalNeededSize (hno e heL hq) hlen
    refine ⟨heL, hq, ?_, ?_, ?_⟩
    · rw [h2]; exact h3
    · rw [h2, h1]; exact h4
    · rw [h1]
  rcases BuildHobs_cases mem fuel BootloaderParameter MinimalNeededSize L hL with
    ⟨h1, ⟨h2, hb⟩ | ⟨e, h2, hb⟩⟩ |
    ⟨d, h1, ⟨h2, hb⟩ | ⟨h2, h3, hb⟩ | ⟨h2, h3, ⟨h4, hb⟩ | ⟨e, h4, hb⟩⟩⟩
  · exact ⟨_, hb, fun h => by unfold BuildHobs.notFound at h; cases h⟩
  · obtain ⟨t1, t2, t3, t4, t5⟩ := top none e h2
    exact ⟨_, hb, fun _ => ⟨_, e, rfl, t1, t2, t3, le_refl _, t4, le_refl _, t5⟩⟩
  · obtain ⟨hdL, hq, hbase, htop⟩ := FindResourceDescriptorByRange_some mem fuel
      BootloaderParameter _ _ L d hL h1
    have hlt := add64_lt (mem d).PhysicalStart (mem d).ResourceLength
    have hend := add64_of_lt (hno d hdL hq)
    rw [sub64_of_le htop hlt] at h2
    have hsum : add64 (mem BootloaderParameter).EfiMemoryTop MinimalNeededSize
        = (mem BootloaderParameter).EfiMemoryTop + MinimalNeededSize :=
      add64_of_lt (by omega)
    refine ⟨_, hb, fun _ => ⟨_, d, rfl, hdL, hq, ?_, ?_, ?_, le_refl _, ?_⟩⟩
    · show (mem d).PhysicalStart ≤ (mem BootloaderParameter).EfiFreeMemoryTop
      omega
    · show (mem BootloaderParameter).EfiFreeMemoryTop ≤ (mem BootloaderParameter).EfiMemoryTop
      exact ho3
    · show (mem BootloaderParameter).EfiMemoryTop ≤ add64 _ _
      rw [hsum]; omega
    · show add64 _ _ ≤ _
      rw [hsum]; omega
  · obtain ⟨hdL, hq, hbase, htop⟩ := FindResourceDescriptorByRange_some mem fuel
      BootloaderParameter _ _ L d hL h1
    have hlt := add64_lt (mem d).PhysicalStart (mem d).ResourceLength
    have hend := add64_of_lt (hno d hdL hq)
    have hty : (mem BootloaderParameter).EfiMemoryBottom < 2 ^ 64 := by omega
    rw [sub64_of_le hbase hty] at h3
    have hsub : sub64 (mem BootloaderParameter).EfiMemoryBottom MinimalNeededSize
        = (mem BootloaderParameter).EfiMemoryBottom - MinimalNeededSize :=
      sub64_of_le (by omega) hty
    refine ⟨_, hb, fun _ => ⟨_, d, rfl, hdL, hq, ?_, le_refl _, ?_, ?_, ?_⟩⟩
    · show (mem d).PhysicalStart ≤ sub64 _ _
      rw [hsub]; omega
    · show sub64 _ _ ≤ (mem BootloaderParameter).EfiMemoryBottom
      rw [hsub]; omega
    · show (mem BootloaderParameter).EfiMemoryBottom ≤ (mem BootloaderParameter).EfiMemoryTop
      omega
    · show (mem BootloaderParameter).EfiMemoryTop ≤ _
      omega
  · exact ⟨_, hb, fun h => by unfold BuildHobs.notFound at h; cases h⟩
  · obtain ⟨t1, t2, t3, t4, t5⟩ := top (some d) e h4
    exact ⟨_, hb, fun _ => ⟨_, e, rfl, t1, t2, t3, le_refl _, t4, le_refl _, t5⟩⟩

/-- Witness of C1 on the worked example: the region `[0x1800, 0x2200)` lies in
the descriptor `[0x0, 0x10000)`. -/
theorem BuildHobs_region_in_descriptor_witness :
    HobWalk memAbove 3 0x1000 = some [0x1000, 0x1038] ∧
    HandoffOrdered (memAbove 0x1000) ∧
    ∃ run, BuildHobs memAbove 3 0x1000 0x200 = some run ∧
      (run.Status = EFI_STATUS.EFI_SUCCESS →
        ∃ args d, run.Constructed = some args ∧ d ∈ [0x1000, 0x1038] ∧
          IsQualifyingMemoryDescriptor (memAbove d) ∧
          (memAbove d).PhysicalStart ≤ args.EfiMemoryBottom ∧
          args.EfiMemoryBottom ≤ args.EfiFreeMemoryBottom ∧
          args.EfiFreeMemoryBottom ≤ args.EfiFreeMemoryTop ∧
          args.EfiFreeMemoryTop ≤ args.EfiMemoryTop ∧
          args.EfiMemoryTop ≤ (memAbove d).PhysicalStart + (memAbove d).ResourceLength) :=
  ⟨by decide, by decide,
    BuildHobs_region_in_descriptor memAbove 3 0x1000 0x200 _ (by decide) (by decide)
      (by decide)⟩

/-! ## Failure: claims -/

/-- The tail of `BuildHobs` returns `EFI_SUCCESS` whenever it returns. -/
theorem BuildHobs_finish_status (mem : Memory) (fuel Hob a b c d : Nat) (run : BuildHobsRun)
    (h : BuildHobs.finish mem fuel Hob a b c d = some run) :
    run.Status = EFI_STATUS.EFI_SUCCESS := by
  unfold BuildHobs.finish at h
  cases hm : BuildHobs.migrate mem fuel Hob with
  | none => rw [hm] at h; simp at h
  | some added =>
    rw [hm] at h
    simp only [Option.map_some', Option.some.injEq] at h
    rw [← h]

/-- A run of `BuildHobs` that returns `EFI_NOT_FOUND` is the run without any
call, on every memory and for every fuel. -/
theorem BuildHobs_notFound_run (mem : Memory) (fuel BootloaderParameter m : Nat)
    (run : BuildHobsRun) (h : BuildHobs mem fuel BootloaderParameter m = some run)
    (hs : run.Status = EFI_STATUS.EFI_NOT_FOUND) : run = BuildHobs.notFound := by
  have hfin : ∀ a b c d, BuildHobs.finish mem fuel BootloaderParameter a b c d = some run →
      run = BuildHobs.notFound := by
    intro a b c d hf
    have := BuildHobs_finish_status mem fuel BootloaderParameter a b c d run hf
    rw [hs] at this
    cases this
  unfold BuildHobs at h
  dsimp only at h
  split at h
  · cases h
  · split at h
    · cases h
    · cases h; rfl
    · exact hfin _ _ _ _ h
  · split_ifs at h
    · exact hfin _ _ _ _ h
    · exact hfin _ _ _ _ h
    · split at h
      · cases h
      · cases h; rfl
      · exact hfin _ _ _ _ h

/-- C11: on a list that satisfies the data-model invariants used here (the
hand-off record has `EfiMemoryBottom ≤ EfiMemoryTop`, the end of the
descriptor does not overflow) and whose only qualifying descriptor `d` is
shorter than the minimal size, `BuildHobs` returns `EFI_NOT_FOUND` without any
call, whether or not `d` contains the hand-off range. -/
theorem BuildHobs_only_descriptor_too_small (mem : Memory)
    (fuel BootloaderParameter MinimalNeededSize : Nat) (L : List Nat) (d : Nat)
    (hL : HobWalk mem fuel BootloaderParameter = some L)
    (hord : (mem BootloaderParameter).EfiMemoryBottom ≤ (mem BootloaderParameter).EfiMemoryTop)
    (hd : d ∈ L) (hq : IsQualifyingMemoryDescriptor (mem d))
    (honly : ∀ a ∈ L, IsQualifyingMemoryDescriptor (mem a) → a = d)
    (hno : NoOverflow (mem d))
    (hlen : (mem d).ResourceLength < MinimalNeededSize) :
    BuildHobs mem fuel BootloaderParameter MinimalNeededSize = some BuildHobs.notFound := by
  have hend := add64_of_lt hno
  unfold NoOverflow at hno
  have hcand : ∀ ex e, FindAnotherHighestBelow4GResourceDescriptor mem fuel
      BootloaderParameter MinimalNeededSize ex = some (some e) → False := by
    intro ex e he
    obtain ⟨heL, ⟨heq, _, _, hel⟩⟩ := FindAnotherHighest_some mem fuel BootloaderParameter
      MinimalNeededSize ex L e hL he
    rw [honly e heL heq] at hel
    omega
  have hfound : ∀ d2, FindResourceDescriptorByRange mem fuel BootloaderParameter
      (mem BootloaderParameter).EfiMemoryBottom (mem BootloaderParameter).EfiMemoryTop
        = some (some d2) →
      d2 = d ∧ (mem d).PhysicalStart ≤ (mem BootloaderParameter).EfiMemoryBottom ∧
      (mem BootloaderParameter).EfiMemoryTop ≤ (mem d).PhysicalStart + (mem d).ResourceLength := by
    intro d2 h2
    obtain ⟨h2L, h2q, h2b, h2t⟩ := FindResourceDescriptorByRange_some mem fuel
      BootloaderParameter _ _ L d2 hL h2
    have := honly d2 h2L h2q
    subst this
    rw [hend] at h2t
    exact ⟨rfl, h2b, h2t⟩
  rcases BuildHobs_cases mem fuel BootloaderParameter MinimalNeededSize L hL with
    ⟨h1, ⟨h2, hb⟩ | ⟨e, h2, hb⟩⟩ |
    ⟨d2, h1, ⟨h2, hb⟩ | ⟨h2, h3, hb⟩ | ⟨h2, h3, ⟨h4, hb⟩ | ⟨e, h4, hb⟩⟩⟩
  · exact hb
  · exact absurd (hcand none e h2) id
  · obtain ⟨rfl, hs, ht⟩ := hfound d2 h1
    rw [hend, sub64_of_le ht hno] at h2
    omega
  · obtain ⟨rfl, hs, ht⟩ := hfound d2 h1
    rw [sub64_of_le hs (by omega)] at h3
    omega
  · exact hb
  · exact absurd (hcand (some d2) e h4) id

/-- Witness of C11: the only descriptor is `0x1000` bytes long and the minimal
size is `0x2000`; it contains the hand-off range in the first list and does
not in the second. -/
theorem BuildHobs_only_descriptor_too_small_witness :
    BuildHobs memFull 3 0x1000 0x2000 = some BuildHobs.notFound ∧
    BuildHobs memElsewhere 3 0x1000 0x20000 = some BuildHobs.notFound :=
  ⟨BuildHobs_only_descriptor_too_small memFull 3 0x1000 0x2000 [0x1000, 0x1038] 0x1038
      (by decide) (by decide) (by decide) (by decide) (by decide) (by decide) (by decide),
    BuildHobs_only_descriptor_too_small memElsewhere 3 0x1000 0x20000 [0x1000, 0x1038] 0x1038
      (by decide) (by decide) (by decide) (by decide) (by decide) (by decide) (by decide)⟩

/-- C12: whenever `BuildHobs` returns `EFI_NOT_FOUND`, it has not called
`HobConstructor`, it has handed no record to `AddNewHob`, and the process-wide
state after the call is the state before it, whatever the two functions do to
that state. -/
theorem BuildHobs_failure_installs_nothing (mem : Memory)
    (fuel BootloaderParameter MinimalNeededSize : Nat) (run : BuildHobsRun)
    (h : BuildHobs mem fuel BootloaderParameter MinimalNeededSize = some run)
    (hs : run.Status = EFI_STATUS.EFI_NOT_FOUND) :
    run.Constructed = none ∧ run.Added = [] ∧
    ∀ (σ : Type) (HobConstructorEffect : HobConstructorArgs → σ → σ)
      (AddNewHobEffect : Nat → σ → σ) (before : σ),
      run.stateAfter HobConstructorEffect AddNewHobEffect before = before := by
  have hrun := BuildHobs_notFound_run mem fuel BootloaderParameter MinimalNeededSize run h hs
  subst hrun
  exact ⟨rfl, rfl, fun _ _ _ _ => rfl⟩

/-- Witness of C12 on the list whose only descriptor has no room. -/
theorem BuildHobs_failure_installs_nothing_witness :
    BuildHobs memFull 3 0x1000 0x200 = some BuildHobs.notFound ∧
    BuildHobs.notFound.Constructed = none ∧ BuildHobs.notFound.Added = [] ∧
    ∀ (σ : Type) (HobConstructorEffect : HobConstructorArgs → σ → σ)
      (AddNewHobEffect : Nat → σ → σ) (before : σ),
      BuildHobs.notFound.stateAfter HobConstructorEffect AddNewHobEffect before = before :=
  ⟨by decide,
    BuildHobs_failure_installs_nothing memFull 3 0x1000 0x200 BuildHobs.notFound (by decide)
      (by decide)⟩

/-! ## Migration: claims -/

/-- No record of the walk is an end marker. -/
theorem HobWalk_not_end (mem : Memory) :
    ∀ (fuel Hob : Nat) (L : List Nat), HobWalk mem fuel Hob = some L →
      ∀ a ∈ L, (mem a).HobType ≠ EFI_HOB_TYPE_END_OF_HOB_LIST := by
  intro fuel
  induction fuel with
  | zero => intro Hob L h; simp [HobWalk] at h
  | succ n ih =>
    intro Hob L h
    rw [HobWalk] at h
    by_cases hend : END_OF_HOB_LIST mem Hob = true
    · rw [if_pos hend] at h
      cases h
      intro a ha
      simp at ha
    · rw [if_neg hend] at h
      cases hrest : HobWalk mem n (GET_NEXT_HOB mem Hob) with
      | none => rw [hrest] at h; simp at h
      | some rest =>
        rw [hrest] at h
        simp only [Option.map_some', Option.some.injEq] at h
        subst h
        intro a ha
        rcases List.mem_cons.mp ha with h1 | h1
        · rw [h1]
          unfold END_OF_HOB_LIST GET_HOB_TYPE at hend
          simpa using hend
        · exact ih _ _ hrest a h1

/-! ## The worked example and the input contract: claims -/

/-- C14, as stated, fails: on the worked example the region that `BuildHobs`
selects is not `MemoryBottom = FreeMemoryBottom = 0x1800`, `FreeMemoryTop =
MemoryTop = 0x1A00`. -/
theorem worked_example_not_as_stated :
    FindResourceDescriptorByRange memAbove 3 0x1000 0x1000 0x2000 = some (some 0x1038) ∧
    BuildHobs memAbove 3 0x1000 0x200 =
      some (BuildHobs.success memAbove [0x1000, 0x1038] 0x1800 0x2200 0x2000 0x2200) ∧
    (BuildHobs.success memAbove [0x1000, 0x1038] 0x1800 0x2200 0x2000 0x2200).Constructed ≠
      some { EfiMemoryBottom := 0x1800, EfiMemoryTop := 0x1A00,
             EfiFreeMemoryBottom := 0x1800, EfiFreeMemoryTop := 0x1A00 } := by
  decide

/-- C14, amended: on the worked example, wherever the list is placed,
`BuildHobs` finds the containing descriptor (the second record), the room
above is `0xE000`, at least `0x200`, and branch 2 selects `MemoryBottom =
0x1800` (the old `EfiFreeMemoryTop`), `FreeMemoryBottom = 0x2000` (the old
`EfiMemoryTop`) and `FreeMemoryTop = MemoryTop = 0x2200`. -/
theorem worked_example_region (base : Nat) :
    FindResourceDescriptorByRange
        (placeHobs base [handoffHob 0x1000 0x2000 0x1000 0x1800, testedHob 0x0 0x10000])
        3 base 0x1000 0x2000 = some (some (base + 56)) ∧
    sub64 (add64 (testedHob 0x0 0x10000).PhysicalStart (testedHob 0x0 0x10000).ResourceLength)
      0x2000 = 0xE000 ∧
    BuildHobs (placeHobs base [handoffHob 0x1000 0x2000 0x1000 0x1800, testedHob 0x0 0x10000])
        3 base 0x200 =
      some { Status := EFI_STATUS.EFI_SUCCESS
             Constructed := some
               { EfiMemoryBottom := 0x1800
                 EfiMemoryTop := 0x2200
                 EfiFreeMemoryBottom := 0x2000
                 EfiFreeMemoryTop := 0x2200 }
             Added := [base + 56] } := by
  have hwalk : HobWalk
      (placeHobs base [handoffHob 0x1000 0x2000 0x1000 0x1800, testedHob 0x0 0x10000]) 3 base
      = some [base, base + 56] :=
    HobWalk_placeHobs [handoffHob 0x1000 0x2000 0x1000 0x1800, testedHob 0x0 0x10000]
      base (by decide)
  have h0 : placeHobs base [handoffHob 0x1000 0x2000 0x1000 0x1800, testedHob 0x0 0x10000] base
      = handoffHob 0x1000 0x2000 0x1000 0x1800 := by
    simp [placeHobs]
  have h1 : placeHobs base [handoffHob 0x1000 0x2000 0x1000 0x1800, testedHob 0x0 0x10000]
      (base + 56) = testedHob 0x0 0x10000 := by
    simp [placeHobs, handoffHob]
  have c0 : ¬ ContainsRange (handoffHob 0x1000 0x2000 0x1000 0x1800) 0x1000 0x2000 := by decide
  have c1 : ContainsRange (testedHob 0x0 0x10000) 0x1000 0x2000 := by decide
  have hfind : FindResourceDescriptorByRange
      (placeHobs base [handoffHob 0x1000 0x2000 0x1000 0x1800, testedHob 0x0 0x10000])
      3 base 0x1000 0x2000 = some (some (base + 56)) := by
    rw [FindResourceDescriptorByRange_step, FindResourceDescriptorByRange_step]
    have e0 : END_OF_HOB_LIST (placeHobs base
        [handoffHob 0x1000 0x2000 0x1000 0x1800, testedHob 0x0 0x10000]) base = false := by
      unfold END_OF_HOB_LIST GET_HOB_TYPE; rw [h0]; decide
    have n0 : GET_NEXT_HOB (placeHobs base
        [handoffHob 0x1000 0x2000 0x1000 0x1800, testedHob 0x0 0x10000]) base = base + 56 := by
      unfold GET_NEXT_HOB GET_HOB_LENGTH; rw [h0]; rfl
    have e1 : END_OF_HOB_LIST (placeHobs base
        [handoffHob 0x1000 0x2000 0x1000 0x1800, testedHob 0x0 0x10000]) (base + 56) = false := by
      unfold END_OF_HOB_LIST GET_HOB_TYPE; rw [h1]; decide
    rw [e0, n0, e1, h0, h1, if_neg (by decide), if_neg c0, if_neg (by decide), if_pos c1]
  have habove : ¬ sub64 (add64 (testedHob 0x0 0x10000).PhysicalStart
      (testedHob 0x0 0x10000).ResourceLength) 0x2000 < 0x200 := by decide
  have hbounds : (handoffHob 0x1000 0x2000 0x1000 0x1800).EfiMemoryBottom = 0x1000 ∧
      (handoffHob 0x1000 0x2000 0x1000 0x1800).EfiMemoryTop = 0x2000 ∧
      (handoffHob 0x1000 0x2000 0x1000 0x1800).EfiFreeMemoryTop = 0x1800 ∧
      add64 0x2000 0x200 = 0x2200 := by decide
  obtain ⟨hb1, hb2, hb3, hb4⟩ := hbounds
  refine ⟨hfind, by decide, ?_⟩
  have hrun := BuildHobs_cases _ 3 base 0x200 _ hwalk
  rw [h0, hb1, hb2, hfind] at hrun
  rcases hrun with ⟨hn, _⟩ | ⟨d, hd, ⟨_, hb⟩ | ⟨h2, _⟩ | ⟨h2, _⟩⟩
  · cases hn
  · rw [hb, hb3, hb4]
    have f0 : decide ((placeHobs base
        [handoffHob 0x1000 0x2000 0x1000 0x1800, testedHob 0x0 0x10000] base).HobType
        ≠ EFI_HOB_TYPE_HANDOFF) = false := by rw [h0]; decide
    have f1 : decide ((placeHobs base
        [handoffHob 0x1000 0x2000 0x1000 0x1800, testedHob 0x0 0x10000] (base + 56)).HobType
        ≠ EFI_HOB_TYPE_HANDOFF) = true := by rw [h1]; decide
    unfold BuildHobs.success
    simp only [List.filter, f0, f1]
  · cases hd
    rw [h1] at h2
    exact absurd h2 habove
  · cases hd
    rw [h1] at h2
    exact absurd h2 habove

/-- The loop of `FindAnotherHighestBelow4GResourceDescriptor` over a walk is
the search `FindHighestBelowLimit` of the specification. -/
theorem FindAnotherHighest_eq_spec (mem : Memory) (m : Nat) (ex : Option Nat)
    (fuel HobList : Nat) (L : List Nat) (hL : HobWalk mem fuel HobList = some L) :
    FindAnotherHighestBelow4GResourceDescriptor mem fuel HobList m ex =
      some (FindHighestBelowLimit mem L m ex) := by
  unfold FindAnotherHighestBelow4GResourceDescriptor FindHighestBelowLimit
  exact FindAnotherHighest_loop_walk mem m ex fuel HobList L none hL

/-- On a list with an end marker within the fuel, `BuildHobs` calls
`HobConstructor` on the region that the four-case decision selects from the
hand-off view of the record at the base address. -/
theorem BuildHobs_eq_SelectRegion (mem : Memory)
    (fuel BootloaderParameter MinimalNeededSize : Nat) (L : List Nat)
    (hL : HobWalk mem fuel BootloaderParameter = some L) :
    ∃ run, BuildHobs mem fuel BootloaderParameter MinimalNeededSize = some run ∧
      run.Constructed = SelectRegion mem L MinimalNeededSize (mem BootloaderParameter) := by
  have hf1 := FindResourceDescriptorByRange_walk mem (mem BootloaderParameter).EfiMemoryBottom
    (mem BootloaderParameter).EfiMemoryTop fuel BootloaderParameter L hL
  have hf2 := fun ex => FindAnotherHighest_eq_spec mem MinimalNeededSize ex fuel
    BootloaderParameter L hL
  have hsel : ∀ r, FindResourceDescriptorByRange mem fuel BootloaderParameter
      (mem BootloaderParameter).EfiMemoryBottom (mem BootloaderParameter).EfiMemoryTop
        = some r →
      FindContaining mem L (mem BootloaderParameter).EfiMemoryBottom
        (mem BootloaderParameter).EfiMemoryTop = r := by
    intro r hr
    rw [hf1] at hr
    exact Option.some.inj hr
  rcases BuildHobs_cases mem fuel BootloaderParameter MinimalNeededSize L hL with
    ⟨h1, ⟨h2, hb⟩ | ⟨e, h2, hb⟩⟩ |
    ⟨d, h1, ⟨h2, hb⟩ | ⟨h2, h3, hb⟩ | ⟨h2, h3, ⟨h4, hb⟩ | ⟨e, h4, hb⟩⟩⟩
  · refine ⟨_, hb, ?_⟩
    rw [hf2] at h2
    unfold SelectRegion
    rw [hsel _ h1, Option.some.inj h2]
    rfl
  · refine ⟨_, hb, ?_⟩
    rw [hf2] at h2
    unfold SelectRegion
    rw [hsel _ h1, Option.some.inj h2]
    rfl
  · refine ⟨_, hb, ?_⟩
    unfold SelectRegion
    rw [hsel _ h1]
    dsimp only
    rw [if_pos h2]
    rfl
  · refine ⟨_, hb, ?_⟩
    unfold SelectRegion
    rw [hsel _ h1]
    dsimp only
    rw [if_neg (Nat.not_le.mpr h2), if_pos h3]
    rfl
  · refine ⟨_, hb, ?_⟩
    rw [hf2] at h4
    unfold SelectRegion
    rw [hsel _ h1]
    dsimp only
    rw [if_neg (Nat.not_le.mpr h2), if_neg (Nat.not_le.mpr h3), Option.some.inj h4]
    rfl
  · refine ⟨_, hb, ?_⟩
    rw [hf2] at h4
    unfold SelectRegion
    rw [hsel _ h1]
    dsimp only
    rw [if_neg (Nat.not_le.mpr h2), if_neg (Nat.not_le.mpr h3), Option.some.inj h4]
    rfl

/-- C15, as stated, fails: on a well-formed list whose hand-off record is the
second record, the four-case decision predicts the region `(0x1800, 0x2200,
0x2000, 0x2200)` from the bounds of that record, and `BuildHobs` calls
`HobConstructor` on `(0x100000, 0x200, 0x0, 0x200)`, which it gets from the
first record read as a hand-off table. -/
theorem handoff_not_first_counterexample :
    HobWalk memHandoffSecond 4 0x1000 = some [0x1000, 0x1030, 0x1068] ∧
    listHandoff memHandoffSecond [0x1000, 0x1030, 0x1068] = some 0x1030 ∧
    SelectRegion memHandoffSecond [0x1000, 0x1030, 0x1068] 0x200 (memHandoffSecond 0x1030) =
      some { EfiMemoryBottom := 0x1800, EfiMemoryTop := 0x2200,
             EfiFreeMemoryBottom := 0x2000, EfiFreeMemoryTop := 0x2200 } ∧
    BuildHobs memHandoffSecond 4 0x1000 0x200 =
      some (BuildHobs.success memHandoffSecond [0x1000, 0x1030, 0x1068]
        0x100000 0x200 0x0 0x200) ∧
    (BuildHobs.success memHandoffSecond [0x1000, 0x1030, 0x1068]
        0x100000 0x200 0x0 0x200).Constructed ≠
      SelectRegion memHandoffSecond [0x1000, 0x1030, 0x1068] 0x200 (memHandoffSecond 0x1030) := by
  decide

/-- C15, amended: on every well-formed list, `BuildHobs` takes the inputs of
the selector from the record at the boot-parameter base address, read as a
hand-off record, and the region it selects is the one the four-case decision
predicts from those bounds; when the hand-off record of the list is that
first record, it is the region predicted from the bounds of the hand-off
record of the list. -/
theorem BuildHobs_selects_from_base_record (mem : Memory)
    (fuel BootloaderParameter MinimalNeededSize : Nat) (L : List Nat)
    (hL : HobWalk mem fuel BootloaderParameter = some L) :
    ∃ run, BuildHobs mem fuel BootloaderParameter MinimalNeededSize = some run ∧
      run.Constructed = SelectRegion mem L MinimalNeededSize (mem BootloaderParameter) ∧
      (run.Status = EFI_STATUS.EFI_SUCCESS ↔ run.Constructed ≠ none) ∧
      ∀ h, listHandoff mem L = some h → h = BootloaderParameter →
        run.Constructed = SelectRegion mem L MinimalNeededSize (mem h) := by
  obtain ⟨run, hrun, hsel⟩ := BuildHobs_eq_SelectRegion mem fuel BootloaderParameter
    MinimalNeededSize L hL
  refine ⟨run, hrun, hsel, ?_, ?_⟩
  · rcases BuildHobs_cases mem fuel BootloaderParameter MinimalNeededSize L hL with
      ⟨_, ⟨_, hb⟩ | ⟨e, _, hb⟩⟩ |
      ⟨d, _, ⟨_, hb⟩ | ⟨_, _, hb⟩ | ⟨_, _, ⟨_, hb⟩ | ⟨e, _, hb⟩⟩⟩
    all_goals
      rw [hb] at hrun
      cases hrun
      first
      | exact Iff.intro (fun h => (by cases h)) (fun h => absurd rfl h)
      | exact Iff.intro (fun _ h => (by cases h)) (fun _ => rfl)
  · intro h _ hbase
    rw [hbase]
    exact hsel

/-- Witness of C15, amended, on the worked example, whose hand-off record is
the first record. -/
theorem BuildHobs_selects_from_base_record_witness :
    HobWalk memAbove 3 0x1000 = some [0x1000, 0x1038] ∧
    listHandoff memAbove [0x1000, 0x1038] = some 0x1000 ∧
    ∃ run, BuildHobs memAbove 3 0x1000 0x200 = some run ∧
      run.Constructed = SelectRegion memAbove [0x1000, 0x1038] 0x200 (memAbove 0x1000) ∧
      (run.Status = EFI_STATUS.EFI_SUCCESS ↔ run.Constructed ≠ none) ∧
      ∀ h, listHandoff memAbove [0x1000, 0x1038] = some h → h = 0x1000 →
        run.Constructed = SelectRegion memAbove [0x1000, 0x1038] 0x200 (memAbove h) :=
  ⟨by decide, by decide,
    BuildHobs_selects_from_base_record memAbove 3 0x1000 0x200 _ (by decide)⟩

/-! ## Unique containment and the second search: claims -/

/-- The 64-bit sum is at most the exact sum. -/
theorem add64_le (a b : Nat) : add64 a b ≤ a + b := by
  unfold add64; exact Nat.mod_le _ _

/-- Two non-overlapping descriptors do not both contain a range that is not
empty, nor an empty range that is not at a point where one of them ends and
the other starts. -/
theorem containsRange_unique (h1 h2 : HobView) (Base Top : Nat)
    (hne : Base < Top ∨ (Base = Top ∧
      ¬ (h1.PhysicalStart + h1.ResourceLength = Base ∧ h2.PhysicalStart = Base) ∧
      ¬ (h2.PhysicalStart + h2.ResourceLength = Base ∧ h1.PhysicalStart = Base)))
    (hnon : NonOverlapping h1 h2) (c1 : ContainsRange h1 Base Top)
    (c2 : ContainsRange h2 Base Top) : False := by
  obtain ⟨_, hb1, ht1⟩ := c1
  obtain ⟨_, hb2, ht2⟩ := c2
  have e1 := add64_le h1.PhysicalStart h1.ResourceLength
  have e2 := add64_le h2.PhysicalStart h2.ResourceLength
  rcases hnon with h | h <;> rcases hne with h3 | ⟨h3, h4, h5⟩
  · omega
  · exact h4 ⟨by omega, by omega⟩
  · omega
  · exact h5 ⟨by omega, by omega⟩

/-- The empty range at a point where one qualifying descriptor ends and
another starts is contained in both, when their ends do not overflow. -/
theorem empty_range_on_boundary_contained (h1 h2 : HobView) (Base : Nat)
    (q1 : IsQualifyingMemoryDescriptor h1) (q2 : IsQualifyingMemoryDescriptor h2)
    (n1 : NoOverflow h1) (n2 : NoOverflow h2)
    (hend : h1.PhysicalStart + h1.ResourceLength = Base) (hstart : h2.PhysicalStart = Base) :
    ContainsRange h1 Base Base ∧ ContainsRange h2 Base Base := by
  unfold NoOverflow at n1 n2
  refine ⟨⟨q1, ?_, ?_⟩, ⟨q2, ?_, ?_⟩⟩
  · show h1.PhysicalStart ≤ Base
    omega
  · rw [add64_of_lt n1]; omega
  · show h2.PhysicalStart ≤ Base
    omega
  · rw [add64_of_lt n2]; omega

/-- C16, as stated, fails: of two adjacent non-overlapping qualifying
descriptors, both contain the empty range on their common boundary, and
`FindResourceDescriptorByRange` returns the first of them. -/
theorem empty_range_on_boundary_counterexample :
    HobWalk memAdjacent 3 0x8000 = some [0x8000, 0x8030] ∧
    PairwiseNonOverlapping memAdjacent [0x8000, 0x8030] ∧
    ContainsRange (memAdjacent 0x8000) 0x1000 0x1000 ∧
    ContainsRange (memAdjacent 0x8030) 0x1000 0x1000 ∧
    FindResourceDescriptorByRange memAdjacent 3 0x8000 0x1000 0x1000 = some (some 0x8000) ∧
    ¬ (∀ a ∈ [0x8000, 0x8030], ∀ b ∈ [0x8000, 0x8030],
        ContainsRange (memAdjacent a) 0x1000 0x1000 →
        ContainsRange (memAdjacent b) 0x1000 0x1000 → a = b) := by
  decide

/-- C16, amended: on every list whose qualifying descriptors are pairwise
non-overlapping, for every range that is not empty (`Base < Top`) and for
every empty range (`Base = Top`) that does not sit at a point where one
qualifying descriptor of the list ends and another one starts, at most one
descriptor of the list contains the range, and `FindResourceDescriptorByRange`
returns that unique descriptor, or `NULL` when none contains it. -/
theorem FindResourceDescriptorByRange_unique (mem : Memory)
    (fuel HobList Base Top : Nat) (L : List Nat)
    (hL : HobWalk mem fuel HobList = some L)
    (hpair : PairwiseNonOverlapping mem L)
    (hne : Base < Top ∨ (Base = Top ∧
      ∀ a ∈ L, ∀ b ∈ L, a ≠ b → IsQualifyingMemoryDescriptor (mem a) →
        IsQualifyingMemoryDescriptor (mem b) →
        ¬ ((mem a).PhysicalStart + (mem a).ResourceLength = Base ∧
          (mem b).PhysicalStart = Base))) :
    (∀ a ∈ L, ∀ b ∈ L, ContainsRange (mem a) Base Top → ContainsRange (mem b) Base Top →
      a = b) ∧
    ∃ r, FindResourceDescriptorByRange mem fuel HobList Base Top = some r ∧
      (r = none ↔ ∀ a ∈ L, ¬ ContainsRange (mem a) Base Top) ∧
      (∀ d, r = some d → d ∈ L ∧ ContainsRange (mem d) Base Top ∧
        ∀ a ∈ L, ContainsRange (mem a) Base Top → a = d) := by
  have huniq : ∀ a ∈ L, ∀ b ∈ L, ContainsRange (mem a) Base Top →
      ContainsRange (mem b) Base Top → a = b := by
    intro a ha b hb ca cb
    by_contra hab
    refine containsRange_unique (mem a) (mem b) Base Top ?_
      (hpair a ha b hb hab ca.1 cb.1) ca cb
    rcases hne with h | ⟨h, hpoint⟩
    · exact Or.inl h
    · exact Or.inr ⟨h, hpoint a ha b hb hab ca.1 cb.1,
        hpoint b hb a ha (fun e => hab e.symm) cb.1 ca.1⟩
  refine ⟨huniq, ?_⟩
  obtain ⟨r, hr, hfirst⟩ := FindResourceDescriptorByRange_result mem fuel HobList Base Top L hL
  refine ⟨r, hr, ?_, ?_⟩
  · cases r with
    | none => exact ⟨fun _ => hfirst, fun _ => rfl⟩
    | some d =>
      constructor
      · intro h; cases h
      · intro h
        obtain ⟨hd, pre, post, hsplit, _⟩ := hfirst
        exact absurd hd (h d (mem_of_split hsplit))
  · intro d hd
    subst hd
    obtain ⟨hc, pre, post, hsplit, _⟩ := hfirst
    exact ⟨mem_of_split hsplit, hc, fun a ha ca => huniq a ha d (mem_of_split hsplit) ca hc⟩

/-- Witness of C16, amended: the empty range at `0x0`, the start of the first
descriptor, where no descriptor ends, lies in the first descriptor only. -/
theorem FindResourceDescriptorByRange_unique_witness :
    HobWalk memAdjacent 3 0x8000 = some [0x8000, 0x8030] ∧
    PairwiseNonOverlapping memAdjacent [0x8000, 0x8030] ∧
    (memAdjacent 0x8000).PhysicalStart = 0x0 ∧
    FindResourceDescriptorByRange memAdjacent 3 0x8000 0x0 0x0 = some (some 0x8000) ∧
    ((∀ a ∈ [0x8000, 0x8030], ∀ b ∈ [0x8000, 0x8030],
        ContainsRange (memAdjacent a) 0x0 0x0 →
        ContainsRange (memAdjacent b) 0x0 0x0 → a = b) ∧
      ∃ r, FindResourceDescriptorByRange memAdjacent 3 0x8000 0x0 0x0 = some r ∧
        (r = none ↔ ∀ a ∈ [0x8000, 0x8030], ¬ ContainsRange (memAdjacent a) 0x0 0x0) ∧
        (∀ d, r = some d → d ∈ [0x8000, 0x8030] ∧ ContainsRange (memAdjacent d) 0x0 0x0 ∧
          ∀ a ∈ [0x8000, 0x8030], ContainsRange (memAdjacent a) 0x0 0x0 → a = d)) :=
  ⟨by decide, by decide, by decide, by decide,
    FindResourceDescriptorByRange_unique memAdjacent 3 0x8000 0x0 0x0 _ (by decide)
      (by decide) (Or.inr ⟨rfl, by decide⟩)⟩

/-- The candidates of the search that excludes `w` are the candidates of the
search without exclusion other than `w`. -/
theorem isCandidate_excluding (mem : Memory) (m w c : Nat) :
    IsCandidate mem m (some w) c ↔ IsCandidate mem m none c ∧ c ≠ w := by
  unfold IsCandidate
  constructor
  · rintro ⟨hq, hne, hend, hlen⟩
    exact ⟨⟨hq, by simp, hend, hlen⟩, fun h => hne (by rw [h])⟩
  · rintro ⟨⟨hq, _, hend, hlen⟩, hne⟩
    exact ⟨hq, fun h => hne (Option.some.inj h), hend, hlen⟩

/-- C17: when `FindAnotherHighestBelow4GResourceDescriptor` without exclusion
returns a winner `w`, the search that excludes `w` returns; it returns `NULL`
exactly when `w` is the only candidate; and a descriptor `e` it returns is a
candidate other than `w`, with `PhysicalStart` at most that of `w` and at
least that of every candidate other than `w`. -/
theorem FindAnotherHighest_rerun_without_winner (mem : Memory) (fuel HobList m : Nat)
    (L : List Nat) (w : Nat) (hL : HobWalk mem fuel HobList = some L)
    (hw : FindAnotherHighestBelow4GResourceDescriptor mem fuel HobList m none
      = some (some w)) :
    ∃ r, FindAnotherHighestBelow4GResourceDescriptor mem fuel HobList m (some w) = some r ∧
      (r = none ↔ ∀ c ∈ L, IsCandidate mem m none c → c = w) ∧
      (∀ e, r = some e →
        e ≠ w ∧ e ∈ L ∧ IsCandidate mem m none e ∧
        (mem e).PhysicalStart ≤ (mem w).PhysicalStart ∧
        ∀ c ∈ L, IsCandidate mem m none c → c ≠ w →
          (mem c).PhysicalStart ≤ (mem e).PhysicalStart) := by
  obtain ⟨r0, hr0, hfirst0⟩ := FindAnotherHighest_walk mem m none fuel HobList L hL
  rw [hw] at hr0
  cases hr0
  obtain ⟨_, pre0, post0, hsplit0, hpre0, hpost0⟩ := hfirst0
  have hmax : ∀ c ∈ L, IsCandidate mem m none c →
      (mem c).PhysicalStart ≤ (mem w).PhysicalStart := by
    intro c hc hcc
    rw [hsplit0] at hc
    rcases List.mem_append.mp hc with h1 | h1
    · exact le_of_lt (hpre0 c h1 hcc)
    · rcases List.mem_cons.mp h1 with h2 | h2
      · rw [h2]
      · exact hpost0 c h2 hcc
  obtain ⟨r, hr, hfirst⟩ := FindAnotherHighest_walk mem m (some w) fuel HobList L hL
  refine ⟨r, hr, ?_, ?_⟩
  · cases r with
    | none =>
      refine ⟨fun _ c hc hcc => ?_, fun _ => rfl⟩
      by_contra hne
      exact hfirst c hc ((isCandidate_excluding mem m w c).mpr ⟨hcc, hne⟩)
    | some e =>
      constructor
      · intro h; cases h
      · intro h
        obtain ⟨hec, pre, post, hsplit, _, _⟩ := hfirst
        obtain ⟨hec0, hne⟩ := (isCandidate_excluding mem m w e).mp hec
        exact absurd (h e (mem_of_split hsplit) hec0) hne
  · intro e he
    subst he
    obtain ⟨hec, pre, post, hsplit, hpre, hpost⟩ := hfirst
    obtain ⟨hec0, hne⟩ := (isCandidate_excluding mem m w e).mp hec
    refine ⟨hne, mem_of_split hsplit, hec0, hmax e (mem_of_split hsplit) hec0, ?_⟩
    intro c hc hcc hcw
    have hcc2 := (isCandidate_excluding mem m w c).mpr ⟨hcc, hcw⟩
    rw [hsplit] at hc
    rcases List.mem_append.mp hc with h1 | h1
    · exact le_of_lt (hpre c h1 hcc2)
    · rcases List.mem_cons.mp h1 with h2 | h2
      · rw [h2]
      · exact hpost c h2 hcc2

/-- Witness of C17 on the list with three candidates: the winner is the record
at `0x1038`, and the search that excludes it returns the record at `0x1098`,
which starts at the same address. -/
theorem FindAnotherHighest_rerun_without_winner_witness :
    HobWalk memTie 5 0x1000 = some [0x1000, 0x1038, 0x1068, 0x1098] ∧
    FindAnotherHighestBelow4GResourceDescriptor memTie 5 0x1000 0x200 none
      = some (some 0x1038) ∧
    FindAnotherHighestBelow4GResourceDescriptor memTie 5 0x1000 0x200 (some 0x1038)
      = some (some 0x1098) ∧
    ∃ r, FindAnotherHighestBelow4GResourceDescriptor memTie 5 0x1000 0x200 (some 0x1038)
        = some r ∧
      (r = none ↔ ∀ c ∈ [0x1000, 0x1038, 0x1068, 0x1098],
        IsCandidate memTie 0x200 none c → c = 0x1038) ∧
      (∀ e, r = some e →
        e ≠ 0x1038 ∧ e ∈ [0x1000, 0x1038, 0x1068, 0x1098] ∧ IsCandidate memTie 0x200 none e ∧
        (memTie e).PhysicalStart ≤ (memTie 0x1038).PhysicalStart ∧
        ∀ c ∈ [0x1000, 0x1038, 0x1068, 0x1098], IsCandidate memTie 0x200 none c → c ≠ 0x1038 →
          (memTie c).PhysicalStart ≤ (memTie e).PhysicalStart) :=
  ⟨by decide, by decide, by decide,
    FindAnotherHighest_rerun_without_winner memTie 5 0x1000 0x200 _ 0x1038 (by decide)
      (by decide)⟩

/-! ## The new hand-off tuple: claims -/

/-- C18: on every list that satisfies the data-model invariants (the old
hand-off record is ordered, the end of no qualifying descriptor overflows)
`BuildHobs` returns, and when it returns `EFI_SUCCESS` the tuple it selects
has `MemoryBottom ≤ FreeMemoryBottom ≤ FreeMemoryTop ≤ MemoryTop`; the end of
the containing descriptor, the room above and the room below are computed
without wrapping; and the tuple is the exact one: the top placement
`(end - m, end, end - m, end)` on a descriptor with `m ≤ end < 2 ^ 64`, or
`(EfiFreeMemoryTop, EfiMemoryTop + m, EfiMemoryTop, EfiMemoryTop + m)` with
`EfiMemoryTop + m < 2 ^ 64`, or `(EfiMemoryBottom - m, EfiMemoryTop,
EfiMemoryBottom - m, EfiMemoryBottom)` with `m ≤ EfiMemoryBottom`. -/
theorem BuildHobs_new_handoff_ordered (mem : Memory)
    (fuel BootloaderParameter MinimalNeededSize : Nat) (L : List Nat)
    (hL : HobWalk mem fuel BootloaderParameter = some L)
    (hno : ∀ a ∈ L, IsQualifyingMemoryDescriptor (mem a) → NoOverflow (mem a))
    (hord : HandoffOrdered (mem BootloaderParameter)) :
    ∃ run, BuildHobs mem fuel BootloaderParameter MinimalNeededSize = some run ∧
      (run.Status = EFI_STATUS.EFI_SUCCESS →
        ∃ args, run.Constructed = some args ∧
          (args.EfiMemoryBottom ≤ args.EfiFreeMemoryBottom ∧
            args.EfiFreeMemoryBottom ≤ args.EfiFreeMemoryTop ∧
            args.EfiFreeMemoryTop ≤ args.EfiMemoryTop) ∧
          (∀ d, FindResourceDescriptorByRange mem fuel BootloaderParameter
              (mem BootloaderParameter).EfiMemoryBottom
              (mem BootloaderParameter).EfiMemoryTop = some (some d) →
            (mem d).PhysicalStart + (mem d).ResourceLength < 2 ^ 64 ∧
            (mem BootloaderParameter).EfiMemoryTop
              ≤ (mem d).PhysicalStart + (mem d).ResourceLength ∧
            (mem d).PhysicalStart ≤ (mem BootloaderParameter).EfiMemoryBottom) ∧
          ((∃ e ∈ L, (mem e).PhysicalStart + (mem e).ResourceLength < 2 ^ 64 ∧
              MinimalNeededSize ≤ (mem e).PhysicalStart + (mem e).ResourceLength ∧
              args =
                { EfiMemoryBottom :=
                    (mem e).PhysicalStart + (mem e).ResourceLength - MinimalNeededSize
                  EfiMemoryTop := (mem e).PhysicalStart + (mem e).ResourceLength
                  EfiFreeMemoryBottom :=
                    (mem e).PhysicalStart + (mem e).ResourceLength - MinimalNeededSize
                  EfiFreeMemoryTop := (mem e).PhysicalStart + (mem e).ResourceLength }) ∨
            ((mem BootloaderParameter).EfiMemoryTop + MinimalNeededSize < 2 ^ 64 ∧
              args =
                { EfiMemoryBottom := (mem BootloaderParameter).EfiFreeMemoryTop
                  EfiMemoryTop := (mem BootloaderParameter).EfiMemoryTop + MinimalNeededSize
                  EfiFreeMemoryBottom := (mem BootloaderParameter).EfiMemoryTop
                  EfiFreeMemoryTop :=
                    (mem BootloaderParameter).EfiMemoryTop + MinimalNeededSize }) ∨
            (MinimalNeededSize ≤ (mem BootloaderParameter).EfiMemoryBottom ∧
              args =
                { EfiMemoryBottom :=
                    (mem BootloaderParameter).EfiMemoryBottom - MinimalNeededSize
                  EfiMemoryTop := (mem BootloaderParameter).EfiMemoryTop
                  EfiFreeMemoryBottom :=
                    (mem BootloaderParameter).EfiMemoryBottom - MinimalNeededSize
                  EfiFreeMemoryTop := (mem BootloaderParameter).EfiMemoryBottom }))) := by
  obtain ⟨ho1, ho2, ho3⟩ := hord
  have hcont : ∀ d, FindResourceDescriptorByRange mem fuel BootloaderParameter
      (mem BootloaderParameter).EfiMemoryBottom (mem BootloaderParameter).EfiMemoryTop
        = some (some d) →
      (mem d).PhysicalStart + (mem d).ResourceLength < 2 ^ 64 ∧
      (mem BootloaderParameter).EfiMemoryTop
        ≤ (mem d).PhysicalStart + (mem d).ResourceLength ∧
      (mem d).PhysicalStart ≤ (mem BootloaderParameter).EfiMemoryBottom := by
    intro d hd
    obtain ⟨hdL, hq, hbase, htop⟩ := FindResourceDescriptorByRange_some mem fuel
      BootloaderParameter _ _ L d hL hd
    have hnd := hno d hdL hq
    rw [add64_of_lt hnd] at htop
    exact ⟨hnd, htop, hbase⟩
  have top : ∀ (ex : Option Nat) (e : Nat),
      FindAnotherHighestBelow4GResourceDescriptor mem fuel BootloaderParameter
        MinimalNeededSize ex = some (some e) →
      e ∈ L ∧ (mem e).PhysicalStart + (mem e).ResourceLength < 2 ^ 64 ∧
      MinimalNeededSize ≤ (mem e).PhysicalStart + (mem e).ResourceLength ∧
      add64 (mem e).PhysicalStart (mem e).ResourceLength
        = (mem e).PhysicalStart + (mem e).ResourceLength ∧
      sub64 (add64 (mem e).PhysicalStart (mem e).ResourceLength) MinimalNeededSize
        = (mem e).PhysicalStart + (mem e).ResourceLength - MinimalNeededSize := by
    intro ex e he
    obtain ⟨heL, hq, _, _, hlen⟩ := FindAnotherHighest_some mem fuel BootloaderParameter
      MinimalNeededSize ex L e hL he
    have hne := hno e heL hq
    obtain ⟨h1, h2, _, _⟩ := placement_at_top (mem e) MinimalNeededSize hne hlen
    exact ⟨heL, hne, by omega, h1, h2⟩
  rcases BuildHobs_cases mem fuel BootloaderParameter MinimalNeededSize L hL with
    ⟨h1, ⟨h2, hb⟩ | ⟨e, h2, hb⟩⟩ |
    ⟨d, h1, ⟨h2, hb⟩ | ⟨h2, h3, hb⟩ | ⟨h2, h3, ⟨h4, hb⟩ | ⟨e, h4, hb⟩⟩⟩
  · exact ⟨_, hb, fun h => by unfold BuildHobs.notFound at h; cases h⟩
  · obtain ⟨t1, t2, t3, t4, t5⟩ := top none e h2
    rw [t5, t4] at hb
    exact ⟨_, hb, fun _ => ⟨_, rfl, ⟨le_refl _, Nat.sub_le _ _, le_refl _⟩, hcont,
      Or.inl ⟨e, t1, t2, t3, rfl⟩⟩⟩
  · obtain ⟨c1, c2, c3⟩ := hcont d h1
    have hlt := add64_lt (mem d).PhysicalStart (mem d).ResourceLength
    rw [add64_of_lt c1, sub64_of_le c2 c1] at h2
    have hsum : add64 (mem BootloaderParameter).EfiMemoryTop MinimalNeededSize
        = (mem BootloaderParameter).EfiMemoryTop + MinimalNeededSize :=
      add64_of_lt (by omega)
    rw [hsum] at hb
    exact ⟨_, hb, fun _ => ⟨_, rfl, ⟨ho3, Nat.le_add_right _ _, le_refl _⟩, hcont,
      Or.inr (Or.inl ⟨by omega, rfl⟩)⟩⟩
  · obtain ⟨c1, c2, c3⟩ := hcont d h1
    have hty : (mem BootloaderParameter).EfiMemoryBottom < 2 ^ 64 := by omega
    rw [sub64_of_le c3 hty] at h3
    have hsub : sub64 (mem BootloaderParameter).EfiMemoryBottom MinimalNeededSize
        = (mem BootloaderParameter).EfiMemoryBottom - MinimalNeededSize :=
      sub64_of_le (by omega) hty
    rw [hsub] at hb
    exact ⟨_, hb, fun _ => ⟨_, rfl, ⟨le_refl _, Nat.sub_le _ _, by
      show (mem BootloaderParameter).EfiMemoryBottom ≤ (mem BootloaderParameter).EfiMemoryTop
      omega⟩, hcont, Or.inr (Or.inr ⟨by omega, rfl⟩)⟩⟩
  · exact ⟨_, hb, fun h => by unfold BuildHobs.notFound at h; cases h⟩
  · obtain ⟨t1, t2, t3, t4, t5⟩ := top (some d) e h4
    rw [t5, t4] at hb
    exact ⟨_, hb, fun _ => ⟨_, rfl, ⟨le_refl _, Nat.sub_le _ _, le_refl _⟩, hcont,
      Or.inl ⟨e, t1, t2, t3, rfl⟩⟩⟩

/-- Witness of C18 on the list with room below only: the tuple is
`(0xE00, 0x2000, 0xE00, 0x1000)`. -/
theorem BuildHobs_new_handoff_ordered_witness :
    HobWalk memBelow 3 0x1000 = some [0x1000, 0x1038] ∧
    HandoffOrdered (memBelow 0x1000) ∧
    BuildHobs memBelow 3 0x1000 0x200 =
      some (BuildHobs.success memBelow [0x1000, 0x1038] 0xE00 0x2000 0xE00 0x1000) ∧
    ∃ run, BuildHobs memBelow 3 0x1000 0x200 = some run ∧
      (run.Status = EFI_STATUS.EFI_SUCCESS →
        ∃ args, run.Constructed = some args ∧
          (args.EfiMemoryBottom ≤ args.EfiFreeMemoryBottom ∧
            args.EfiFreeMemoryBottom ≤ args.EfiFreeMemoryTop ∧
            args.EfiFreeMemoryTop ≤ args.EfiMemoryTop) ∧
          (∀ d, FindResourceDescriptorByRange memBelow 3 0x1000
              (memBelow 0x1000).EfiMemoryBottom
              (memBelow 0x1000).EfiMemoryTop = some (some d) →
            (memBelow d).PhysicalStart + (memBelow d).ResourceLength < 2 ^ 64 ∧
            (memBelow 0x1000).EfiMemoryTop
              ≤ (memBelow d).PhysicalStart + (memBelow d).ResourceLength ∧
            (memBelow d).PhysicalStart ≤ (memBelow 0x1000).EfiMemoryBottom) ∧
          ((∃ e ∈ [0x1000, 0x1038],
              (memBelow e).PhysicalStart + (memBelow e).ResourceLength < 2 ^ 64 ∧
              0x200 ≤ (memBelow e).PhysicalStart + (memBelow e).ResourceLength ∧
              args =
                { EfiMemoryBottom :=
                    (memBelow e).PhysicalStart + (memBelow e).ResourceLength - 0x200
                  EfiMemoryTop := (memBelow e).PhysicalStart + (memBelow e).ResourceLength
                  EfiFreeMemoryBottom :=
                    (memBelow e).PhysicalStart + (memBelow e).ResourceLength - 0x200
                  EfiFreeMemoryTop := (memBelow e).PhysicalStart + (memBelow e).ResourceLength }) ∨
            ((memBelow 0x1000).EfiMemoryTop + 0x200 < 2 ^ 64 ∧
              args =
                { EfiMemoryBottom := (memBelow 0x1000).EfiFreeMemoryTop
                  EfiMemoryTop := (memBelow 0x1000).EfiMemoryTop + 0x200
                  EfiFreeMemoryBottom := (memBelow 0x1000).EfiMemoryTop
                  EfiFreeMemoryTop := (memBelow 0x1000).EfiMemoryTop + 0x200 }) ∨
            (0x200 ≤ (memBelow 0x1000).EfiMemoryBottom ∧
              args =
                { EfiMemoryBottom := (memBelow 0x1000).EfiMemoryBottom - 0x200
                  EfiMemoryTop := (memBelow 0x1000).EfiMemoryTop
                  EfiFreeMemoryBottom := (memBelow 0x1000).EfiMemoryBottom - 0x200
                  EfiFreeMemoryTop := (memBelow 0x1000).EfiMemoryBottom }))) :=
  ⟨by decide, by decide, by decide,
    BuildHobs_new_handoff_ordered memBelow 3 0x1000 0x200 _ (by decide) (by decide)
      (by decide)⟩

/-! ## The old list and the new free region: claims -/

/-- When a qualifying descriptor contains the hand-off range (branches 2, 3
and 4), the free region that `BuildHobs` selects is disjoint from the old
footprint `[EfiMemoryBottom, EfiMemoryTop)`, on every list that satisfies the
data-model invariants and whose qualifying descriptors are pairwise
non-overlapping. -/
theorem BuildHobs_free_region_disjoint_of_contained (mem : Memory)
    (fuel BootloaderParameter MinimalNeededSize : Nat) (L : List Nat) (d : Nat)
    (hL : HobWalk mem fuel BootloaderParameter = some L)
    (hno : ∀ a ∈ L, IsQualifyingMemoryDescriptor (mem a) → NoOverflow (mem a))
    (hpair : PairwiseNonOverlapping mem L)
    (hd : FindResourceDescriptorByRange mem fuel BootloaderParameter
      (mem BootloaderParameter).EfiMemoryBottom (mem BootloaderParameter).EfiMemoryTop
        = some (some d)) :
    ∃ run, BuildHobs mem fuel BootloaderParameter MinimalNeededSize = some run ∧
      (run.Status = EFI_STATUS.EFI_SUCCESS →
        ∃ args, run.Constructed = some args ∧
          (args.EfiFreeMemoryTop ≤ (mem BootloaderParameter).EfiMemoryBottom ∨
            (mem BootloaderParameter).EfiMemoryTop ≤ args.EfiFreeMemoryBottom)) := by
  obtain ⟨hdL, hq, hbase, htop⟩ := FindResourceDescriptorByRange_some mem fuel
    BootloaderParameter _ _ L d hL hd
  have hnd := hno d hdL hq
  rw [add64_of_lt hnd] at htop
  unfold NoOverflow at hnd
  rcases BuildHobs_cases mem fuel BootloaderParameter MinimalNeededSize L hL with
    ⟨h1, _⟩ | ⟨d2, h1, ⟨h2, hb⟩ | ⟨h2, h3, hb⟩ | ⟨h2, h3, ⟨h4, hb⟩ | ⟨e, h4, hb⟩⟩⟩
  · rw [hd] at h1; cases h1
  · exact ⟨_, hb, fun _ => ⟨_, rfl, Or.inr (le_refl _)⟩⟩
  · exact ⟨_, hb, fun _ => ⟨_, rfl, Or.inl (le_refl _)⟩⟩
  · exact ⟨_, hb, fun h => by unfold BuildHobs.notFound at h; cases h⟩
  · rw [hd] at h1
    cases h1
    obtain ⟨heL, ⟨heq, hne, _, hlen⟩⟩ := FindAnotherHighest_some mem fuel BootloaderParameter
      MinimalNeededSize (some d) L e hL h4
    have hned : e ≠ d := fun h => hne (by rw [h])
    obtain ⟨p1, p2, p3, p4⟩ := placement_at_top (mem e) MinimalNeededSize (hno e heL heq) hlen
    rw [p2, p1] at hb
    refine ⟨_, hb, fun _ => ⟨_, rfl, ?_⟩⟩
    rcases hpair e heL d hdL hned heq hq with h | h
    · exact Or.inl (le_trans h hbase)
    · refine Or.inr ?_
      show (mem BootloaderParameter).EfiMemoryTop
        ≤ (mem e).PhysicalStart + (mem e).ResourceLength - MinimalNeededSize
      omega

/-- C19 fails in branch 1: on a list that satisfies the data-model invariants,
with a single qualifying descriptor `[0x100000, 0x110000)` and a footprint
`[0x10FE00, 0x110200)` that straddles its end, `BuildHobs` succeeds with the
free region `[0x10FE00, 0x110000)`, which is not disjoint from the footprint:
it starts at the base of the old list. -/
theorem BuildHobs_straddling_footprint_overlap :
    HobWalk memStraddle 3 0x10FE00 = some [0x10FE00, 0x10FE38] ∧
    HandoffOrdered (memStraddle 0x10FE00) ∧
    (∀ a ∈ [0x10FE00, 0x10FE38], IsQualifyingMemoryDescriptor (memStraddle a) →
      NoOverflow (memStraddle a)) ∧
    PairwiseNonOverlapping memStraddle [0x10FE00, 0x10FE38] ∧
    FindResourceDescriptorByRange memStraddle 3 0x10FE00 (memStraddle 0x10FE00).EfiMemoryBottom
      (memStraddle 0x10FE00).EfiMemoryTop = some none ∧
    BuildHobs memStraddle 3 0x10FE00 0x200 =
      some (BuildHobs.success memStraddle [0x10FE00, 0x10FE38]
        0x10FE00 0x110000 0x10FE00 0x110000) ∧
    ¬ ((0x110000 : Nat) ≤ (memStraddle 0x10FE00).EfiMemoryBottom ∨
        (memStraddle 0x10FE00).EfiMemoryTop ≤ (0x10FE00 : Nat)) ∧
    (memStraddle 0x10FE00).EfiMemoryBottom ≤ 0x10FE00 ∧
    (0x10FE00 : Nat) < (memStraddle 0x10FE00).EfiMemoryTop := by
  decide

/-! ## Attribute bits: claims -/

/-- Setting bits outside the mask does not change the masked value. -/
theorem land_mask_lor (a x M : Nat) (hx : x &&& M = 0) : (a ||| x) &&& M = a &&& M := by
  apply Nat.eq_of_testBit_eq
  intro i
  have h := congrArg (fun n => Nat.testBit n i) hx
  simp only [Nat.testBit_land, Nat.zero_testBit] at h
  simp only [Nat.testBit_land, Nat.testBit_lor]
  revert h
  cases a.testBit i <;> cases x.testBit i <;> cases M.testBit i <;> simp

/-- Clearing bits outside the mask does not change the masked value. -/
theorem land_mask_clearBits (a x M : Nat) (hx : x &&& M = 0) :
    clearBits a x &&& M = a &&& M := by
  apply Nat.eq_of_testBit_eq
  intro i
  have h := congrArg (fun n => Nat.testBit n i) hx
  simp only [Nat.testBit_land, Nat.zero_testBit] at h
  unfold clearBits
  simp only [Nat.testBit_land, Nat.testBit_xor]
  revert h
  cases a.testBit i <;> cases x.testBit i <;> cases M.testBit i <;> simp

/-- A change of unrelated attribute bits keeps every field the finders read
and the masked attribute. -/
theorem unrelatedBitsChanged_fields (mem mem2 : Memory) (h : UnrelatedBitsChanged mem mem2)
    (a : Nat) :
    (mem2 a).HobType = (mem a).HobType ∧ (mem2 a).HobLength = (mem a).HobLength ∧
    (mem2 a).ResourceType = (mem a).ResourceType ∧
    (mem2 a).PhysicalStart = (mem a).PhysicalStart ∧
    (mem2 a).ResourceLength = (mem a).ResourceLength ∧
    (mem2 a).ResourceAttribute &&& MEMORY_ATTRIBUTE_MASK
      = (mem a).ResourceAttribute &&& MEMORY_ATTRIBUTE_MASK := by
  obtain ⟨x, hx, h1 | h1⟩ := h a
  · rw [h1]
    exact ⟨rfl, rfl, rfl, rfl, rfl, land_mask_lor _ _ _ hx⟩
  · rw [h1]
    exact ⟨rfl, rfl, rfl, rfl, rfl, land_mask_clearBits _ _ _ hx⟩

/-- A change of unrelated attribute bits does not change which records are
qualifying descriptors that contain a range, nor the candidates. -/
theorem unrelatedBitsChanged_predicates (mem mem2 : Memory)
    (h : UnrelatedBitsChanged mem mem2) (a : Nat) :
    (IsQualifyingMemoryDescriptor (mem2 a) ↔ IsQualifyingMemoryDescriptor (mem a)) ∧
    (∀ Base Top, ContainsRange (mem2 a) Base Top ↔ ContainsRange (mem a) Base Top) ∧
    (∀ m ex, IsCandidate mem2 m ex a ↔ IsCandidate mem m ex a) := by
  obtain ⟨f1, _, f3, f4, f5, f6⟩ := unrelatedBitsChanged_fields mem mem2 h a
  have hq : IsQualifyingMemoryDescriptor (mem2 a) ↔ IsQualifyingMemoryDescriptor (mem a) := by
    unfold IsQualifyingMemoryDescriptor
    rw [f1, f3, f6]
  refine ⟨hq, ?_, ?_⟩
  · intro Base Top
    unfold ContainsRange
    rw [hq, f4, f5]
  · intro m ex
    unfold IsCandidate
    rw [hq, f4, f5]

/-- A change of unrelated attribute bits does not change the result of
`FindResourceDescriptorByRange`. -/
theorem FindResourceDescriptorByRange_unrelated_bits (mem mem2 : Memory)
    (h : UnrelatedBitsChanged mem mem2) (Base Top : Nat) :
    ∀ (fuel HobList : Nat),
      FindResourceDescriptorByRange mem2 fuel HobList Base Top =
        FindResourceDescriptorByRange mem fuel HobList Base Top := by
  intro fuel
  induction fuel with
  | zero => intro HobList; rfl
  | succ n ih =>
    intro HobList
    obtain ⟨f1, f2, _⟩ := unrelatedBitsChanged_fields mem mem2 h HobList
    obtain ⟨_, hc, _⟩ := unrelatedBitsChanged_predicates mem mem2 h HobList
    have hend : END_OF_HOB_LIST mem2 HobList = END_OF_HOB_LIST mem HobList := by
      unfold END_OF_HOB_LIST GET_HOB_TYPE; rw [f1]
    have hnext : GET_NEXT_HOB mem2 HobList = GET_NEXT_HOB mem HobList := by
      unfold GET_NEXT_HOB GET_HOB_LENGTH; rw [f2]
    rw [FindResourceDescriptorByRange_step, FindResourceDescriptorByRange_step, hend, hnext, ih]
    by_cases hcr : ContainsRange (mem HobList) Base Top
    · rw [if_pos hcr, if_pos ((hc Base Top).mpr hcr)]
    · rw [if_neg hcr, if_neg (fun h2 => hcr ((hc Base Top).mp h2))]

/-- A change of unrelated attribute bits does not change the result of the
loop of `FindAnotherHighestBelow4GResourceDescriptor`. -/
theorem FindAnotherHighest_loop_unrelated_bits (mem mem2 : Memory)
    (h : UnrelatedBitsChanged mem mem2) (m : Nat) (ex : Option Nat) :
    ∀ (fuel Hob : Nat) (acc : Option Nat),
      FindAnotherHighestBelow4GResourceDescriptor.loop mem2 m ex fuel Hob acc =
        FindAnotherHighestBelow4GResourceDescriptor.loop mem m ex fuel Hob acc := by
  intro fuel
  induction fuel with
  | zero => intro Hob acc; rfl
  | succ n ih =>
    intro Hob acc
    obtain ⟨f1, f2, _, f4, _⟩ := unrelatedBitsChanged_fields mem mem2 h Hob
    obtain ⟨_, _, hc⟩ := unrelatedBitsChanged_predicates mem mem2 h Hob
    have hend : END_OF_HOB_LIST mem2 Hob = END_OF_HOB_LIST mem Hob := by
      unfold END_OF_HOB_LIST GET_HOB_TYPE; rw [f1]
    have hnext : GET_NEXT_HOB mem2 Hob = GET_NEXT_HOB mem Hob := by
      unfold GET_NEXT_HOB GET_HOB_LENGTH; rw [f2]
    have hpick : pickHigher mem2 acc Hob = pickHigher mem acc Hob := by
      cases acc with
      | none => rfl
      | some Ret =>
        unfold pickHigher
        dsimp only
        rw [f4, (unrelatedBitsChanged_fields mem mem2 h Ret).2.2.2.1]
    have hstep : highestStep mem2 m ex acc Hob = highestStep mem m ex acc Hob := by
      unfold highestStep
      by_cases hcr : IsCandidate mem m ex Hob
      · rw [if_pos hcr, if_pos ((hc m ex).mpr hcr), hpick]
      · rw [if_neg hcr, if_neg (fun h2 => hcr ((hc m ex).mp h2))]
    rw [FindAnotherHighest_loop_step, FindAnotherHighest_loop_step, hend, hnext, hstep, ih]

/-- A masked bit outside the tested value, once set, makes the masked attribute
differ from `TESTED_MEMORY_ATTRIBUTES`. -/
theorem masked_bit_set_ne_tested (attr i : Nat)
    (hmask : MEMORY_ATTRIBUTE_MASK.testBit i = true)
    (htested : TESTED_MEMORY_ATTRIBUTES.testBit i = false) :
    (attr ||| 2 ^ i) &&& MEMORY_ATTRIBUTE_MASK ≠ TESTED_MEMORY_ATTRIBUTES := by
  intro h
  have hbit := congrArg (fun n => Nat.testBit n i) h
  simp only [Nat.testBit_land, Nat.testBit_lor, Nat.testBit_two_pow_self, Bool.or_true,
    hmask, Bool.and_self, htested] at hbit
  cases hbit

/-- C20: for every record and every value `x` without a bit in
`MEMORY_ATTRIBUTE_MASK`, replacing the `ResourceAttribute` `a` by `a | x`, or by
`a` with the bits of `x` cleared, does not change whether the record is a
qualifying descriptor; a memory in which records are changed in this way gives
the same result of both finders, on every list; and setting a bit of the mask
that is not Present, Initialized or Tested (such as WriteProtected or
Persistent) makes a record non-qualifying. -/
theorem unrelated_attribute_bits_ignored :
    (∀ (h : HobView) (x : Nat), x &&& MEMORY_ATTRIBUTE_MASK = 0 →
      (IsQualifyingMemoryDescriptor (withAttribute h (h.ResourceAttribute ||| x)) ↔
        IsQualifyingMemoryDescriptor h) ∧
      (IsQualifyingMemoryDescriptor (withAttribute h (clearBits h.ResourceAttribute x)) ↔
        IsQualifyingMemoryDescriptor h)) ∧
    (∀ (mem mem2 : Memory), UnrelatedBitsChanged mem mem2 →
      ∀ (fuel HobList Base Top m : Nat) (ex : Option Nat),
        FindResourceDescriptorByRange mem2 fuel HobList Base Top =
          FindResourceDescriptorByRange mem fuel HobList Base Top ∧
        FindAnotherHighestBelow4GResourceDescriptor mem2 fuel HobList m ex =
          FindAnotherHighestBelow4GResourceDescriptor mem fuel HobList m ex) ∧
    (∀ (h : HobView) (i : Nat), MEMORY_ATTRIBUTE_MASK.testBit i = true →
      TESTED_MEMORY_ATTRIBUTES.testBit i = false →
      ¬ IsQualifyingMemoryDescriptor (withAttribute h (h.ResourceAttribute ||| 2 ^ i))) ∧
    (∀ (h : HobView),
      ¬ IsQualifyingMemoryDescriptor
        (withAttribute h (h.ResourceAttribute ||| EFI_RESOURCE_ATTRIBUTE_WRITE_PROTECTED)) ∧
      ¬ IsQualifyingMemoryDescriptor
        (withAttribute h (h.ResourceAttribute ||| EFI_RESOURCE_ATTRIBUTE_PERSISTENT))) := by
  refine ⟨?_, ?_, ?_, ?_⟩
  · intro h x hx
    unfold IsQualifyingMemoryDescriptor withAttribute
    dsimp only
    rw [land_mask_lor _ _ _ hx, land_mask_clearBits _ _ _ hx]
    exact ⟨Iff.rfl, Iff.rfl⟩
  · intro mem mem2 h fuel HobList Base Top m ex
    refine ⟨FindResourceDescriptorByRange_unrelated_bits mem mem2 h Base Top fuel HobList, ?_⟩
    unfold FindAnotherHighestBelow4GResourceDescriptor
    exact FindAnotherHighest_loop_unrelated_bits mem mem2 h m ex fuel HobList none
  · intro h i hmask htested hq
    exact masked_bit_set_ne_tested h.ResourceAttribute i hmask htested hq.2.2
  · intro h
    constructor
    · intro hq
      exact masked_bit_set_ne_tested h.ResourceAttribute 8 (by decide) (by decide) hq.2.2
    · intro hq
      exact masked_bit_set_ne_tested h.ResourceAttribute 23 (by decide) (by decide) hq.2.2

/-- Witness of C20: with the bits `0x8` and `0x2000000` set in every record of
the list with three candidates, both finders return what they return on the
list itself, and the descriptor at `0x1038` is non-qualifying once its
WriteProtected bit is set. -/
theorem unrelated_attribute_bits_ignored_witness :
    (0x2000008 : Nat) &&& MEMORY_ATTRIBUTE_MASK = 0 ∧
    IsQualifyingMemoryDescriptor (memTieExtraBits 0x1038) ∧
    FindResourceDescriptorByRange memTieExtraBits 5 0x1000 0x80000 0x81000 =
      FindResourceDescriptorByRange memTie 5 0x1000 0x80000 0x81000 ∧
    FindAnotherHighestBelow4GResourceDescriptor memTieExtraBits 5 0x1000 0x200 none =
      FindAnotherHighestBelow4GResourceDescriptor memTie 5 0x1000 0x200 none ∧
    FindAnotherHighestBelow4GResourceDescriptor memTie 5 0x1000 0x200 none
      = some (some 0x1038) ∧
    ¬ IsQualifyingMemoryDescriptor
      (withAttribute (memTie 0x1038)
        ((memTie 0x1038).ResourceAttribute ||| EFI_RESOURCE_ATTRIBUTE_WRITE_PROTECTED)) :=
  have hchanged : UnrelatedBitsChanged memTie memTieExtraBits :=
    fun _ => ⟨0x2000008, by decide, Or.inl rfl⟩
  have hfinders := unrelated_attribute_bits_ignored.2.1 memTie memTieExtraBits hchanged
    5 0x1000 0x80000 0x81000 0x200 none
  ⟨by decide,
    (unrelated_attribute_bits_ignored.1 (memTie 0x1038) 0x2000008 (by decide)).1.mpr (by decide),
    hfinders.1, hfinders.2, by decide,
    (unrelated_attribute_bits_ignored.2.2.2 (memTie 0x1038)).1⟩

/-! ## The size of the new regions: claims -/

/-- C22: on every list that satisfies the data-model invariants `BuildHobs`
returns, and in every branch in which it returns `EFI_SUCCESS` the new free
region is exactly the minimal size long (`FreeMemoryTop - FreeMemoryBottom =
MinimalNeededSize`, with `FreeMemoryBottom ≤ FreeMemoryTop`); the whole region
is at least that long; and it is longer only in branch 2, where it starts
inside the old footprint, at the old `EfiFreeMemoryTop`, and ends the minimal
size above the old `EfiMemoryTop`, and in branch 3, where it starts the minimal
size below the old `EfiMemoryBottom` and spans the whole old footprint. -/
theorem BuildHobs_free_region_size (mem : Memory)
    (fuel BootloaderParameter MinimalNeededSize : Nat) (L : List Nat)
    (hL : HobWalk mem fuel BootloaderParameter = some L)
    (hno : ∀ a ∈ L, IsQualifyingMemoryDescriptor (mem a) → NoOverflow (mem a))
    (hord : HandoffOrdered (mem BootloaderParameter)) :
    ∃ run, BuildHobs mem fuel BootloaderParameter MinimalNeededSize = some run ∧
      (run.Status = EFI_STATUS.EFI_SUCCESS →
        ∃ args, run.Constructed = some args ∧
          args.EfiFreeMemoryBottom ≤ args.EfiFreeMemoryTop ∧
          args.EfiFreeMemoryTop - args.EfiFreeMemoryBottom = MinimalNeededSize ∧
          args.EfiMemoryBottom ≤ args.EfiMemoryTop ∧
          MinimalNeededSize ≤ args.EfiMemoryTop - args.EfiMemoryBottom ∧
          (MinimalNeededSize < args.EfiMemoryTop - args.EfiMemoryBottom →
            ∃ d, FindResourceDescriptorByRange mem fuel BootloaderParameter
                (mem BootloaderParameter).EfiMemoryBottom
                (mem BootloaderParameter).EfiMemoryTop = some (some d) ∧
              ((sub64 (add64 (mem d).PhysicalStart (mem d).ResourceLength)
                    (mem BootloaderParameter).EfiMemoryTop ≥ MinimalNeededSize ∧
                  args.EfiMemoryBottom = (mem BootloaderParameter).EfiFreeMemoryTop ∧
                  args.EfiMemoryTop
                    = (mem BootloaderParameter).EfiMemoryTop + MinimalNeededSize ∧
                  (mem BootloaderParameter).EfiMemoryBottom ≤ args.EfiMemoryBottom ∧
                  args.EfiMemoryBottom < (mem BootloaderParameter).EfiMemoryTop) ∨
                (sub64 (add64 (mem d).PhysicalStart (mem d).ResourceLength)
                    (mem BootloaderParameter).EfiMemoryTop < MinimalNeededSize ∧
                  sub64 (mem BootloaderParameter).EfiMemoryBottom (mem d).PhysicalStart
                    ≥ MinimalNeededSize ∧
                  args.EfiMemoryBottom
                    = (mem BootloaderParameter).EfiMemoryBottom - MinimalNeededSize ∧
                  args.EfiMemoryTop = (mem BootloaderParameter).EfiMemoryTop ∧
                  MinimalNeededSize ≤ (mem BootloaderParameter).EfiMemoryBottom ∧
                  (mem BootloaderParameter).EfiMemoryBottom
                    < (mem BootloaderParameter).EfiMemoryTop)))) := by
  obtain ⟨ho1, ho2, ho3⟩ := hord
  have top : ∀ (ex : Option Nat) (e : Nat),
      FindAnotherHighestBelow4GResourceDescriptor mem fuel BootloaderParameter
        MinimalNeededSize ex = some (some e) →
      MinimalNeededSize ≤ (mem e).PhysicalStart + (mem e).ResourceLength ∧
      add64 (mem e).PhysicalStart (mem e).ResourceLength
        = (mem e).PhysicalStart + (mem e).ResourceLength ∧
      sub64 (add64 (mem e).PhysicalStart (mem e).ResourceLength) MinimalNeededSize
        = (mem e).PhysicalStart + (mem e).ResourceLength - MinimalNeededSize := by
    intro ex e he
    obtain ⟨heL, hq, _, _, hlen⟩ := FindAnotherHighest_some mem fuel BootloaderParameter
      MinimalNeededSize ex L e hL he
    obtain ⟨h1, h2, _, _⟩ := placement_at_top (mem e) MinimalNeededSize (hno e heL hq) hlen
    exact ⟨by omega, h1, h2⟩
  rcases BuildHobs_cases mem fuel BootloaderParameter MinimalNeededSize L hL with
    ⟨h1, ⟨h2, hb⟩ | ⟨e, h2, hb⟩⟩ |
    ⟨d, h1, ⟨h2, hb⟩ | ⟨h2, h3, hb⟩ | ⟨h2, h3, ⟨h4, hb⟩ | ⟨e, h4, hb⟩⟩⟩
  · exact ⟨_, hb, fun h => by unfold BuildHobs.notFound at h; cases h⟩
  · obtain ⟨t3, t4, t5⟩ := top none e h2
    rw [t5, t4] at hb
    refine ⟨_, hb, fun _ => ⟨_, rfl, ?_, ?_, ?_, ?_, ?_⟩⟩
    · dsimp only; omega
    · dsimp only; omega
    · dsimp only; omega
    · dsimp only; omega
    · dsimp only; intro h; omega
  · obtain ⟨hdL, hq, hbase, htop⟩ := FindResourceDescriptorByRange_some mem fuel
      BootloaderParameter _ _ L d hL h1
    have hlt := add64_lt (mem d).PhysicalStart (mem d).ResourceLength
    have h2' := h2
    rw [sub64_of_le htop hlt] at h2'
    have hsum : add64 (mem BootloaderParameter).EfiMemoryTop MinimalNeededSize
        = (mem BootloaderParameter).EfiMemoryTop + MinimalNeededSize :=
      add64_of_lt (by omega)
    rw [hsum] at hb
    refine ⟨_, hb, fun _ => ⟨_, rfl, ?_, ?_, ?_, ?_, ?_⟩⟩
    · dsimp only; omega
    · dsimp only; omega
    · dsimp only; omega
    · dsimp only; omega
    · dsimp only
      intro h
      exact ⟨d, h1, Or.inl ⟨h2, rfl, rfl, by omega, by omega⟩⟩
  · obtain ⟨hdL, hq, hbase, htop⟩ := FindResourceDescriptorByRange_some mem fuel
      BootloaderParameter _ _ L d hL h1
    have hlt := add64_lt (mem d).PhysicalStart (mem d).ResourceLength
    have hty : (mem BootloaderParameter).EfiMemoryBottom < 2 ^ 64 := by omega
    have h3' := h3
    rw [sub64_of_le hbase hty] at h3'
    have hsub : sub64 (mem BootloaderParameter).EfiMemoryBottom MinimalNeededSize
        = (mem BootloaderParameter).EfiMemoryBottom - MinimalNeededSize :=
      sub64_of_le (by omega) hty
    rw [hsub] at hb
    refine ⟨_, hb, fun _ => ⟨_, rfl, ?_, ?_, ?_, ?_, ?_⟩⟩
    · dsimp only; omega
    · dsimp only; omega
    · dsimp only; omega
    · dsimp only; omega
    · dsimp only
      intro h
      exact ⟨d, h1, Or.inr ⟨h2, h3, rfl, rfl, by omega, by omega⟩⟩
  · exact ⟨_, hb, fun h => by unfold BuildHobs.notFound at h; cases h⟩
  · obtain ⟨t3, t4, t5⟩ := top (some d) e h4
    rw [t5, t4] at hb
    refine ⟨_, hb, fun _ => ⟨_, rfl, ?_, ?_, ?_, ?_, ?_⟩⟩
    · dsimp only; omega
    · dsimp only; omega
    · dsimp only; omega
    · dsimp only; omega
    · dsimp only; intro h; omega

/-- Witness of C22 on the list with room below only: the free region
`[0xE00, 0x1000)` is `0x200` long and the whole region `[0xE00, 0x2000)` spans
the old footprint `[0x1000, 0x2000)`. -/
theorem BuildHobs_free_region_size_witness :
    HobWalk memBelow 3 0x1000 = some [0x1000, 0x1038] ∧
    HandoffOrdered (memBelow 0x1000) ∧
    BuildHobs memBelow 3 0x1000 0x200 =
      some (BuildHobs.success memBelow [0x1000, 0x1038] 0xE00 0x2000 0xE00 0x1000) ∧
    ∃ run, BuildHobs memBelow 3 0x1000 0x200 = some run ∧
      (run.Status = EFI_STATUS.EFI_SUCCESS →
        ∃ args, run.Constructed = some args ∧
          args.EfiFreeMemoryBottom ≤ args.EfiFreeMemoryTop ∧
          args.EfiFreeMemoryTop - args.EfiFreeMemoryBottom = 0x200 ∧
          args.EfiMemoryBottom ≤ args.EfiMemoryTop ∧
          0x200 ≤ args.EfiMemoryTop - args.EfiMemoryBottom ∧
          (0x200 < args.EfiMemoryTop - args.EfiMemoryBottom →
            ∃ d, FindResourceDescriptorByRange memBelow 3 0x1000
                (memBelow 0x1000).EfiMemoryBottom
                (memBelow 0x1000).EfiMemoryTop = some (some d) ∧
              ((sub64 (add64 (memBelow d).PhysicalStart (memBelow d).ResourceLength)
                    (memBelow 0x1000).EfiMemoryTop ≥ 0x200 ∧
                  args.EfiMemoryBottom = (memBelow 0x1000).EfiFreeMemoryTop ∧
                  args.EfiMemoryTop = (memBelow 0x1000).EfiMemoryTop + 0x200 ∧
                  (memBelow 0x1000).EfiMemoryBottom ≤ args.EfiMemoryBottom ∧
                  args.EfiMemoryBottom < (memBelow 0x1000).EfiMemoryTop) ∨
                (sub64 (add64 (memBelow d).PhysicalStart (memBelow d).ResourceLength)
                    (memBelow 0x1000).EfiMemoryTop < 0x200 ∧
                  sub64 (memBelow 0x1000).EfiMemoryBottom (memBelow d).PhysicalStart
                    ≥ 0x200 ∧
                  args.EfiMemoryBottom = (memBelow 0x1000).EfiMemoryBottom - 0x200 ∧
                  args.EfiMemoryTop = (memBelow 0x1000).EfiMemoryTop ∧
                  0x200 ≤ (memBelow 0x1000).EfiMemoryBottom ∧
                  (memBelow 0x1000).EfiMemoryBottom < (memBelow 0x1000).EfiMemoryTop)))) :=
  ⟨by decide, by decide, by decide,
    BuildHobs_free_region_size memBelow 3 0x1000 0x200 [0x1000, 0x1038] (by decide)
      (by decide) (by decide)⟩

/-! ## The record walk: claims -/

/-- The result of a loop does not depend on the record that is examined
first. -/
theorem examinedFirst_fst {α : Type} (Hob : Nat) (rest : Option (α × List Nat)) :
    (examinedFirst Hob rest).map Prod.fst = rest.map Prod.fst := by
  cases rest <;> rfl

/-- One turn of the loop of `FindResourceDescriptorByRange`, with the records
examined. -/
theorem FindResourceDescriptorByRange_traced_step (mem : Memory)
    (fuel Hob Base Top : Nat) :
    FindResourceDescriptorByRange.traced mem (fuel + 1) Hob Base Top =
      if END_OF_HOB_LIST mem Hob then some (none, [])
      else if ContainsRange (mem Hob) Base Top then some (some Hob, [Hob])
      else examinedFirst Hob
        (FindResourceDescriptorByRange.traced mem fuel (GET_NEXT_HOB mem Hob) Base Top) := by
  rw [FindResourceDescriptorByRange.traced]
  unfold ContainsRange IsQualifyingMemoryDescriptor GET_HOB_TYPE
  split_ifs <;> first | rfl | omega

/-- The result that the traced `FindResourceDescriptorByRange` returns is the
result of `FindResourceDescriptorByRange`, and the two return for the same
fuel. -/
theorem FindResourceDescriptorByRange_traced_fst (mem : Memory) (Base Top : Nat) :
    ∀ (fuel Hob : Nat),
      (FindResourceDescriptorByRange.traced mem fuel Hob Base Top).map Prod.fst =
        FindResourceDescriptorByRange mem fuel Hob Base Top := by
  intro fuel
  induction fuel with
  | zero => intro Hob; rfl
  | succ n ih =>
    intro Hob
    rw [FindResourceDescriptorByRange_traced_step, FindResourceDescriptorByRange_step]
    by_cases hend : END_OF_HOB_LIST mem Hob = true
    · rw [if_pos hend, if_pos hend]; rfl
    · rw [if_neg hend, if_neg hend]
      by_cases hc : ContainsRange (mem Hob) Base Top
      · rw [if_pos hc, if_pos hc]; rfl
      · rw [if_neg hc, if_neg hc, examinedFirst_fst, ih]

/-- One turn of the traced loop of
`FindAnotherHighestBelow4GResourceDescriptor`. -/
theorem FindAnotherHighest_tracedLoop_step (mem : Memory) (m : Nat) (ex : Option Nat)
    (fuel Hob : Nat) (acc : Option Nat) :
    FindAnotherHighestBelow4GResourceDescriptor.tracedLoop mem m ex (fuel + 1) Hob acc =
      if END_OF_HOB_LIST mem Hob then some (acc, [])
      else examinedFirst Hob
        (FindAnotherHighestBelow4GResourceDescriptor.tracedLoop mem m ex fuel
          (GET_NEXT_HOB mem Hob) (highestStep mem m ex acc Hob)) := by
  conv_lhs => unfold FindAnotherHighestBelow4GResourceDescriptor.tracedLoop
  by_cases hend : END_OF_HOB_LIST mem Hob = true
  · rw [if_pos hend, if_pos hend]
  · rw [if_neg hend, if_neg hend]
    unfold highestStep
    by_cases hc : IsCandidate mem m ex Hob
    · rw [if_pos hc]
      obtain ⟨⟨h1, h2, h3⟩, h4, h5, h6⟩ := hc
      rw [if_neg (show ¬ GET_HOB_TYPE mem Hob ≠ EFI_HOB_TYPE_RESOURCE_DESCRIPTOR from
          not_not.mpr h1), if_neg (not_not.mpr h2), if_neg (not_not.mpr h3),
        if_neg h4, if_neg (Nat.not_lt.mpr h5), if_neg (Nat.not_lt.mpr h6)]
      cases acc with
      | none => rfl
      | some Ret =>
        dsimp only [pickHigher]
        split_ifs <;> rfl
    · rw [if_neg hc]
      by_cases h1 : GET_HOB_TYPE mem Hob ≠ EFI_HOB_TYPE_RESOURCE_DESCRIPTOR
      · rw [if_pos h1]
      rw [if_neg h1]
      by_cases h2 : (mem Hob).ResourceType ≠ EFI_RESOURCE_SYSTEM_MEMORY
      · rw [if_pos h2]
      rw [if_neg h2]
      by_cases h3 : (mem Hob).ResourceAttribute &&& MEMORY_ATTRIBUTE_MASK
          ≠ TESTED_MEMORY_ATTRIBUTES
      · rw [if_pos h3]
      rw [if_neg h3]
      by_cases h4 : some Hob = ex
      · rw [if_pos h4]
      rw [if_neg h4]
      by_cases h5 : add64 (mem Hob).PhysicalStart (mem Hob).ResourceLength > BASE_4GB
      · rw [if_pos h5]
      rw [if_neg h5]
      by_cases h6 : (mem Hob).ResourceLength < m
      · rw [if_pos h6]
      exact absurd ⟨⟨not_not.mp h1, not_not.mp h2, not_not.mp h3⟩, h4,
        Nat.not_lt.mp h5, Nat.not_lt.mp h6⟩ hc

/-- The result that the traced loop returns is the result of the loop of
`FindAnotherHighestBelow4GResourceDescriptor`, and the two return for the same
fuel. -/
theorem FindAnotherHighest_tracedLoop_fst (mem : Memory) (m : Nat) (ex : Option Nat) :
    ∀ (fuel Hob : Nat) (acc : Option Nat),
      (FindAnotherHighestBelow4GResourceDescriptor.tracedLoop mem m ex fuel Hob acc).map
          Prod.fst =
        FindAnotherHighestBelow4GResourceDescriptor.loop mem m ex fuel Hob acc := by
  intro fuel
  induction fuel with
  | zero => intro Hob acc; rfl
  | succ n ih =>
    intro Hob acc
    rw [FindAnotherHighest_tracedLoop_step, FindAnotherHighest_loop_step]
    by_cases hend : END_OF_HOB_LIST mem Hob = true
    · rw [if_pos hend, if_pos hend]; rfl
    · rw [if_neg hend, if_neg hend, examinedFirst_fst, ih]

/-- A read depends on the bytes it reads only. -/
theorem readLE_congr (b1 b2 : Bytes) :
    ∀ (n a : Nat), (∀ x, a ≤ x → x < a + n → b1 x = b2 x) →
      readLE b1 n a = readLE b2 n a := by
  intro n
  induction n with
  | zero => intro a _; rfl
  | succ n ih =>
    intro a h
    simp only [readLE]
    rw [h a (le_refl _) (by omega), ih (a + 1) (fun x h1 h2 => h x (by omega) (by omega))]

/-- A read of `n` bytes is below `256 ^ n`. -/
theorem readLE_lt (b : Bytes) : ∀ (n a : Nat), readLE b n a < 256 ^ n := by
  intro n
  induction n with
  | zero => intro a; simp [readLE]
  | succ n ih =>
    intro a
    simp only [readLE]
    have h1 := ih (a + 1)
    have h2 : b a % 256 < 256 := Nat.mod_lt _ (by norm_num)
    rw [pow_succ]
    omega

/-- A read of bytes that are the little-endian digits of `v`. -/
theorem readLE_of_bytes (b : Bytes) :
    ∀ (n a v : Nat), (∀ i, i < n → b (a + i) % 256 = v / 256 ^ i % 256) →
      readLE b n a = v % 256 ^ n := by
  intro n
  induction n with
  | zero => intro a v _; simp [readLE, Nat.mod_one]
  | succ n ih =>
    intro a v h
    simp only [readLE]
    have h0 := h 0 (by omega)
    simp only [Nat.add_zero, pow_zero, Nat.div_one] at h0
    have hrec : readLE b n (a + 1) = v / 256 % 256 ^ n := by
      apply ih
      intro i hi
      have hi1 := h (i + 1) (by omega)
      rw [Nat.div_div_eq_div_mul, ← pow_succ', ← hi1]
      congr 2
      omega
    rw [h0, hrec, pow_succ', Nat.mod_mul]

/-- A store leaves the bytes outside its range. -/
theorem writeLE_outside (b : Bytes) (a n v x : Nat) (h : x < a ∨ a + n ≤ x) :
    writeLE b a n v x = b x := by
  unfold writeLE
  rw [if_neg (by omega)]

/-- A read of what has just been stored. -/
theorem readLE_writeLE_same (b : Bytes) (a n v : Nat) :
    readLE (writeLE b a n v) n a = v % 256 ^ n := by
  apply readLE_of_bytes
  intro i hi
  unfold writeLE
  rw [if_pos (by omega), Nat.add_sub_cancel_left, Nat.mod_mod]

/-- A read outside the range of a store. -/
theorem readLE_writeLE_disjoint (b : Bytes) (a n v a2 n2 : Nat)
    (h : a2 + n2 ≤ a ∨ a + n ≤ a2) :
    readLE (writeLE b a n v) n2 a2 = readLE b n2 a2 :=
  readLE_congr _ _ _ _ (fun x h1 h2 => writeLE_outside b a n v x (by omega))

/-- A store of a header leaves the bytes outside the header. -/
theorem writeHeader_outside (b : Bytes) (a t l x : Nat) (h : x < a ∨ a + 8 ≤ x) :
    writeHeader b a t l x = b x := by
  unfold writeHeader
  rw [writeLE_outside _ _ _ _ _ (by omega), writeLE_outside _ _ _ _ _ (by omega),
    writeLE_outside _ _ _ _ _ (by omega)]

/-- A read outside a header that has been stored. -/
theorem readLE_writeHeader_disjoint (b : Bytes) (a t l a2 n2 : Nat)
    (h : a2 + n2 ≤ a ∨ a + 8 ≤ a2) :
    readLE (writeHeader b a t l) n2 a2 = readLE b n2 a2 :=
  readLE_congr _ _ _ _ (fun x h1 h2 => writeHeader_outside b a t l x (by omega))

/-- The type of a header that has been stored. -/
theorem readLE_writeHeader_type (b : Bytes) (a t l : Nat) :
    readLE (writeHeader b a t l) 2 a = t % 2 ^ 16 := by
  unfold writeHeader
  rw [readLE_writeLE_disjoint _ _ _ _ _ _ (by omega),
    readLE_writeLE_disjoint _ _ _ _ _ _ (by omega), readLE_writeLE_same]
  norm_num

/-- The length of a header that has been stored. -/
theorem readLE_writeHeader_length (b : Bytes) (a t l : Nat) :
    readLE (writeHeader b a t l) 2 (a + 2) = l % 2 ^ 16 := by
  unfold writeHeader
  rw [readLE_writeLE_disjoint _ _ _ _ _ _ (by omega), readLE_writeLE_same]
  norm_num

/-- A copy leaves the bytes outside its destination. -/
theorem CopyMem_outside (b : Bytes) (d s n x : Nat) (h : x < d ∨ d + n ≤ x) :
    CopyMem b d s n x = b x := by
  unfold CopyMem
  rw [if_neg (by omega)]

/-- A copy puts the bytes of the source into the destination. -/
theorem CopyMem_inside (b : Bytes) (d s n i : Nat) (h : i < n) :
    CopyMem b d s n (d + i) = b (s + i) := by
  unfold CopyMem
  rw [if_pos (by omega), Nat.add_sub_cancel_left]

/-! ## The writes of the new list: lemmas -/

/-- The header of a record reads the same in two memories that agree on its
first four bytes. -/
theorem hobViews_header_congr (b1 b2 : Bytes) (a : Nat)
    (h : ∀ x, a ≤ x → x < a + 4 → b1 x = b2 x) :
    (hobViews b1 a).HobType = (hobViews b2 a).HobType ∧
    (hobViews b1 a).HobLength = (hobViews b2 a).HobLength :=
  ⟨readLE_congr b1 b2 2 a (fun x h1 h2 => h x h1 (by omega)),
    readLE_congr b1 b2 2 (a + 2) (fun x h1 h2 => h x (by omega) (by omega))⟩

/-- The record at an address reads the same in two memories that agree on its
header and on its payload. -/
theorem recordAt_congr (b1 b2 : Bytes) (a : Nat)
    (hh : ∀ x, a ≤ x → x < a + 4 → b1 x = b2 x)
    (hp : ∀ x, a + 8 ≤ x → x < a + (hobViews b2 a).HobLength → b1 x = b2 x) :
    recordAt (hobViews b1) a = recordAt (hobViews b2) a := by
  obtain ⟨h1, h2⟩ := hobViews_header_congr b1 b2 a hh
  have h3 : (hobViews b1 a).Payload = (hobViews b2 a).Payload := by
    show (List.range (readLE b1 2 (a + 2) - sizeof_EFI_HOB_GENERIC_HEADER)).map _ =
      (List.range (readLE b2 2 (a + 2) - sizeof_EFI_HOB_GENERIC_HEADER)).map _
    have h2r : readLE b1 2 (a + 2) = readLE b2 2 (a + 2) := h2
    rw [h2r]
    apply List.map_congr_left
    intro i hi
    rw [List.mem_range] at hi
    have hlen : (hobViews b2 a).HobLength = readLE b2 2 (a + 2) := rfl
    unfold sizeof_EFI_HOB_GENERIC_HEADER at hi ⊢
    rw [hp (a + 8 + i) (by omega) (by omega)]
  unfold recordAt
  rw [h1, h2, h3]

/-- The facts of `WrittenInside` at the end address that the hand-off record of
the current list holds. -/
theorem WrittenInside_at (b : Bytes) (FMB FMT : Nat) (st : PayloadState) (E : Nat)
    (h : WrittenInside b FMB FMT st) (hE : readLE st.mem 8 (FMB + 48) = E) :
    st.mHobList = FMB ∧ readLE st.mem 8 (FMB + 32) = FMT ∧
    readLE st.mem 8 (FMB + 40) = E + 8 ∧ FMB + 56 ≤ E ∧ E + 8 ≤ FMT ∧
    ∀ x, x < FMB ∨ E + 8 ≤ x → st.mem x = b x := by
  obtain ⟨h1, h2, E0, h3, h4, h5, h6, h7⟩ := h
  have hEE : E0 = E := by rw [← h3, hE]
  subst hEE
  exact ⟨h1, h2, h4, h5, h6, h7⟩

/-- The function `HobConstructor` writes the 64 bytes of the hand-off record
and the end marker at the bottom of the free region, and nothing else. -/
theorem HobConstructor_writtenInside (b : Bytes) (MB MT FMB FMT : Nat)
    (h64 : FMB + 64 ≤ FMT) (hT : FMT < 2 ^ 64) :
    WrittenInside b FMB FMT (HobConstructor b MB MT FMB FMT) := by
  have h256 : (256 : Nat) ^ 8 = 2 ^ 64 := by norm_num
  simp only [HobConstructor, WrittenInside, sizeof_EFI_HOB_HANDOFF_INFO_TABLE,
    sizeof_EFI_HOB_GENERIC_HEADER]
  refine ⟨trivial, ?_, FMB + 56, ?_, ?_, le_refl _, by omega, ?_⟩
  · rw [readLE_writeLE_disjoint _ _ _ _ _ _ (by omega),
      readLE_writeLE_disjoint _ _ _ _ _ _ (by omega), readLE_writeLE_same, h256]
    exact Nat.mod_eq_of_lt hT
  · rw [readLE_writeLE_same, h256]
    exact Nat.mod_eq_of_lt (by omega)
  · rw [readLE_writeLE_disjoint _ _ _ _ _ _ (by omega), readLE_writeLE_same, h256]
    exact Nat.mod_eq_of_lt (by omega)
  · intro x hx
    rw [writeLE_outside _ _ _ _ _ (by omega), writeLE_outside _ _ _ _ _ (by omega),
      writeLE_outside _ _ _ _ _ (by omega), writeLE_outside _ _ _ _ _ (by omega),
      writeLE_outside _ _ _ _ _ (by omega), writeHeader_outside _ _ _ _ _ (by omega),
      writeHeader_outside _ _ _ _ _ (by omega)]

/-- What `HobConstructor` leaves at the bottom of the free region: a hand-off
record of 56 bytes that holds the three bounds it is given and the address of
the end marker, and the end marker after it. -/
theorem HobConstructor_content (b : Bytes) (MB MT FMB FMT : Nat)
    (h64 : FMB + 64 ≤ FMT) (hT : FMT < 2 ^ 64) :
    readLE (HobConstructor b MB MT FMB FMT).mem 8 (FMB + 48) = FMB + 56 ∧
    END_OF_HOB_LIST (hobViews (HobConstructor b MB MT FMB FMT).mem) (FMB + 56) = true ∧
    (hobViews (HobConstructor b MB MT FMB FMT).mem FMB).HobType = EFI_HOB_TYPE_HANDOFF ∧
    (hobViews (HobConstructor b MB MT FMB FMT).mem FMB).HobLength
      = sizeof_EFI_HOB_HANDOFF_INFO_TABLE ∧
    (hobViews (HobConstructor b MB MT FMB FMT).mem FMB).EfiMemoryTop = MT % 2 ^ 64 ∧
    (hobViews (HobConstructor b MB MT FMB FMT).mem FMB).EfiMemoryBottom = MB % 2 ^ 64 ∧
    (hobViews (HobConstructor b MB MT FMB FMT).mem FMB).EfiFreeMemoryTop = FMT := by
  have h256 : (256 : Nat) ^ 8 = 2 ^ 64 := by norm_num
  refine ⟨?_, ?_, ?_, ?_, ?_, ?_, ?_⟩
  · simp only [HobConstructor, sizeof_EFI_HOB_HANDOFF_INFO_TABLE,
      sizeof_EFI_HOB_GENERIC_HEADER]
    rw [readLE_writeLE_same, h256]
    exact Nat.mod_eq_of_lt (by omega)
  · unfold END_OF_HOB_LIST GET_HOB_TYPE
    show (readLE (HobConstructor b MB MT FMB FMT).mem 2 (FMB + 56)
      == EFI_HOB_TYPE_END_OF_HOB_LIST) = true
    simp only [HobConstructor, sizeof_EFI_HOB_HANDOFF_INFO_TABLE,
      sizeof_EFI_HOB_GENERIC_HEADER]
    rw [readLE_writeLE_disjoint _ _ _ _ _ _ (by omega),
      readLE_writeLE_disjoint _ _ _ _ _ _ (by omega),
      readLE_writeLE_disjoint _ _ _ _ _ _ (by omega),
      readLE_writeLE_disjoint _ _ _ _ _ _ (by omega),
      readLE_writeLE_disjoint _ _ _ _ _ _ (by omega), readLE_writeHeader_type]
    decide
  · show readLE (HobConstructor b MB MT FMB FMT).mem 2 FMB = EFI_HOB_TYPE_HANDOFF
    simp only [HobConstructor, sizeof_EFI_HOB_HANDOFF_INFO_TABLE,
      sizeof_EFI_HOB_GENERIC_HEADER]
    rw [readLE_writeLE_disjoint _ _ _ _ _ _ (by omega),
      readLE_writeLE_disjoint _ _ _ _ _ _ (by omega),
      readLE_writeLE_disjoint _ _ _ _ _ _ (by omega),
      readLE_writeLE_disjoint _ _ _ _ _ _ (by omega),
      readLE_writeLE_disjoint _ _ _ _ _ _ (by omega),
      readLE_writeHeader_disjoint _ _ _ _ _ _ (by omega), readLE_writeHeader_type]
    decide
  · show readLE (HobConstructor b MB MT FMB FMT).mem 2 (FMB + 2) = 56
    simp only [HobConstructor, sizeof_EFI_HOB_HANDOFF_INFO_TABLE,
      sizeof_EFI_HOB_GENERIC_HEADER]
    rw [readLE_writeLE_disjoint _ _ _ _ _ _ (by omega),
      readLE_writeLE_disjoint _ _ _ _ _ _ (by omega),
      readLE_writeLE_disjoint _ _ _ _ _ _ (by omega),
      readLE_writeLE_disjoint _ _ _ _ _ _ (by omega),
      readLE_writeLE_disjoint _ _ _ _ _ _ (by omega),
      readLE_writeHeader_disjoint _ _ _ _ _ _ (by omega), readLE_writeHeader_length]
    decide
  · show readLE (HobConstructor b MB MT FMB FMT).mem 8 (FMB + 16) = MT % 2 ^ 64
    simp only [HobConstructor, sizeof_EFI_HOB_HANDOFF_INFO_TABLE,
      sizeof_EFI_HOB_GENERIC_HEADER]
    rw [readLE_writeLE_disjoint _ _ _ _ _ _ (by omega),
      readLE_writeLE_disjoint _ _ _ _ _ _ (by omega),
      readLE_writeLE_disjoint _ _ _ _ _ _ (by omega),
      readLE_writeLE_disjoint _ _ _ _ _ _ (by omega), readLE_writeLE_same, h256]
  · show readLE (HobConstructor b MB MT FMB FMT).mem 8 (FMB + 24) = MB % 2 ^ 64
    simp only [HobConstructor, sizeof_EFI_HOB_HANDOFF_INFO_TABLE,
      sizeof_EFI_HOB_GENERIC_HEADER]
    rw [readLE_writeLE_disjoint _ _ _ _ _ _ (by omega),
      readLE_writeLE_disjoint _ _ _ _ _ _ (by omega),
      readLE_writeLE_disjoint _ _ _ _ _ _ (by omega), readLE_writeLE_same, h256]
  · show readLE (HobConstructor b MB MT FMB FMT).mem 8 (FMB + 32) = FMT
    simp only [HobConstructor, sizeof_EFI_HOB_HANDOFF_INFO_TABLE,
      sizeof_EFI_HOB_GENERIC_HEADER]
    rw [readLE_writeLE_disjoint _ _ _ _ _ _ (by omega),
      readLE_writeLE_disjoint _ _ _ _ _ _ (by omega), readLE_writeLE_same, h256]
    exact Nat.mod_eq_of_lt hT

/-- With room, `CreateHob` appends a header at the end address `E` of the
current list, puts an end marker after the record, and leaves every byte that
is outside the record, the end marker and the two addresses it keeps in the
hand-off record. -/
theorem CreateHob_appends (b : Bytes) (FMB FMT : Nat) (st : PayloadState)
    (t len E : Nat) (hT : FMT < 2 ^ 64) (hinv : WrittenInside b FMB FMT st)
    (hE : readLE st.mem 8 (FMB + 48) = E) (hroom : E + len + 8 ≤ FMT) :
    ∃ st1, CreateHob st t len = (some E, st1) ∧ WrittenInside b FMB FMT st1 ∧
      readLE st1.mem 8 (FMB + 48) = E + len ∧
      (∀ x, x < E ∨ E + len + 8 ≤ x → x < FMB + 40 ∨ FMB + 56 ≤ x →
        st1.mem x = st.mem x) ∧
      readLE st1.mem 2 (E + len) = EFI_HOB_TYPE_END_OF_HOB_LIST ∧
      (8 ≤ len → readLE st1.mem 2 E = t % 2 ^ 16 ∧
        readLE st1.mem 2 (E + 2) = len % 2 ^ 16) := by
  have h256 : (256 : Nat) ^ 8 = 2 ^ 64 := by norm_num
  obtain ⟨hm, htop, hfb, hlo, hhi, hframe⟩ := WrittenInside_at b FMB FMT st E hinv hE
  have hfree : sub64 (readLE st.mem 8 (FMB + 32)) (readLE st.mem 8 (FMB + 40))
      = FMT - (E + 8) := by
    rw [htop, hfb]
    exact sub64_of_le hhi hT
  have hnot : ¬ FMT - (E + 8) < len := by omega
  have hres : CreateHob st t len = (some E,
      { st with
        mem := writeLE (writeHeader (writeLE (writeHeader st.mem E t len) (FMB + 48) 8
          (E + len)) (E + len) EFI_HOB_TYPE_END_OF_HOB_LIST 8) (FMB + 40) 8
          (E + len + 8) }) := by
    simp only [CreateHob, hm, hfree, hnot, if_false, hE, sizeof_EFI_HOB_GENERIC_HEADER]
  have hsame : ∀ x, x < E ∨ E + len + 8 ≤ x → x < FMB + 40 ∨ FMB + 56 ≤ x →
      writeLE (writeHeader (writeLE (writeHeader st.mem E t len) (FMB + 48) 8
        (E + len)) (E + len) EFI_HOB_TYPE_END_OF_HOB_LIST 8) (FMB + 40) 8
        (E + len + 8) x = st.mem x := by
    intro x hx hx2
    rw [writeLE_outside _ _ _ _ _ (by omega), writeHeader_outside _ _ _ _ _ (by omega),
      writeLE_outside _ _ _ _ _ (by omega), writeHeader_outside _ _ _ _ _ (by omega)]
  refine ⟨_, hres, ?_, ?_, hsame, ?_, ?_⟩
  · refine ⟨hm, ?_, E + len, ?_, ?_, by omega, by omega, ?_⟩
    · show readLE (writeLE _ _ _ _) 8 (FMB + 32) = FMT
      rw [readLE_writeLE_disjoint _ _ _ _ _ _ (by omega),
        readLE_writeHeader_disjoint _ _ _ _ _ _ (by omega),
        readLE_writeLE_disjoint _ _ _ _ _ _ (by omega),
        readLE_writeHeader_disjoint _ _ _ _ _ _ (by omega)]
      exact htop
    · show readLE (writeLE _ _ _ _) 8 (FMB + 48) = E + len
      rw [readLE_writeLE_disjoint _ _ _ _ _ _ (by omega),
        readLE_writeHeader_disjoint _ _ _ _ _ _ (by omega), readLE_writeLE_same, h256]
      exact Nat.mod_eq_of_lt (by omega)
    · show readLE (writeLE _ _ _ _) 8 (FMB + 40) = E + len + 8
      rw [readLE_writeLE_same, h256]
      exact Nat.mod_eq_of_lt (by omega)
    · intro x hx
      show writeLE _ _ _ _ x = b x
      rw [hsame x (by omega) (by omega)]
      exact hframe x (by omega)
  · show readLE (writeLE _ _ _ _) 8 (FMB + 48) = E + len
    rw [readLE_writeLE_disjoint _ _ _ _ _ _ (by omega),
      readLE_writeHeader_disjoint _ _ _ _ _ _ (by omega), readLE_writeLE_same, h256]
    exact Nat.mod_eq_of_lt (by omega)
  · show readLE (writeLE _ _ _ _) 2 (E + len) = EFI_HOB_TYPE_END_OF_HOB_LIST
    rw [readLE_writeLE_disjoint _ _ _ _ _ _ (by omega), readLE_writeHeader_type]
    decide
  · intro h8
    constructor
    · show readLE (writeLE _ _ _ _) 2 E = t % 2 ^ 16
      rw [readLE_writeLE_disjoint _ _ _ _ _ _ (by omega),
        readLE_writeHeader_disjoint _ _ _ _ _ _ (by omega),
        readLE_writeLE_disjoint _ _ _ _ _ _ (by omega), readLE_writeHeader_type]
    · show readLE (writeLE _ _ _ _) 2 (E + 2) = len % 2 ^ 16
      rw [readLE_writeLE_disjoint _ _ _ _ _ _ (by omega),
        readLE_writeHeader_disjoint _ _ _ _ _ _ (by omega),
        readLE_writeLE_disjoint _ _ _ _ _ _ (by omega), readLE_writeHeader_length]

/-- A copy into the bytes of the current list, above its hand-off record,
keeps the state. -/
theorem CopyMem_writtenInside (b : Bytes) (FMB FMT : Nat) (st : PayloadState)
    (d s n E : Nat) (hinv : WrittenInside b FMB FMT st)
    (hE : readLE st.mem 8 (FMB + 48) = E) (hd : FMB + 56 ≤ d) (hn : d + n ≤ E + 8) :
    WrittenInside b FMB FMT { st with mem := CopyMem st.mem d s n } ∧
    readLE (CopyMem st.mem d s n) 8 (FMB + 48) = E := by
  obtain ⟨hm, htop, hfb, hlo, hhi, hframe⟩ := WrittenInside_at b FMB FMT st E hinv hE
  have hread : ∀ a, a + 8 ≤ FMB + 56 →
      readLE (CopyMem st.mem d s n) 8 a = readLE st.mem 8 a := fun a ha =>
    readLE_congr _ _ _ _ (fun x h1 h2 => CopyMem_outside _ _ _ _ _ (by omega))
  refine ⟨⟨hm, ?_, E, ?_, ?_, hlo, hhi, ?_⟩, ?_⟩
  · show readLE (CopyMem st.mem d s n) 8 (FMB + 32) = FMT
    rw [hread _ (by omega)]; exact htop
  · show readLE (CopyMem st.mem d s n) 8 (FMB + 48) = E
    rw [hread _ (by omega)]; exact hE
  · show readLE (CopyMem st.mem d s n) 8 (FMB + 40) = E + 8
    rw [hread _ (by omega)]; exact hfb
  · intro x hx
    show CopyMem st.mem d s n x = b x
    rw [CopyMem_outside _ _ _ _ _ (by omega)]
    exact hframe x hx
  · rw [hread _ (by omega)]; exact hE

/-- With room, `AddNewHob` on a record that is at least a header long and lies
outside the bytes of the current list, also after the record has been
appended, appends a copy of it at the end address `E` of the current list:
same type, same length, same payload, and an end marker after it; the bytes
below `E` other than the two addresses kept in the hand-off record are left as
they were. -/
theorem AddNewHob_copies (b : Bytes) (FMB FMT : Nat) (st : PayloadState)
    (Raw E : Nat) (hT : FMT < 2 ^ 64) (hinv : WrittenInside b FMB FMT st)
    (hE : readLE st.mem 8 (FMB + 48) = E)
    (hlen : 8 ≤ (hobViews b Raw).HobLength)
    (hout : Raw + (hobViews b Raw).HobLength ≤ FMB ∨
      E + (hobViews b Raw).HobLength + 8 ≤ Raw)
    (hroom : E + (hobViews b Raw).HobLength + 8 ≤ FMT) :
    WrittenInside b FMB FMT (AddNewHob st (some Raw)) ∧
    readLE (AddNewHob st (some Raw)).mem 8 (FMB + 48) = E + (hobViews b Raw).HobLength ∧
    recordAt (hobViews (AddNewHob st (some Raw)).mem) E = recordAt (hobViews b) Raw ∧
    END_OF_HOB_LIST (hobViews (AddNewHob st (some Raw)).mem)
      (E + (hobViews b Raw).HobLength) = true ∧
    (∀ x, x < E → x < FMB + 40 ∨ FMB + 56 ≤ x →
      (AddNewHob st (some Raw)).mem x = st.mem x) := by
  obtain ⟨_, _, _, hElo, _, hframe⟩ := WrittenInside_at b FMB FMT st E hinv hE
  have hlenb : (hobViews b Raw).HobLength = readLE b 2 (Raw + 2) := rfl
  have htS : readLE st.mem 2 Raw = readLE b 2 Raw :=
    readLE_congr _ _ _ _ (fun x h1 h2 => hframe x (by omega))
  have hlS : readLE st.mem 2 (Raw + 2) = readLE b 2 (Raw + 2) :=
    readLE_congr _ _ _ _ (fun x h1 h2 => hframe x (by omega))
  have htlt : readLE b 2 Raw < 2 ^ 16 := by
    have := readLE_lt b 2 Raw
    norm_num at this ⊢
    exact this
  have hllt : readLE b 2 (Raw + 2) < 2 ^ 16 := by
    have := readLE_lt b 2 (Raw + 2)
    norm_num at this ⊢
    exact this
  obtain ⟨st1, hcreate, hinv1, hE1, hsame, hend1, hcontent⟩ :=
    CreateHob_appends b FMB FMT st (readLE b 2 Raw) (readLE b 2 (Raw + 2)) E hT hinv hE
      (by omega)
  obtain ⟨ht1, hl1⟩ := hcontent (by omega)
  rw [Nat.mod_eq_of_lt htlt] at ht1
  rw [Nat.mod_eq_of_lt hllt] at hl1
  have hl1S : readLE st1.mem 2 (Raw + 2) = readLE b 2 (Raw + 2) := by
    rw [← hlS]
    exact readLE_congr _ _ _ _ (fun x h1 h2 => hsame x (by omega) (by omega))
  have hst2 : AddNewHob st (some Raw) =
      { st1 with mem := CopyMem st1.mem (E + 8) (Raw + 8) (readLE b 2 (Raw + 2) - 8) } := by
    simp only [AddNewHob, htS, hlS, hcreate, hl1S, sizeof_EFI_HOB_GENERIC_HEADER]
    rw [sub64_of_le (by omega) (lt_trans hllt (by norm_num))]
  rw [hst2]
  have hcopy : ∀ x, x < E + 8 ∨ E + readLE b 2 (Raw + 2) ≤ x →
      CopyMem st1.mem (E + 8) (Raw + 8) (readLE b 2 (Raw + 2) - 8) x = st1.mem x :=
    fun x hx => CopyMem_outside _ _ _ _ _ (by omega)
  obtain ⟨hinv2, hE2⟩ := CopyMem_writtenInside b FMB FMT st1 (E + 8) (Raw + 8)
    (readLE b 2 (Raw + 2) - 8) (E + readLE b 2 (Raw + 2)) hinv1 hE1 (by omega) (by omega)
  refine ⟨hinv2, hE2, ?_, ?_, ?_⟩
  · have h1 : readLE (CopyMem st1.mem (E + 8) (Raw + 8) (readLE b 2 (Raw + 2) - 8)) 2 E
        = readLE b 2 Raw := by
      rw [readLE_congr _ st1.mem _ _ (fun x h1 h2 => hcopy x (by omega))]
      exact ht1
    have h2 : readLE (CopyMem st1.mem (E + 8) (Raw + 8) (readLE b 2 (Raw + 2) - 8)) 2 (E + 2)
        = readLE b 2 (Raw + 2) := by
      rw [readLE_congr _ st1.mem _ _ (fun x h1 h2 => hcopy x (by omega))]
      exact hl1
    show (readLE _ 2 E, readLE _ 2 (E + 2),
        (List.range (readLE _ 2 (E + 2) - sizeof_EFI_HOB_GENERIC_HEADER)).map _) =
      (readLE b 2 Raw, readLE b 2 (Raw + 2),
        (List.range (readLE b 2 (Raw + 2) - sizeof_EFI_HOB_GENERIC_HEADER)).map _)
    rw [h1, h2]
    refine congrArg _ (congrArg _ ?_)
    apply List.map_congr_left
    intro i hi
    rw [List.mem_range] at hi
    unfold sizeof_EFI_HOB_GENERIC_HEADER at hi ⊢
    have hci := CopyMem_inside st1.mem (E + 8) (Raw + 8) (readLE b 2 (Raw + 2) - 8) i hi
    show CopyMem st1.mem (E + 8) (Raw + 8) (readLE b 2 (Raw + 2) - 8) (E + 8 + i) % 256 =
      b (Raw + 8 + i) % 256
    rw [hci, hsame _ (by omega) (by omega), hframe _ (by omega)]
  · unfold END_OF_HOB_LIST GET_HOB_TYPE
    show (readLE (CopyMem st1.mem (E + 8) (Raw + 8) (readLE b 2 (Raw + 2) - 8)) 2
      (E + readLE b 2 (Raw + 2)) == EFI_HOB_TYPE_END_OF_HOB_LIST) = true
    rw [readLE_congr _ st1.mem _ _ (fun x h1 h2 => hcopy x (by omega)), hend1]
    decide
  · intro x hx hx2
    show CopyMem st1.mem (E + 8) (Raw + 8) (readLE b 2 (Raw + 2) - 8) x = st.mem x
    rw [hcopy x (by omega)]
    exact hsame x (Or.inl hx) hx2

/-- The end marker of a list lies at or above its start. -/
theorem HobListEnd_ge (mem : Memory) :
    ∀ (fuel Hob e : Nat), HobListEnd mem fuel Hob = some e → Hob ≤ e := by
  intro fuel
  induction fuel with
  | zero => intro Hob e h; simp [HobListEnd] at h
  | succ n ih =>
    intro Hob e h
    rw [HobListEnd] at h
    by_cases hend : END_OF_HOB_LIST mem Hob = true
    · rw [if_pos hend] at h
      cases h
      exact le_refl _
    · rw [if_neg hend] at h
      have := ih _ _ h
      unfold GET_NEXT_HOB at this
      omega

/-- More fuel does not change the end marker of a list. -/
theorem HobListEnd_fuel_mono (mem : Memory) :
    ∀ (fuel Hob e : Nat), HobListEnd mem fuel Hob = some e →
      ∀ k, HobListEnd mem (fuel + k) Hob = some e := by
  intro fuel
  induction fuel with
  | zero => intro Hob e h; simp [HobListEnd] at h
  | succ n ih =>
    intro Hob e h k
    rw [show n + 1 + k = (n + k) + 1 by omega, HobListEnd]
    rw [HobListEnd] at h
    by_cases hend : END_OF_HOB_LIST mem Hob = true
    · rw [if_pos hend] at h ⊢
      exact h
    · rw [if_neg hend] at h ⊢
      exact ih _ _ h k

/-- The total length of the records that are not of the hand-off type, with
one more record in front. -/
theorem totalLength_filter_cons (b : Bytes) (Hob : Nat) (rest : List Nat) :
    (((hobViews b Hob).HobType ≠ EFI_HOB_TYPE_HANDOFF) →
      (Hob :: rest).filter
          (fun a => decide ((hobViews b a).HobType ≠ EFI_HOB_TYPE_HANDOFF)) =
        Hob :: rest.filter
          (fun a => decide ((hobViews b a).HobType ≠ EFI_HOB_TYPE_HANDOFF)) ∧
      totalLength b ((Hob :: rest).filter
          (fun a => decide ((hobViews b a).HobType ≠ EFI_HOB_TYPE_HANDOFF))) =
        (hobViews b Hob).HobLength + totalLength b (rest.filter
          (fun a => decide ((hobViews b a).HobType ≠ EFI_HOB_TYPE_HANDOFF)))) ∧
    (¬ ((hobViews b Hob).HobType ≠ EFI_HOB_TYPE_HANDOFF) →
      (Hob :: rest).filter
          (fun a => decide ((hobViews b a).HobType ≠ EFI_HOB_TYPE_HANDOFF)) =
        rest.filter
          (fun a => decide ((hobViews b a).HobType ≠ EFI_HOB_TYPE_HANDOFF))) := by
  constructor
  · intro ht
    have hfil : (Hob :: rest).filter
        (fun a => decide ((hobViews b a).HobType ≠ EFI_HOB_TYPE_HANDOFF)) =
        Hob :: rest.filter
          (fun a => decide ((hobViews b a).HobType ≠ EFI_HOB_TYPE_HANDOFF)) := by
      simp [ht]
    refine ⟨hfil, ?_⟩
    rw [hfil]
    simp [totalLength]
  · intro ht
    simp [ht]

/-- The migration loop on the written memory, for an old list whose bytes lie
outside the bytes that the new list comes to occupy and a free region with
room for every copy: the loop appends, from the end address `E` of the current
list on, the copies of the records of the old list that are not of the
hand-off type, in order, and leaves the bytes below `E` other than the two
addresses kept in the hand-off record as they were. -/
theorem migrateWritten_copies (b : Bytes) (FMB FMT e W : Nat) (hT : FMT < 2 ^ 64)
    (hW : W ≤ FMT) :
    ∀ (fuel Hob : Nat) (L : List Nat) (st : PayloadState) (E : Nat),
      HobWalk (hobViews b) fuel Hob = some L →
      HobListEnd (hobViews b) fuel Hob = some e →
      (∀ a ∈ L, 8 ≤ (hobViews b a).HobLength) →
      (e + 8 ≤ FMB ∨ W ≤ Hob) →
      WrittenInside b FMB FMT st →
      readLE st.mem 8 (FMB + 48) = E →
      END_OF_HOB_LIST (hobViews st.mem) E = true →
      E + 8 + totalLength b
        (L.filter (fun a => decide ((hobViews b a).HobType ≠ EFI_HOB_TYPE_HANDOFF))) ≤ W →
      ∃ r, BuildHobs.migrateWritten fuel Hob st = some r ∧
        r.Added = L.filter (fun a => decide ((hobViews b a).HobType ≠ EFI_HOB_TYPE_HANDOFF)) ∧
        WrittenInside b FMB FMT r.State ∧
        CopiesLaid b r.State.mem E
          (L.filter (fun a => decide ((hobViews b a).HobType ≠ EFI_HOB_TYPE_HANDOFF))) ∧
        (∀ x, x < E → x < FMB + 40 ∨ FMB + 56 ≤ x → r.State.mem x = st.mem x) ∧
        (∀ x, x < FMB ∨ W ≤ x → r.State.mem x = b x) := by
  intro fuel
  induction fuel with
  | zero => intro Hob L st E h; simp [HobWalk] at h
  | succ n ih =>
    intro Hob L st E hL he hlen hdisj hinv hE hEend hbound
    have hge := HobListEnd_ge _ _ _ _ he
    obtain ⟨_, _, _, hlo, hhi, hframe⟩ := WrittenInside_at b FMB FMT st E hinv hE
    have hagree : ∀ (st2 : PayloadState) (E2 : Nat), WrittenInside b FMB FMT st2 →
        readLE st2.mem 8 (FMB + 48) = E2 → (Hob + 4 ≤ FMB ∨ E2 + 8 ≤ Hob) →
        (hobViews st2.mem Hob).HobType = (hobViews b Hob).HobType ∧
        (hobViews st2.mem Hob).HobLength = (hobViews b Hob).HobLength := by
      intro st2 E2 h2 hE2 hout
      obtain ⟨_, _, _, _, _, hframe2⟩ := WrittenInside_at b FMB FMT st2 E2 h2 hE2
      exact hobViews_header_congr _ _ _ (fun x h1 h3 => hframe2 x (by omega))
    have hst := hagree st E hinv hE (by omega)
    rw [HobWalk] at hL
    rw [HobListEnd] at he
    rw [BuildHobs.migrateWritten]
    have hendeq : END_OF_HOB_LIST (hobViews st.mem) Hob = END_OF_HOB_LIST (hobViews b) Hob := by
      unfold END_OF_HOB_LIST GET_HOB_TYPE
      rw [hst.1]
    rw [hendeq]
    by_cases hend : END_OF_HOB_LIST (hobViews b) Hob = true
    · rw [if_pos hend] at hL ⊢
      cases hL
      exact ⟨_, rfl, rfl, hinv, hEend, fun _ _ _ => rfl, fun x hx => hframe x (by omega)⟩
    · rw [if_neg hend] at hL he ⊢
      cases hrest : HobWalk (hobViews b) n (GET_NEXT_HOB (hobViews b) Hob) with
      | none => rw [hrest] at hL; simp at hL
      | some rest =>
        rw [hrest] at hL
        simp only [Option.map_some', Option.some.injEq] at hL
        subst hL
        have hnextle := HobListEnd_ge _ _ _ _ he
        have hnext : GET_NEXT_HOB (hobViews b) Hob = Hob + (hobViews b Hob).HobLength := rfl
        have hlenH := hlen Hob (List.mem_cons_self _ _)
        obtain ⟨hpos, hneg⟩ := totalLength_filter_cons b Hob rest
        rw [hst.1]
        by_cases ht : (hobViews b Hob).HobType ≠ EFI_HOB_TYPE_HANDOFF
        · obtain ⟨hfil, hsum⟩ := hpos ht
          rw [hsum] at hbound
          rw [hfil, if_pos ht]
          obtain ⟨hinv2, hE2, hrec, hend2, hsame2⟩ := AddNewHob_copies b FMB FMT st Hob E hT
            hinv hE hlenH (by omega) (by omega)
          have hst2 := hagree _ _ hinv2 hE2 (by omega)
          have hnexteq : GET_NEXT_HOB (hobViews (AddNewHob st (some Hob)).mem) Hob =
              GET_NEXT_HOB (hobViews b) Hob := by
            unfold GET_NEXT_HOB GET_HOB_LENGTH
            rw [hst2.2]
          rw [hnexteq]
          obtain ⟨r, hr, h1, h3, h4, h5, h6⟩ := ih _ rest _ _ hrest he
            (fun a ha => hlen a (List.mem_cons_of_mem _ ha)) (by omega) hinv2 hE2 hend2
            (by omega)
          rw [hr]
          have hlen2 : (hobViews (AddNewHob st (some Hob)).mem E).HobLength =
              (hobViews b Hob).HobLength := congrArg (fun p => p.2.1) hrec
          refine ⟨_, rfl, ?_, h3, ⟨?_, h4⟩, ?_, h6⟩
          · show Hob :: r.Added = _
            rw [h1]
          · rw [← hrec]
            exact recordAt_congr _ _ _ (fun x hx1 hx2 => h5 x (by omega) (by omega))
              (fun x hx1 hx2 => h5 x (by omega) (by omega))
          · intro x hx hx2
            show r.State.mem x = st.mem x
            rw [h5 x (by omega) hx2]
            exact hsame2 x hx hx2
        · rw [hneg ht] at hbound ⊢
          rw [if_neg ht]
          have hnexteq : GET_NEXT_HOB (hobViews st.mem) Hob = GET_NEXT_HOB (hobViews b) Hob := by
            unfold GET_NEXT_HOB GET_HOB_LENGTH
            rw [hst.2]
          rw [hnexteq]
          obtain ⟨r, hr, h1, h3, h4, h5, h6⟩ := ih _ rest _ _ hrest he
            (fun a ha => hlen a (List.mem_cons_of_mem _ ha)) (by omega) hinv hE hEend hbound
          rw [hr]
          exact ⟨_, rfl, h1, h3, h4, h5, h6⟩

/-- Copies laid one after the other are the records of a walk: the walk from
their start visits as many records as there are copies, and each has the type,
the length and the payload of the record it copies. -/
theorem CopiesLaid_walk (old new : Bytes) :
    ∀ (srcs : List Nat) (a : Nat), CopiesLaid old new a srcs →
      (∀ s ∈ srcs, (hobViews old s).HobType ≠ EFI_HOB_TYPE_END_OF_HOB_LIST) →
      ∃ dsts, HobWalk (hobViews new) (srcs.length + 1) a = some dsts ∧
        dsts.map (recordAt (hobViews new)) = srcs.map (recordAt (hobViews old)) := by
  intro srcs
  induction srcs with
  | nil =>
    intro a h _
    have hend : END_OF_HOB_LIST (hobViews new) a = true := h
    refine ⟨[], ?_, rfl⟩
    rw [List.length_nil, HobWalk, if_pos hend]
  | cons s rest ih =>
    intro a h hne
    obtain ⟨hrec, hrest⟩ := h
    have htype : (hobViews new a).HobType = (hobViews old s).HobType :=
      congrArg (fun p => p.1) hrec
    have hlen : (hobViews new a).HobLength = (hobViews old s).HobLength :=
      congrArg (fun p => p.2.1) hrec
    have hnotend : ¬ END_OF_HOB_LIST (hobViews new) a = true := by
      unfold END_OF_HOB_LIST GET_HOB_TYPE
      rw [htype]
      simpa using hne s (List.mem_cons_self _ _)
    obtain ⟨dsts, hw, hmap⟩ := ih _ hrest (fun x hx => hne x (List.mem_cons_of_mem _ hx))
    refine ⟨a :: dsts, ?_, ?_⟩
    · rw [List.length_cons, HobWalk, if_neg hnotend]
      have hnext : GET_NEXT_HOB (hobViews new) a = a + (hobViews old s).HobLength := by
        unfold GET_NEXT_HOB GET_HOB_LENGTH
        rw [hlen]
      rw [hnext, hw]
      rfl
    · rw [List.map_cons, List.map_cons, hrec, hmap]

/-- Where the new list is written outside the old list, the migration
preserves content.  On every well-formed old list for which `BuildHobs` calls
`HobConstructor`, when the free region has room for the new hand-off record,
the end marker and every copy, and the bytes `[base, e + 8)` of the old list
and its end marker lie outside the bytes that the new list comes to occupy
(from the bottom of the free region on): `BuildHobs` on the written memory
returns, the current list is at the bottom of the free region, its first
record is a hand-off record with the bounds given to `HobConstructor`, and the
records after it, up to the end marker, are as many as the records of the old
list that are not of the hand-off type and have, in the same order, their
types, their lengths and their payloads; the memory outside the new list is as
it was. -/
theorem BuildHobs_written_copies_outside (b : Bytes) (mHobList fuel base m : Nat)
    (L : List Nat) (e : Nat) (run : BuildHobsRun) (args : HobConstructorArgs)
    (hL : HobWalk (hobViews b) fuel base = some L)
    (he : HobListEnd (hobViews b) fuel base = some e)
    (hlen : ∀ a ∈ L, sizeof_EFI_HOB_GENERIC_HEADER ≤ (hobViews b a).HobLength)
    (hrun : BuildHobs (hobViews b) fuel base m = some run)
    (hargs : run.Constructed = some args)
    (hT : args.EfiFreeMemoryTop < 2 ^ 64)
    (hroom : args.EfiFreeMemoryBottom + 64 + totalLength b
      (L.filter (fun a => decide ((hobViews b a).HobType ≠ EFI_HOB_TYPE_HANDOFF)))
      ≤ args.EfiFreeMemoryTop)
    (hdisj : e + sizeof_EFI_HOB_GENERIC_HEADER ≤ args.EfiFreeMemoryBottom ∨
      args.EfiFreeMemoryBottom + 64 + totalLength b
        (L.filter (fun a => decide ((hobViews b a).HobType ≠ EFI_HOB_TYPE_HANDOFF)))
        ≤ base) :
    ∃ r dsts, BuildHobs.written (PayloadState.mk b mHobList) fuel base m
        = some (run.Status, r) ∧
      r.Added = L.filter (fun a => decide ((hobViews b a).HobType ≠ EFI_HOB_TYPE_HANDOFF)) ∧
      r.State.mHobList = args.EfiFreeMemoryBottom ∧
      HobWalk (hobViews r.State.mem)
        ((L.filter (fun a => decide ((hobViews b a).HobType ≠ EFI_HOB_TYPE_HANDOFF))).length
          + 2) r.State.mHobList = some (r.State.mHobList :: dsts) ∧
      (hobViews r.State.mem r.State.mHobList).HobType = EFI_HOB_TYPE_HANDOFF ∧
      (hobViews r.State.mem r.State.mHobList).EfiMemoryTop = args.EfiMemoryTop % 2 ^ 64 ∧
      (hobViews r.State.mem r.State.mHobList).EfiMemoryBottom
        = args.EfiMemoryBottom % 2 ^ 64 ∧
      (hobViews r.State.mem r.State.mHobList).EfiFreeMemoryTop = args.EfiFreeMemoryTop ∧
      dsts.map (recordAt (hobViews r.State.mem)) =
        (L.filter (fun a => decide ((hobViews b a).HobType ≠ EFI_HOB_TYPE_HANDOFF))).map
          (recordAt (hobViews b)) ∧
      ∀ x, x < args.EfiFreeMemoryBottom ∨
          args.EfiFreeMemoryBottom + 64 + totalLength b
            (L.filter (fun a => decide ((hobViews b a).HobType ≠ EFI_HOB_TYPE_HANDOFF)))
            ≤ x →
        r.State.mem x = b x := by
  obtain ⟨MB, MT, FMB, FMT⟩ := args
  simp only at hT hdisj hroom ⊢
  unfold sizeof_EFI_HOB_GENERIC_HEADER at hlen hdisj
  have h64 : FMB + 64 ≤ FMT := by omega
  obtain ⟨c1, c2, c3, c4, c5, c6, c7⟩ := HobConstructor_content b MB MT FMB FMT h64 hT
  obtain ⟨r, hr, h1, h3, h4, h5, h6⟩ := migrateWritten_copies b FMB FMT e
    (FMB + 64 + totalLength b
      (L.filter (fun a => decide ((hobViews b a).HobType ≠ EFI_HOB_TYPE_HANDOFF))))
    hT hroom fuel base L
    (HobConstructor b MB MT FMB FMT) (FMB + 56) hL he hlen hdisj
    (HobConstructor_writtenInside b MB MT FMB FMT h64 hT) c1 c2 (by omega)
  have hm : r.State.mHobList = FMB := h3.1
  have hsame : ∀ a n, FMB ≤ a → a + n ≤ FMB + 40 →
      readLE r.State.mem n a = readLE (HobConstructor b MB MT FMB FMT).mem n a :=
    fun a n h1 h2 => readLE_congr _ _ _ _ (fun x hx1 hx2 => h5 x (by omega) (by omega))
  have htype : (hobViews r.State.mem FMB).HobType = EFI_HOB_TYPE_HANDOFF := by
    show readLE r.State.mem 2 FMB = _
    rw [hsame _ _ (le_refl _) (by omega)]
    exact c3
  have hlength : (hobViews r.State.mem FMB).HobLength = 56 := by
    show readLE r.State.mem 2 (FMB + 2) = _
    rw [hsame _ _ (by omega) (by omega)]
    exact c4
  obtain ⟨dsts, hw, hmap⟩ := CopiesLaid_walk b r.State.mem _ _ h4
    (fun s hs => HobWalk_not_end (hobViews b) fuel base L hL s (List.mem_of_mem_filter hs))
  refine ⟨r, dsts, ?_, h1, hm, ?_, ?_, ?_, ?_, ?_, hmap, h6⟩
  · simp only [BuildHobs.written, hrun, hargs, hr, Option.map_some']
  · rw [hm, HobWalk]
    have hnotend : ¬ END_OF_HOB_LIST (hobViews r.State.mem) FMB = true := by
      unfold END_OF_HOB_LIST GET_HOB_TYPE
      rw [htype]
      decide
    rw [if_neg hnotend]
    have hnext : GET_NEXT_HOB (hobViews r.State.mem) FMB = FMB + 56 := by
      unfold GET_NEXT_HOB GET_HOB_LENGTH
      rw [hlength]
    rw [hnext, hw]
    rfl
  · rw [hm]; exact htype
  · rw [hm]
    show readLE r.State.mem 8 (FMB + 16) = _
    rw [hsame _ _ (by omega) (by omega)]
    exact c5
  · rw [hm]
    show readLE r.State.mem 8 (FMB + 24) = _
    rw [hsame _ _ (by omega) (by omega)]
    exact c6
  · rw [hm]
    show readLE r.State.mem 8 (FMB + 32) = _
    rw [hsame _ _ (by omega) (by omega)]
    exact c7

/-- The top of the free region that `BuildHobs` passes to `HobConstructor` is
a 64-bit value. -/
theorem BuildHobs_freeTop_lt (b : Bytes) (fuel base m : Nat) (L : List Nat)
    (run : BuildHobsRun) (args : HobConstructorArgs)
    (hL : HobWalk (hobViews b) fuel base = some L)
    (hrun : BuildHobs (hobViews b) fuel base m = some run)
    (hargs : run.Constructed = some args) :
    args.EfiFreeMemoryTop < 2 ^ 64 := by
  have hfield : (hobViews b base).EfiMemoryBottom < 2 ^ 64 := by
    have := readLE_lt b 8 (base + 24)
    norm_num at this ⊢
    exact this
  rcases BuildHobs_cases (hobViews b) fuel base m L hL with
    ⟨_, ⟨_, hb⟩ | ⟨e, _, hb⟩⟩ |
    ⟨d, _, ⟨_, hb⟩ | ⟨_, _, hb⟩ | ⟨_, _, ⟨_, hb⟩ | ⟨e, _, hb⟩⟩⟩
  all_goals
    rw [hb] at hrun
    cases hrun
  · cases hargs
  · cases hargs
    exact add64_lt _ _
  · cases hargs
    exact add64_lt _ _
  · cases hargs
    exact hfield
  · cases hargs
  · cases hargs
    exact add64_lt _ _

/-- In the branches in which a qualifying descriptor contains the hand-off
range (branches 2, 3 and 4), the migration preserves content: on every
well-formed old list that satisfies the data-model invariants, whose
qualifying descriptors are pairwise non-overlapping and whose bytes
`[base, e + 8)` lie inside its footprint `[EfiMemoryBottom, EfiMemoryTop)`,
when `BuildHobs` succeeds and the free region has room for the new hand-off
record, the end marker and every copy, the records of the new list after its
hand-off record are as many as the records of the old list that are not of the
hand-off type and have, in the same order, their types, their lengths and
their payloads. -/
theorem BuildHobs_written_copies_of_contained (b : Bytes) (mHobList fuel base m : Nat)
    (L : List Nat) (e d : Nat)
    (hL : HobWalk (hobViews b) fuel base = some L)
    (he : HobListEnd (hobViews b) fuel base = some e)
    (hlen : ∀ a ∈ L, sizeof_EFI_HOB_GENERIC_HEADER ≤ (hobViews b a).HobLength)
    (hno : ∀ a ∈ L, IsQualifyingMemoryDescriptor (hobViews b a) → NoOverflow (hobViews b a))
    (hpair : PairwiseNonOverlapping (hobViews b) L)
    (hd : FindResourceDescriptorByRange (hobViews b) fuel base
      (hobViews b base).EfiMemoryBottom (hobViews b base).EfiMemoryTop = some (some d))
    (hin : (hobViews b base).EfiMemoryBottom ≤ base ∧
      e + sizeof_EFI_HOB_GENERIC_HEADER ≤ (hobViews b base).EfiMemoryTop) :
    ∃ run, BuildHobs (hobViews b) fuel base m = some run ∧
      (run.Status = EFI_STATUS.EFI_SUCCESS →
        ∃ args, run.Constructed = some args ∧
          (args.EfiFreeMemoryBottom + 64 + totalLength b
              (L.filter (fun a => decide ((hobViews b a).HobType ≠ EFI_HOB_TYPE_HANDOFF)))
              ≤ args.EfiFreeMemoryTop →
            ∃ r dsts, BuildHobs.written (PayloadState.mk b mHobList) fuel base m
                = some (run.Status, r) ∧
              r.Added = L.filter
                (fun a => decide ((hobViews b a).HobType ≠ EFI_HOB_TYPE_HANDOFF)) ∧
              HobWalk (hobViews r.State.mem)
                ((L.filter
                  (fun a => decide ((hobViews b a).HobType ≠ EFI_HOB_TYPE_HANDOFF))).length
                  + 2) r.State.mHobList = some (r.State.mHobList :: dsts) ∧
              (hobViews r.State.mem r.State.mHobList).HobType = EFI_HOB_TYPE_HANDOFF ∧
              dsts.map (recordAt (hobViews r.State.mem)) =
                (L.filter
                  (fun a => decide ((hobViews b a).HobType ≠ EFI_HOB_TYPE_HANDOFF))).map
                  (recordAt (hobViews b)))) := by
  obtain ⟨run, hrun, hsucc⟩ := BuildHobs_free_region_disjoint_of_contained (hobViews b) fuel
    base m L d hL hno hpair hd
  refine ⟨run, hrun, fun hs => ?_⟩
  obtain ⟨args, hargs, hdj⟩ := hsucc hs
  refine ⟨args, hargs, fun hroom => ?_⟩
  obtain ⟨r, dsts, h1, h2, _, h4, h5, _, _, _, h9, _⟩ :=
    BuildHobs_written_copies_outside b mHobList fuel base m L e run args hL he hlen hrun hargs
      (BuildHobs_freeTop_lt b fuel base m L run args hL hrun hargs) hroom
      (by rcases hdj with h | h
          · exact Or.inr (le_trans hroom (le_trans h hin.1))
          · exact Or.inl (le_trans hin.2 h))
  exact ⟨r, dsts, h1, h2, h4, h5, h9⟩

/-! ## The record walk on the written memory: claims -/

/-- C13 fails where the new list is written over the old one.  The list of
`bytesStraddle` is well formed and satisfies the data-model invariants; its
records before the end marker are the hand-off record at `0x10FE00` and the
descriptor at `0x10FE38`.  `BuildHobs` succeeds with the free region
`[0x10FE00, 0x110000)`, which has room for the new hand-off record, the end
marker and the copy of the descriptor (`64 + 48` bytes of `0x200`) and starts
at the base of the old list: `HobConstructor` writes the new hand-off record
and end marker over the old hand-off record and the head of the descriptor,
the loop reads them back, and no record is handed to `AddNewHob`: the new list
is its hand-off record alone.  On the list of `bytesBelow`, for which the
third branch selects the free region `[0xE00, 0x1000)` below the old list, the
same loop copies the descriptor: the new list is the hand-off record at `0xE00`
and, at `0xE38`, a record with the type, the length and the payload of the
descriptor at `0x1038`. -/
theorem BuildHobs_migration_loses_overwritten_records :
    (HobWalk (hobViews bytesStraddle) 3 0x10FE00 = some [0x10FE00, 0x10FE38] ∧
      (∀ a ∈ [0x10FE00, 0x10FE38],
        sizeof_EFI_HOB_GENERIC_HEADER ≤ (hobViews bytesStraddle a).HobLength) ∧
      HandoffOrdered (hobViews bytesStraddle 0x10FE00) ∧
      (∀ a ∈ [0x10FE00, 0x10FE38], IsQualifyingMemoryDescriptor (hobViews bytesStraddle a) →
        NoOverflow (hobViews bytesStraddle a)) ∧
      [0x10FE00, 0x10FE38].filter
          (fun a => decide ((hobViews bytesStraddle a).HobType ≠ EFI_HOB_TYPE_HANDOFF)) =
        [0x10FE38] ∧
      (BuildHobs (hobViews bytesStraddle) 3 0x10FE00 0x200).map
          (fun run => (run.Status, run.Constructed)) =
        some (EFI_STATUS.EFI_SUCCESS,
          some (HobConstructorArgs.mk 0x10FE00 0x110000 0x10FE00 0x110000)) ∧
      64 + (hobViews bytesStraddle 0x10FE38).HobLength ≤ 0x110000 - 0x10FE00 ∧
      (BuildHobs.written (PayloadState.mk bytesStraddle 0x10FE00) 3 0x10FE00 0x200).map
          (fun r => (r.1, r.2.Added, r.2.State.mHobList,
            HobWalk (hobViews r.2.State.mem) 3 r.2.State.mHobList)) =
        some (EFI_STATUS.EFI_SUCCESS, [], 0x10FE00, some [0x10FE00])) ∧
    (HobWalk (hobViews bytesBelow) 3 0x1000 = some [0x1000, 0x1038] ∧
      [0x1000, 0x1038].filter
          (fun a => decide ((hobViews bytesBelow a).HobType ≠ EFI_HOB_TYPE_HANDOFF)) =
        [0x1038] ∧
      (BuildHobs (hobViews bytesBelow) 3 0x1000 0x200).map
          (fun run => (run.Status, run.Constructed)) =
        some (EFI_STATUS.EFI_SUCCESS,
          some (HobConstructorArgs.mk 0xE00 0x2000 0xE00 0x1000)) ∧
      (BuildHobs.written (PayloadState.mk bytesBelow 0x1000) 3 0x1000 0x200).map
          (fun r => (r.1, r.2.Added, r.2.State.mHobList,
            HobWalk (hobViews r.2.State.mem) 3 r.2.State.mHobList)) =
        some (EFI_STATUS.EFI_SUCCESS, [0x1038], 0xE00, some [0xE00, 0xE38]) ∧
      (BuildHobs.written (PayloadState.mk bytesBelow 0x1000) 3 0x1000 0x200).map
          (fun r => (hobViews r.2.State.mem 0xE00).HobType) = some EFI_HOB_TYPE_HANDOFF ∧
      (BuildHobs.written (PayloadState.mk bytesBelow 0x1000) 3 0x1000 0x200).map
          (fun r => ((hobViews r.2.State.mem 0xE38).HobType,
            (hobViews r.2.State.mem 0xE38).HobLength,
            (hobViews r.2.State.mem 0xE38).Payload)) =
        some ((hobViews bytesBelow 0x1038).HobType, (hobViews bytesBelow 0x1038).HobLength,
          (hobViews bytesBelow 0x1038).Payload) ∧
      (hobViews bytesBelow 0x1038).Payload.length = 40) := by
  refine ⟨⟨by decide, by decide, by decide, by decide, by decide, by decide, by decide,
    by decide⟩, by decide, by decide, by decide, by decide, by decide, by decide, by decide⟩

end UniversalPayload
